import Mathlib

/-!
Verification of the circuit editing and netlist-construction engine of the
`gsim-gui` schematic editor, following the Rust sources under `src/`.

Conventions of the shallow embedding:
* `i32` is modelled as `ℤ`, `usize` indices as `ℕ`, `u64` as `ℕ`.
* `f32` is modelled as `ℝ`; the float operations used by the code on the
  values relevant here (small integers and half-integers) are exact in
  `f32`, so the real-number model agrees with the source on them.
  `f32::sqrt`, `exp` and `ln` become `Real.sqrt`, `Real.exp`, `Real.log`.
* `Vec<T>` and `SmallVec<T>` become `List T`; `HashSet<usize>` becomes a
  `List ℕ` holding the set's elements in iteration order (the folds the
  code performs over these sets are order-independent).
* Code that can panic (`expect`, `unwrap`, `todo!()`) returns an `Option`,
  with `none` marking the panic.
* External `gsim` simulator handles (`WireId`, `ComponentId`) are modelled
  as `ℕ`; the simulator object itself is opaque to this development.
-/

namespace Gsim

/-! ### Geometry primitives, from `src/app/math.rs` -/

/-- 2D integer vector (`Vec2i`, `math.rs`). -/
structure Vec2i where
  x : ℤ
  y : ℤ
deriving DecidableEq, Repr

/-- 2D float vector (`Vec2f`, `math.rs`), with `f32` modelled as `ℝ`. -/
structure Vec2f where
  x : ℝ
  y : ℝ

instance : Add Vec2i := ⟨fun a b => ⟨a.x + b.x, a.y + b.y⟩⟩
instance : Sub Vec2i := ⟨fun a b => ⟨a.x - b.x, a.y - b.y⟩⟩
instance : Neg Vec2i := ⟨fun a => ⟨-a.x, -a.y⟩⟩

noncomputable instance : Add Vec2f := ⟨fun a b => ⟨a.x + b.x, a.y + b.y⟩⟩
noncomputable instance : Sub Vec2f := ⟨fun a b => ⟨a.x - b.x, a.y - b.y⟩⟩
noncomputable instance : Neg Vec2f := ⟨fun a => ⟨-a.x, -a.y⟩⟩

/-- Scalar multiplication `Vec2f * f32`. -/
noncomputable instance : HMul Vec2f ℝ Vec2f := ⟨fun a s => ⟨a.x * s, a.y * s⟩⟩

/-- Scalar division `Vec2f / f32`. -/
noncomputable instance : HDiv Vec2f ℝ Vec2f := ⟨fun a s => ⟨a.x / s, a.y / s⟩⟩

namespace Vec2i

def new (x y : ℤ) : Vec2i := ⟨x, y⟩

/-- `Vec2i::ZERO`. -/
def ZERO : Vec2i := ⟨0, 0⟩

/-- `Vec2i::MIN` (`i32::MIN` in both lanes). -/
def MIN : Vec2i := ⟨-(2 ^ 31), -(2 ^ 31)⟩

/-- `Vec2i::MAX` (`i32::MAX` in both lanes). -/
def MAX : Vec2i := ⟨2 ^ 31 - 1, 2 ^ 31 - 1⟩

/-- Lane-wise absolute value. -/
def abs (a : Vec2i) : Vec2i := ⟨|a.x|, |a.y|⟩

/-- Lane-wise minimum. -/
def min (a b : Vec2i) : Vec2i := ⟨Min.min a.x b.x, Min.min a.y b.y⟩

/-- Lane-wise maximum. -/
def max (a b : Vec2i) : Vec2i := ⟨Max.max a.x b.x, Max.max a.y b.y⟩

/-- `Vec2i::to_vec2f` (`as f32` casts). -/
def to_vec2f (a : Vec2i) : Vec2f := ⟨(a.x : ℝ), (a.y : ℝ)⟩

end Vec2i

namespace Vec2f

def new (x y : ℝ) : Vec2f := ⟨x, y⟩

/-- `Vec2f::dot`. -/
def dot (a b : Vec2f) : ℝ := a.x * b.x + a.y * b.y

/-- `Vec2f::cross`. -/
def cross (a b : Vec2f) : ℝ := a.x * b.y - a.y * b.x

/-- `Vec2f::len`: `self.dot(self).sqrt()`. -/
noncomputable def len (a : Vec2f) : ℝ := Real.sqrt (a.dot a)

/-- `Vec2f::normalized`: `self / self.len()`. -/
noncomputable def normalized (a : Vec2f) : Vec2f := a / a.len

/-- `Vec2f::floor` (lane-wise `f32::floor`, result still a float vector). -/
noncomputable def floor (a : Vec2f) : Vec2f := ⟨(⌊a.x⌋ : ℝ), (⌊a.y⌋ : ℝ)⟩

/-- `Vec2f::to_vec2i` (`as i32` casts, which truncate toward zero). -/
noncomputable def to_vec2i (a : Vec2f) : Vec2i :=
  ⟨if 0 ≤ a.x then ⌊a.x⌋ else ⌈a.x⌉, if 0 ≤ a.y then ⌊a.y⌋ else ⌈a.y⌉⟩

end Vec2f

/-- Axis-aligned rectangle (`Rectangle`, `math.rs`). -/
structure Rectangle where
  top : ℝ
  bottom : ℝ
  left : ℝ
  right : ℝ

namespace Rectangle

/-- `Rectangle::contains`: inclusive axis-aligned test. -/
def contains (r : Rectangle) (p : Vec2f) : Prop :=
  r.left ≤ p.x ∧ p.x ≤ r.right ∧ r.bottom ≤ p.y ∧ p.y ≤ r.top

/-- `Rectangle::center`. -/
noncomputable def center (r : Rectangle) : Vec2f :=
  (Vec2f.new r.left r.bottom + Vec2f.new r.right r.top) * (0.5 : ℝ)

end Rectangle

/-- Triangle (`Triangle`, `math.rs`). -/
structure Triangle where
  a : Vec2f
  b : Vec2f
  c : Vec2f

namespace Triangle

/-- `Triangle::contains`: sign-of-cross-product test. -/
def contains (t : Triangle) (p : Vec2f) : Prop :=
  let ca := t.a - t.c
  let ab := t.b - t.a
  let cp := p - t.c
  let ap := p - t.a
  let s := ca.cross cp
  let t' := ab.cross ap
  if ((s < 0) ≠ (t' < 0)) ∧ s ≠ 0 ∧ t' ≠ 0 then
    False
  else
    let bc := t.c - t.b
    let bp := p - t.c
    let d := bc.cross bp
    d = 0 ∨ ((d < 0) = (s + t' ≤ 0))

end Triangle

/-! ### Viewport constants, from `src/app/viewport.rs` -/

/-- `BASE_ZOOM: f32 = 10.0` (logical pixels per unit). -/
def BASE_ZOOM : ℝ := 10

/-- `LOGICAL_PIXEL_SIZE: f32 = 1.0 / BASE_ZOOM`. -/
noncomputable def LOGICAL_PIXEL_SIZE : ℝ := 1 / BASE_ZOOM

/-! ### Component model, from `src/app/component.rs` -/

/-- `AnchorKind`. -/
inductive AnchorKind where
  | Input
  | Output
  | BiDirectional
  | Passive
deriving DecidableEq, Repr

/-- Typed connection point on a component (`Anchor`, `component.rs`).

The `width` field is modelled from the spec: the netlist width-inference
code (`circuit.rs`, `find_wire_group_widths`) reads `anchor.width`, but the
`Anchor` struct in the `component.rs` present under `src/` does not carry
that field.  Per the spec (§4.7), every anchor declares a bit width used
for wire-group width inference. -/
structure Anchor where
  position : Vec2i
  kind : AnchorKind
  width : ℕ
deriving DecidableEq, Repr

/-- `Rotation`: 0/90/180/270 degrees. -/
inductive Rotation where
  | Deg0
  | Deg90
  | Deg180
  | Deg270
deriving DecidableEq, Repr

namespace Rotation

/-- `Rotation::prev`. -/
def prev : Rotation → Rotation
  | Deg0 => Deg270
  | Deg90 => Deg0
  | Deg180 => Deg90
  | Deg270 => Deg180

/-- `Rotation::next`. -/
def next : Rotation → Rotation
  | Deg0 => Deg90
  | Deg90 => Deg180
  | Deg180 => Deg270
  | Deg270 => Deg0

/-- `Rotation::mirror`. -/
def mirror : Rotation → Rotation
  | Deg0 => Deg0
  | Deg90 => Deg270
  | Deg180 => Deg180
  | Deg270 => Deg90

end Rotation

/-- `ComponentKind` (`component.rs`).  `NumericTextValue<NonZeroU8>` widths
are modelled as their numeric value (a `ℕ`, at least 1 when built through
the `new_*` constructors); the UI text buffer carried by `NumericTextValue`
is irrelevant to the engine.  Simulator handles are `ℕ`. -/
inductive ComponentKind where
  | Input (name : String) (value : ℕ) (width : ℕ) (sim_wire : ℕ)
  | ClockInput (name : String) (sim_wire : ℕ)
  | Output (name : String) (width : ℕ) (sim_wire : ℕ)
  | Splitter (width : ℕ) (ranges : List (ℕ × ℕ))
  | AndGate (width : ℕ) (sim_component : ℕ)
  | OrGate (width : ℕ) (sim_component : ℕ)
  | XorGate (width : ℕ) (sim_component : ℕ)
  | NandGate (width : ℕ) (sim_component : ℕ)
  | NorGate (width : ℕ) (sim_component : ℕ)
  | XnorGate (width : ℕ) (sim_component : ℕ)
deriving DecidableEq, Repr

namespace ComponentKind

/-- The declared bit width of a component kind (1 for clock inputs, which
carry no width field).  Used to attach the spec-modelled width to each
anchor in `anchors` below. -/
def declared_width : ComponentKind → ℕ
  | Input _ _ width _ => width
  | ClockInput _ _ => 1
  | Output _ width _ => width
  | Splitter width _ => width
  | AndGate width _ => width
  | OrGate width _ => width
  | XorGate width _ => width
  | NandGate width _ => width
  | NorGate width _ => width
  | XnorGate width _ => width

/-- `ComponentKind::anchors`: the fixed per-kind anchor offsets
(`component.rs` lines 162-189).  Anchor widths are modelled from the spec
as the owning component's declared width. -/
def anchors (k : ComponentKind) : List Anchor :=
  let w := k.declared_width
  match k with
  | Input _ _ _ _ | ClockInput _ _ =>
      [⟨Vec2i.new 0 1, AnchorKind.Output, w⟩]
  | Output _ _ _ =>
      [⟨Vec2i.new 0 (-1), AnchorKind.Input, w⟩]
  | Splitter _ ranges =>
      ⟨Vec2i.new 0 (-1), AnchorKind.Passive, w⟩ ::
        (List.range ranges.length).map
          (fun i => ⟨Vec2i.new (i * 2) 1, AnchorKind.Passive, w⟩)
  | AndGate _ _ | OrGate _ _ | XorGate _ _ =>
      [⟨Vec2i.new (-1) (-2), AnchorKind.Input, w⟩,
       ⟨Vec2i.new 1 (-2), AnchorKind.Input, w⟩,
       ⟨Vec2i.new 0 2, AnchorKind.Output, w⟩]
  | NandGate _ _ | NorGate _ _ | XnorGate _ _ =>
      [⟨Vec2i.new (-1) (-2), AnchorKind.Input, w⟩,
       ⟨Vec2i.new 1 (-2), AnchorKind.Input, w⟩,
       ⟨Vec2i.new 0 3, AnchorKind.Output, w⟩]

/-- `ComponentKind::bounding_box` (`component.rs` lines 191-214).
The `Splitter` arm is `todo!()` in the source, i.e. a panic, modelled as
`none`. -/
def bounding_box : ComponentKind → Option Rectangle
  | Input _ _ _ _ | ClockInput _ _ | Output _ _ _ =>
      some ⟨1, -1, -1, 1⟩
  | Splitter _ _ => none
  | AndGate _ _ | OrGate _ _ | XorGate _ _
  | NandGate _ _ | NorGate _ _ | XnorGate _ _ =>
      some ⟨2, -2, -2, 2⟩

end ComponentKind

/-- A placed component (`Component`, `component.rs`).  The two
`NumericTextValue<i32>` position fields are modelled by their numeric
values. -/
structure Component where
  kind : ComponentKind
  position_x : ℤ
  position_y : ℤ
  rotation : Rotation
  mirrored : Bool
deriving DecidableEq, Repr

namespace Component

/-- `Component::new`. -/
def new (kind : ComponentKind) : Component :=
  ⟨kind, 0, 0, Rotation.Deg0, false⟩

/-- `Component::position`. -/
def position (c : Component) : Vec2i := Vec2i.new c.position_x c.position_y

/-- `Component::set_position`. -/
def set_position (c : Component) (p : Vec2i) : Component :=
  { c with position_x := p.x, position_y := p.y }

/-- `Component::anchors`: mirror across the local X axis, then rotate,
then translate by the position (`component.rs` lines 415-433). -/
def anchors (c : Component) : List Anchor :=
  c.kind.anchors.map fun anchor =>
    let p0 := anchor.position
    let p1 : Vec2i := if c.mirrored then ⟨-p0.x, p0.y⟩ else p0
    let p2 : Vec2i :=
      match c.rotation with
      | Rotation.Deg0 => p1
      | Rotation.Deg90 => ⟨-p1.y, p1.x⟩
      | Rotation.Deg180 => -p1
      | Rotation.Deg270 => ⟨p1.y, -p1.x⟩
    { anchor with position := ⟨p2.x + c.position_x, p2.y + c.position_y⟩ }

/-- `Component::bounding_box` (`component.rs` lines 435-472): mirror, then
rotate, then translate.  `none` when the kind's bounding box is a panic
(`Splitter`). -/
def bounding_box (c : Component) : Option Rectangle :=
  (c.kind.bounding_box).map fun bb0 =>
    let bb1 : Rectangle :=
      if c.mirrored then
        { bb0 with left := -bb0.right, right := -bb0.left }
      else bb0
    let bb2 : Rectangle :=
      match c.rotation with
      | Rotation.Deg0 => bb1
      | Rotation.Deg90 => ⟨bb1.right, bb1.left, -bb1.top, -bb1.bottom⟩
      | Rotation.Deg180 => ⟨-bb1.bottom, -bb1.top, -bb1.right, -bb1.left⟩
      | Rotation.Deg270 => ⟨-bb1.left, -bb1.right, bb1.bottom, bb1.top⟩
    ⟨bb2.top + (c.position_y : ℝ), bb2.bottom + (c.position_y : ℝ),
     bb2.left + (c.position_x : ℝ), bb2.right + (c.position_x : ℝ)⟩

end Component

/-! ### Wire segments, selection, drag state, from `src/app/circuit.rs` -/

open Classical

/-- A drawn wire (`WireSegment`, `circuit.rs`): two endpoints, derived
midpoints, cached simulator wire handles. -/
structure WireSegment where
  endpoint_a : Vec2i
  midpoints : List Vec2i
  endpoint_b : Vec2i
  sim_wires : List ℕ
deriving DecidableEq, Repr

instance : Inhabited WireSegment := ⟨⟨Vec2i.ZERO, [], Vec2i.ZERO, []⟩⟩

namespace WireSegment

/-- Loop of `WireSegment::contains` (`circuit.rs` lines 72-104): walk the
consecutive point pairs, build the two stroke triangles, return the index
of the first hit. -/
noncomputable def contains_loop (p : Vec2f) : Vec2f → List Vec2f → ℕ → Option ℕ
  | _, [], _ => none
  | a, b :: rest, i =>
      let dir := (b - a).normalized
      let left := Vec2f.new dir.y (-dir.x) * LOGICAL_PIXEL_SIZE
      let right := Vec2f.new (-dir.y) dir.x * LOGICAL_PIXEL_SIZE
      let a1 := a + left
      let a2 := a + right
      let b1 := b + left
      let b2 := b + right
      let t1 : Triangle := ⟨a1, a2, b2⟩
      let t2 : Triangle := ⟨a1, b2, b1⟩
      if t1.contains p ∨ t2.contains p then some i
      else contains_loop p b rest (i + 1)

/-- `WireSegment::contains` (`circuit.rs` lines 48-105): inclusive
bounding-box reject expanded by one logical pixel, then the triangle
walk.  Returns the sub-segment index of the first hit. -/
noncomputable def contains (s : WireSegment) (p : Vec2f) : Option ℕ :=
  let mm := (s.midpoints ++ [s.endpoint_a] ++ [s.endpoint_b]).foldl
    (fun (mm : Vec2i × Vec2i) v => (mm.1.min v, mm.2.max v)) (Vec2i.MAX, Vec2i.MIN)
  let bb : Rectangle :=
    ⟨(mm.2.y : ℝ) + LOGICAL_PIXEL_SIZE, (mm.1.y : ℝ) - LOGICAL_PIXEL_SIZE,
     (mm.1.x : ℝ) - LOGICAL_PIXEL_SIZE, (mm.2.x : ℝ) + LOGICAL_PIXEL_SIZE⟩
  if ¬ bb.contains p then none
  else contains_loop p s.endpoint_a.to_vec2f
    ((s.midpoints ++ [s.endpoint_b]).map Vec2i.to_vec2f) 0

/-- `WireSegment::update_midpoints` (`circuit.rs` lines 107-140). -/
def update_midpoints (s : WireSegment) : WireSegment :=
  let diff := (s.endpoint_b - s.endpoint_a).abs
  let midpoints : List Vec2i :=
    if diff.x = 0 ∨ diff.y = 0 ∨ diff.x = diff.y then
      []
    else if diff.x > diff.y then
      let offset := if s.endpoint_a.x > s.endpoint_b.x then diff.x - diff.y
                    else diff.y - diff.x
      [Vec2i.new (s.endpoint_b.x + offset) s.endpoint_b.y]
    else
      let offset := if s.endpoint_a.y > s.endpoint_b.y then diff.y - diff.x
                    else diff.x - diff.y
      [Vec2i.new s.endpoint_b.x (s.endpoint_b.y + offset)]
  { s with midpoints := midpoints }

/-- `WireSegment::split_at` (`circuit.rs` lines 142-164).  Returns the
shrunk original segment and the new trailing segment.  (The slice
`split_at(index)` panics in Rust for `index > len`; `List.take`/`drop`
are total, and the theorems only use in-range indices.) -/
def split_at (s : WireSegment) (index : ℕ) (p : Vec2i) : WireSegment × WireSegment :=
  let left0 := s.midpoints.take index
  let right0 := s.midpoints.drop index
  let left := if left0.getLast? = some p then left0.dropLast else left0
  let right := if right0.head? = some p then right0.tail else right0
  ({ s with midpoints := left, endpoint_b := p },
   ⟨p, right, s.endpoint_b, s.sim_wires⟩)

end WireSegment

/-- `Selection` (`circuit.rs`).  The `HashSet<usize>` members of `Multi`
are modelled as lists of their elements. -/
inductive Selection where
  | None
  | Component (index : ℕ)
  | WireSegment (index : ℕ)
  | Multi (components : List ℕ) (wire_segments : List ℕ) (center : Vec2f)

namespace Selection

/-- `Selection::contains_component`. -/
def contains_component : Selection → ℕ → Prop
  | None, _ => False
  | Component c, i => c = i
  | WireSegment _, _ => False
  | Multi components _ _, i => i ∈ components

/-- `Selection::contains_wire_segment`. -/
def contains_wire_segment : Selection → ℕ → Prop
  | None, _ => False
  | Component _, _ => False
  | WireSegment s, i => s = i
  | Multi _ wire_segments _, i => i ∈ wire_segments

end Selection

/-- `DragState` (`circuit.rs`). -/
inductive DragState where
  | None
  | Deadzone (drag_start drag_delta : Vec2f)
  | DrawingBoxSelection (drag_start drag_delta : Vec2f)
  | DraggingWirePointA (wire_segment : ℕ) (drag_start drag_delta : Vec2f)
  | DraggingWirePointB (wire_segment : ℕ) (drag_start drag_delta : Vec2f)
  | Dragging (fract_drag_delta : Vec2f)

/-- `HitTestResult` (`circuit.rs`). -/
inductive HitTestResult where
  | None
  | Component (index : ℕ)
  | WireSegment (index : ℕ) (sub_segment : ℕ)
  | ComponentAnchor (index : ℕ)
  | WirePointA (index : ℕ)
  | WirePointB (index : ℕ)
deriving DecidableEq, Repr

/-- The external `gsim::Simulator`, opaque to this development. -/
def Simulator := Unit

/-- `SimState` (`circuit.rs`). -/
inductive SimState where
  | None
  | Active (sim : Simulator) (clock_state : Bool)
  | Conflict (sim : Simulator) (conflict_segments : List ℕ)

/-- Result of `gsim::Simulator::run_sim` (external collaborator contract:
`Ok | MaxStepsReached | Err(conflicts)`). -/
inductive SimulationRunResult where
  | Ok
  | MaxStepsReached
  | Err (conflicts : List ℕ)

/-! ### Zoom mapping, from `src/app/circuit.rs` lines 12-36 -/

def MIN_LINEAR_ZOOM : ℝ := 0
def MAX_LINEAR_ZOOM : ℝ := 1
noncomputable def MIN_ZOOM : ℝ := 0.5
def MAX_ZOOM : ℝ := 4
def DEFAULT_ZOOM : ℝ := 1

/-- `zoom_fn_b()`. -/
noncomputable def zoom_fn_b : ℝ :=
  Real.log (MAX_ZOOM / MIN_ZOOM) / (MAX_LINEAR_ZOOM - MIN_LINEAR_ZOOM)

/-- `zoom_fn_a()`. -/
noncomputable def zoom_fn_a : ℝ :=
  MIN_ZOOM * Real.exp (-zoom_fn_b * MIN_LINEAR_ZOOM)

/-- `zoom_to_linear`. -/
noncomputable def zoom_to_linear (zoom : ℝ) : ℝ :=
  Real.log (zoom / zoom_fn_a) / zoom_fn_b

/-- `linear_to_zoom`. -/
noncomputable def linear_to_zoom (linear : ℝ) : ℝ :=
  zoom_fn_a * Real.exp (zoom_fn_b * linear)

/-- `f32::clamp` (for non-NaN values; `ℝ` has no NaN). -/
noncomputable def clamp (x lo hi : ℝ) : ℝ :=
  if x < lo then lo else if hi < x then hi else x

/-! ### The circuit aggregate, from `src/app/circuit.rs` -/

/-- `Circuit` (`circuit.rs` lines 257-278).  `PathBuf` is modelled as a
`String`. -/
structure Circuit where
  name : String
  offset : Vec2f
  linear_zoom : ℝ
  zoom : ℝ
  components : List Component
  wire_segments : List WireSegment
  selection : Selection
  drag_state : DragState
  primary_button_down : Bool
  secondary_button_down : Bool
  file_name : Option String
  sim_state : SimState

namespace Circuit

/-- `Circuit::set_linear_zoom` (`circuit.rs` lines 320-329).  Returns the
updated circuit and the requires-redraw flag. -/
noncomputable def set_linear_zoom (c : Circuit) (zoom : ℝ) : Circuit × Bool :=
  let new_linear_zoom := clamp zoom MIN_LINEAR_ZOOM MAX_LINEAR_ZOOM
  if new_linear_zoom ≠ c.linear_zoom then
    ({ c with linear_zoom := new_linear_zoom,
              zoom := linear_to_zoom new_linear_zoom }, true)
  else
    (c, false)

/-- `Circuit::add_component` (`circuit.rs` lines 341-345). -/
def add_component (c : Circuit) (kind : ComponentKind) : Circuit :=
  { c with selection := Selection.Component c.components.length,
           drag_state := DragState.None,
           components := c.components ++ [Component.new kind] }

/-- Component half of `Circuit::hit_test` (`circuit.rs` lines 394-404):
for each component in order, first its anchors against the snap radius,
then its bounding box.  The outer `Option` is `none` when the bounding-box
computation panics (`Splitter` is `todo!()`); the inner `Option` is `none`
when no component is hit. -/
noncomputable def hit_test_components (p : Vec2f) :
    List Component → ℕ → Option (Option HitTestResult)
  | [], _ => some none
  | comp :: rest, i =>
      if ∃ anchor ∈ comp.anchors,
          (p - anchor.position.to_vec2f).len ≤ LOGICAL_PIXEL_SIZE * 2 then
        some (some (HitTestResult.ComponentAnchor i))
      else
        match comp.bounding_box with
        | none => none
        | some bb =>
            if bb.contains p then some (some (HitTestResult.Component i))
            else hit_test_components p rest (i + 1)

/-- Wire half of `Circuit::hit_test` (`circuit.rs` lines 406-426): for
each non-excluded segment in order, endpoint A within the snap radius,
then endpoint B, then the segment body. -/
noncomputable def hit_test_wires (p : Vec2f) (exclude_wire : Option ℕ) :
    List WireSegment → ℕ → HitTestResult
  | [], _ => HitTestResult.None
  | w :: rest, i =>
      if some i = exclude_wire then hit_test_wires p exclude_wire rest (i + 1)
      else if (p - w.endpoint_a.to_vec2f).len ≤ LOGICAL_PIXEL_SIZE * 2 then
        HitTestResult.WirePointA i
      else if (p - w.endpoint_b.to_vec2f).len ≤ LOGICAL_PIXEL_SIZE * 2 then
        HitTestResult.WirePointB i
      else
        match w.contains p with
        | some split_point => HitTestResult.WireSegment i split_point
        | none => hit_test_wires p exclude_wire rest (i + 1)

/-- `Circuit::hit_test` (`circuit.rs` lines 393-429).  `none` models the
panic reachable through a `Splitter` bounding box. -/
noncomputable def hit_test (c : Circuit) (logical_pos : Vec2f)
    (exclude_wire : Option ℕ) : Option HitTestResult :=
  match hit_test_components logical_pos c.components 0 with
  | none => none
  | some (some r) => some r
  | some none =>
      some (hit_test_wires logical_pos exclude_wire c.wire_segments 0)

end Circuit

/-- In-place update of a vector element obtained through
`get_mut(i).expect(..)`: `none` models the panic on an invalid index. -/
def update_at {α : Type _} (l : List α) (i : ℕ) (f : α → α) : Option (List α) :=
  if h : i < l.length then some (l.set i (f (l.get ⟨i, h⟩))) else none

/-- The per-point transform of `Circuit::transform_selection`: translate
to the pivot, apply the point function, translate back, floor, cast. -/
noncomputable def transform_point (apply_pt : Vec2f → Vec2f) (center : Vec2f)
    (p : Vec2i) : Vec2i :=
  ((apply_pt (p.to_vec2f - center)) + center).floor.to_vec2i

/-- The component update of `Circuit::transform_selection`'s `Component`
arm: flags only, position untouched. -/
def transform_component_flags (apply_mirror : Bool → Bool)
    (apply_rot : Rotation → Rotation) (comp : Component) : Component :=
  { comp with mirrored := apply_mirror comp.mirrored,
              rotation := apply_rot comp.rotation }

/-- The wire update of `Circuit::transform_selection`'s `WireSegment` arm:
pivot at the midpoint of the two endpoints, transform endpoints and
midpoints. -/
noncomputable def transform_wire_own_center (apply_pt : Vec2f → Vec2f)
    (w : WireSegment) : WireSegment :=
  let center := (w.endpoint_a + w.endpoint_b).to_vec2f * (0.5 : ℝ)
  { w with
    endpoint_a := transform_point apply_pt center w.endpoint_a,
    endpoint_b := transform_point apply_pt center w.endpoint_b,
    midpoints := w.midpoints.map (transform_point apply_pt center) }

/-- The wire update of the `Multi` arm: same transform, but around the
selection's stored pivot. -/
noncomputable def transform_wire_fixed_center (apply_pt : Vec2f → Vec2f)
    (center : Vec2f) (w : WireSegment) : WireSegment :=
  { w with
    endpoint_a := transform_point apply_pt center w.endpoint_a,
    endpoint_b := transform_point apply_pt center w.endpoint_b,
    midpoints := w.midpoints.map (transform_point apply_pt center) }

/-- The component update of the `Multi` arm: flags, plus the position
transformed around the stored pivot. -/
noncomputable def transform_component_multi (apply_mirror : Bool → Bool)
    (apply_rot : Rotation → Rotation) (apply_pt : Vec2f → Vec2f)
    (center : Vec2f) (comp : Component) : Component :=
  let comp := comp.set_position (transform_point apply_pt center comp.position)
  { comp with mirrored := apply_mirror comp.mirrored,
              rotation := apply_rot comp.rotation }

/-- The `for &component in components` loop of the `Multi` arm. -/
noncomputable def transform_multi_loop {α : Type _} (f : α → α) :
    List ℕ → List α → Option (List α)
  | [], l => some l
  | i :: rest, l =>
      match update_at l i f with
      | none => none
      | some l' => transform_multi_loop f rest l'

namespace Circuit

/-- `Circuit::transform_selection` (`circuit.rs` lines 1004-1074).
`none` models the `expect("invalid selection")` panics. -/
noncomputable def transform_selection (c : Circuit)
    (apply_mirror : Bool → Bool) (apply_rot : Rotation → Rotation)
    (apply_pt : Vec2f → Vec2f) : Option Circuit :=
  match c.selection with
  | Selection.None => some c
  | Selection.Component i =>
      (update_at c.components i
        (transform_component_flags apply_mirror apply_rot)).map
        fun comps => { c with components := comps }
  | Selection.WireSegment i =>
      (update_at c.wire_segments i (transform_wire_own_center apply_pt)).map
        fun wires => { c with wire_segments := wires }
  | Selection.Multi sel_components sel_wire_segments center =>
      match transform_multi_loop
          (transform_component_multi apply_mirror apply_rot apply_pt center)
          sel_components c.components with
      | none => none
      | some comps =>
          match transform_multi_loop
              (transform_wire_fixed_center apply_pt center)
              sel_wire_segments c.wire_segments with
          | none => none
          | some wires =>
              some { c with components := comps, wire_segments := wires }

/-- `Circuit::counterclockwise_rotate_selection` (`circuit.rs` 1076-1080). -/
noncomputable def counterclockwise_rotate_selection (c : Circuit) : Option Circuit :=
  c.transform_selection id Rotation.next (fun v => Vec2f.new (-v.y) v.x)

/-- `Circuit::clockwise_rotate_selection` (`circuit.rs` 1082-1086). -/
noncomputable def clockwise_rotate_selection (c : Circuit) : Option Circuit :=
  c.transform_selection id Rotation.prev (fun v => Vec2f.new v.y (-v.x))

/-- `Circuit::mirror_selection` (`circuit.rs` 1088-1092). -/
noncomputable def mirror_selection (c : Circuit) : Option Circuit :=
  c.transform_selection not Rotation.mirror (fun v => Vec2f.new (-v.x) v.y)

/-- Component fold of `Circuit::find_selection_bounding_box`
(`circuit.rs` lines 971-976); `none` models `expect("invalid selection")`. -/
def fsbb_components (comps : List Component) :
    List ℕ → Vec2i × Vec2i → Option (Vec2i × Vec2i)
  | [], mm => some mm
  | i :: rest, mm =>
      match comps.get? i with
      | none => none
      | some comp =>
          fsbb_components comps rest
            (mm.1.min comp.position, mm.2.max comp.position)

/-- Wire fold of `Circuit::find_selection_bounding_box`
(`circuit.rs` lines 978-994). -/
def fsbb_wires (wires : List WireSegment) :
    List ℕ → Vec2i × Vec2i → Option (Vec2i × Vec2i)
  | [], mm => some mm
  | i :: rest, mm =>
      match wires.get? i with
      | none => none
      | some w =>
          let mm := (mm.1.min w.endpoint_a, mm.2.max w.endpoint_a)
          let mm := (mm.1.min w.endpoint_b, mm.2.max w.endpoint_b)
          let mm := w.midpoints.foldl
            (fun (mm : Vec2i × Vec2i) p => (mm.1.min p, mm.2.max p)) mm
          fsbb_wires wires rest mm

/-- `Circuit::find_selection_bounding_box` (`circuit.rs` lines 963-1002). -/
def find_selection_bounding_box (c : Circuit)
    (components wire_segments : List ℕ) : Option Rectangle := do
  let mm₀ : Vec2i × Vec2i :=
    (Vec2i.new (2 ^ 31 - 1) (2 ^ 31 - 1), Vec2i.new (-(2 ^ 31)) (-(2 ^ 31)))
  let mm ← fsbb_components c.components components mm₀
  let mm ← fsbb_wires c.wire_segments wire_segments mm
  pure ⟨(mm.2.y : ℝ), (mm.1.y : ℝ), (mm.1.x : ℝ), (mm.2.x : ℝ)⟩

/-- The `DragState::DrawingBoxSelection` arm of
`Circuit::primary_button_released` (`circuit.rs` lines 558-604): compute
the enclosing rectangle of the drag and build the new selection.  Returns
the new value of `self.selection` (`none` models the
`find_selection_bounding_box` panics, unreachable for in-range drags). -/
noncomputable def box_selection_release (c : Circuit)
    (drag_start drag_delta : Vec2f) : Option Selection :=
  let selection_box : Rectangle :=
    ⟨Max.max drag_start.y (drag_start.y + drag_delta.y),
     Min.min drag_start.y (drag_start.y + drag_delta.y),
     Min.min drag_start.x (drag_start.x + drag_delta.x),
     Max.max drag_start.x (drag_start.x + drag_delta.x)⟩
  let selected_components :=
    (c.components.enum.filter fun pr =>
      decide (selection_box.contains pr.2.position.to_vec2f)).map Prod.fst
  let selected_wire_segments :=
    (c.wire_segments.enum.filter fun pr =>
      decide (selection_box.contains pr.2.endpoint_a.to_vec2f) ||
      decide (selection_box.contains pr.2.endpoint_b.to_vec2f)).map Prod.fst
  if selected_components.length = 1 ∧ selected_wire_segments.isEmpty then
    some (Selection.Component (selected_components.headD 0))
  else if selected_components.isEmpty ∧ selected_wire_segments.length = 1 then
    some (Selection.WireSegment (selected_wire_segments.headD 0))
  else if ¬ selected_components.isEmpty ∨ ¬ selected_wire_segments.isEmpty then
    (c.find_selection_bounding_box selected_components selected_wire_segments).map
      fun bb => Selection.Multi selected_components selected_wire_segments bb.center
  else
    some c.selection

/-- `Circuit::advance_simulation` (`circuit.rs` lines 1290-1312).  The
external `sim.run_sim(max_steps)` call's result is a parameter; `none`
models the `todo!()` panic on `MaxStepsReached`. -/
def advance_simulation (c : Circuit) (sim : Simulator) (clock_state : Bool)
    (run_result : SimulationRunResult) : Option Circuit :=
  match run_result with
  | SimulationRunResult.Ok =>
      some { c with sim_state := SimState.Active sim clock_state }
  | SimulationRunResult.MaxStepsReached => none
  | SimulationRunResult.Err conflicts =>
      let conflict_segments :=
        (c.wire_segments.enum.filter fun pr =>
          pr.2.sim_wires.any fun sim_wire => conflicts.contains sim_wire).map
          Prod.fst
      some { c with sim_state := SimState.Conflict sim conflict_segments }

end Circuit

/-! ### Wire grouping, from `src/app/circuit.rs` lines 1192-1242 -/

/-- `segments_connect` (`circuit.rs` lines 1193-1198). -/
def segments_connect (a b : WireSegment) : Prop :=
  a.endpoint_a = b.endpoint_a ∨ a.endpoint_a = b.endpoint_b ∨
  a.endpoint_b = b.endpoint_a ∨ a.endpoint_b = b.endpoint_b

instance : ∀ a b, Decidable (segments_connect a b) := fun _ _ => by
  unfold segments_connect; infer_instance

/-- State of the flood fill: the group being built and the group map
(`Vec<Option<usize>>` modelled as a total function on indices). -/
def FloodState : Type := List ℕ × (ℕ → Option ℕ)

/-- `find_adjacent` (`circuit.rs` lines 1200-1215), fused with its `for`
loop: `i` is the loop index, restarting at 0 in each nested call.  The
Rust recursion terminates because every nested call first fills a `None`
slot of the group map; here that measure is supplied as explicit `fuel`
(one unit per nested call).  The entry point passes more fuel than there
are segments, and the fuel-sufficiency lemmas below show the fuel is then
never exhausted, so the model agrees with the source. -/
def find_adjacent (segments : List WireSegment) (group_index : ℕ) :
    ℕ → WireSegment → ℕ → FloodState → FloodState
  | 0, _, _, st => st
  | fuel + 1, segment, i, st =>
      if h : i < segments.length then
        let other := segments.get ⟨i, h⟩
        if (st.2 i).isNone ∧ segments_connect segment other then
          let st1 : FloodState :=
            (st.1 ++ [i], Function.update st.2 i (some group_index))
          let st2 := find_adjacent segments group_index fuel other 0 st1
          find_adjacent segments group_index (fuel + 1) segment (i + 1) st2
        else
          find_adjacent segments group_index (fuel + 1) segment (i + 1) st
      else st
termination_by fuel _ i _ => (fuel, segments.length - i)
decreasing_by
  · exact Prod.Lex.left _ _ (Nat.lt_succ_self fuel)
  · exact Prod.Lex.right _ (by omega)
  · exact Prod.Lex.right _ (by omega)

/-- Outer loop of `find_wire_groups` (`circuit.rs` lines 1217-1234). -/
def find_wire_groups_loop (segments : List WireSegment) :
    ℕ → List (List ℕ) → (ℕ → Option ℕ) → List (List ℕ) × (ℕ → Option ℕ)
  | i, groups, group_map =>
      if h : i < segments.length then
        if (group_map i).isNone then
          let group_index := groups.length
          let st := find_adjacent segments group_index (segments.length + 1)
            (segments.get ⟨i, h⟩) 0
            ([i], Function.update group_map i (some group_index))
          find_wire_groups_loop segments (i + 1) (groups ++ [st.1]) st.2
        else
          find_wire_groups_loop segments (i + 1) groups group_map
      else (groups, group_map)
termination_by i _ _ => segments.length - i
decreasing_by all_goals omega

/-- `Circuit::find_wire_groups` (`circuit.rs` lines 1192-1242), as a
function of the wire-segment vector.  The group map is returned with its
`Option` wrappers; totality (the absence of the `expect("wire with no
group")` panic) is proven below. -/
def find_wire_groups (segments : List WireSegment) :
    List (List ℕ) × (ℕ → Option ℕ) :=
  find_wire_groups_loop segments 0 [] (fun _ => none)

/-! ### Width inference, from `src/app/circuit.rs` lines 1244-1288 -/

/-- Loop of `find_segment_width` (`circuit.rs` lines 1249-1262) over the
flattened anchor list. -/
def fsw_loop (segment : WireSegment) :
    List Anchor → Option ℕ → Except Unit (Option ℕ)
  | [], acc => Except.ok acc
  | anchor :: rest, acc =>
      if anchor.position = segment.endpoint_a ∨
          anchor.position = segment.endpoint_b then
        match acc with
        | some w =>
            if anchor.width ≠ w then Except.error ()
            else fsw_loop segment rest acc
        | none => fsw_loop segment rest (some anchor.width)
      else fsw_loop segment rest acc

/-- `find_segment_width` (`circuit.rs` lines 1245-1265): the width of the
anchors coinciding with the segment's endpoints, `Err` on a mismatch. -/
def find_segment_width (segment : WireSegment) (components : List Component) :
    Except Unit (Option ℕ) :=
  fsw_loop segment (components.map Component.anchors).flatten none

/-- Per-group loop of `find_wire_group_widths` (`circuit.rs` lines
1269-1285).  Out-of-range indices read a default segment; the groups
produced by `find_wire_groups` are always in range. -/
def group_width_loop (wire_segments : List WireSegment)
    (components : List Component) :
    List ℕ → Option ℕ → Except Unit (Option ℕ)
  | [], acc => Except.ok acc
  | i :: rest, acc =>
      match find_segment_width (wire_segments.getD i default) components with
      | Except.error _ => Except.error ()
      | Except.ok segment_width =>
          match acc, segment_width with
          | _, none => group_width_loop wire_segments components rest acc
          | none, some sw =>
              group_width_loop wire_segments components rest (some sw)
          | some gw, some sw =>
              if sw ≠ gw then Except.error ()
              else group_width_loop wire_segments components rest acc

/-- `Circuit::find_wire_group_widths` (`circuit.rs` lines 1244-1288):
one inferred width per group, defaulting to 1 (`NonZeroU8::MIN`), `Err`
on any conflict. -/
def find_wire_group_widths (wire_segments : List WireSegment)
    (components : List Component) (groups : List (List ℕ)) :
    Except Unit (List ℕ) :=
  groups.mapM fun group =>
    (group_width_loop wire_segments components group none).map
      fun group_width => group_width.getD 1


/-! ### Box selection (C8): vocabulary -/

/-- The enclosing rectangle of a drag, as computed by the
`DragState::DrawingBoxSelection` arm of `primary_button_released`
(`circuit.rs` lines 563-568). -/
noncomputable def drag_box (drag_start drag_delta : Vec2f) : Rectangle :=
  ⟨Max.max drag_start.y (drag_start.y + drag_delta.y),
   Min.min drag_start.y (drag_start.y + drag_delta.y),
   Min.min drag_start.x (drag_start.x + drag_delta.x),
   Max.max drag_start.x (drag_start.x + drag_delta.x)⟩

/-- The min/max folding step of `find_selection_bounding_box`. -/
def mm_step (mm : Vec2i × Vec2i) (p : Vec2i) : Vec2i × Vec2i :=
  (mm.1.min p, mm.2.max p)

/-- Positions of the indexed components, in index order. -/
def comp_points (comps : List Component) (idxs : List ℕ) : List Vec2i :=
  idxs.filterMap fun i => (comps.get? i).map Component.position

/-- Endpoints and midpoints of the indexed wire segments, in index order. -/
def wire_points (ws : List WireSegment) (idxs : List ℕ) : List Vec2i :=
  idxs.flatMap fun i =>
    match ws.get? i with
    | none => []
    | some w => w.endpoint_a :: w.endpoint_b :: w.midpoints

/-- Every grid point stored in a circuit: component positions, wire
endpoints and wire midpoints. -/
def circuit_points (c : Circuit) : List Vec2i :=
  c.components.map Component.position ++
  c.wire_segments.flatMap fun w => w.endpoint_a :: w.endpoint_b :: w.midpoints

/-- Both lanes fit in an `i32` (always true of the source's `Vec2i`). -/
def in_i32_range (p : Vec2i) : Prop :=
  -(2 ^ 31) ≤ p.x ∧ p.x ≤ 2 ^ 31 - 1 ∧ -(2 ^ 31) ≤ p.y ∧ p.y ≤ 2 ^ 31 - 1

instance (p : Vec2i) : Decidable (in_i32_range p) := by
  unfold in_i32_range; infer_instance

/-- `bb` is the exact bounding box of the point list: it bounds every
point and attains each of its four sides. -/
def is_bounding_box (bb : Rectangle) (pts : List Vec2i) : Prop :=
  (∀ p ∈ pts, bb.left ≤ (p.x : ℝ) ∧ (p.x : ℝ) ≤ bb.right ∧
    bb.bottom ≤ (p.y : ℝ) ∧ (p.y : ℝ) ≤ bb.top) ∧
  (∃ p ∈ pts, bb.left = (p.x : ℝ)) ∧ (∃ p ∈ pts, bb.right = (p.x : ℝ)) ∧
  (∃ p ∈ pts, bb.bottom = (p.y : ℝ)) ∧ (∃ p ∈ pts, bb.top = (p.y : ℝ))

/-- The box catches a component: its position lies inside. -/
def comp_in_box (box : Rectangle) (comp : Component) : Prop :=
  box.contains comp.position.to_vec2f

/-- The box catches a wire segment: one of its two endpoints lies inside
(midpoints are not examined by the source). -/
def wire_in_box (box : Rectangle) (w : WireSegment) : Prop :=
  box.contains w.endpoint_a.to_vec2f ∨ box.contains w.endpoint_b.to_vec2f

/-- Number of components caught by the box. -/
noncomputable def box_count_c (c : Circuit) (box : Rectangle) : ℕ :=
  c.components.countP fun comp => decide (comp_in_box box comp)

/-- Number of wire segments caught by the box. -/
noncomputable def box_count_w (c : Circuit) (box : Rectangle) : ℕ :=
  c.wire_segments.countP fun w => decide (wire_in_box box w)


/-! ### Hit testing (C1): vocabulary -/

/-- The point is within the anchor-snap radius of one of the component's
anchors (the per-component anchor test of `hit_test`). -/
def anchor_hit (p : Vec2f) (comp : Component) : Prop :=
  ∃ anchor ∈ comp.anchors,
    (p - anchor.position.to_vec2f).len ≤ LOGICAL_PIXEL_SIZE * 2

/-- The point lies inside the component's bounding box. -/
def comp_hit (p : Vec2f) (comp : Component) : Prop :=
  ∃ bb, comp.bounding_box = some bb ∧ bb.contains p

/-- The point is within the snap radius of the wire's endpoint A. -/
def wpa_hit (p : Vec2f) (w : WireSegment) : Prop :=
  (p - w.endpoint_a.to_vec2f).len ≤ LOGICAL_PIXEL_SIZE * 2

/-- The point is within the snap radius of the wire's endpoint B. -/
def wpb_hit (p : Vec2f) (w : WireSegment) : Prop :=
  (p - w.endpoint_b.to_vec2f).len ≤ LOGICAL_PIXEL_SIZE * 2

/-- The first component of the C1 counterexample: an `Input` at (0,0),
whose bounding box `[-1,1] × [-1,1]` contains the probe point (1,0). -/
def c1_comp0 : Component :=
  ⟨ComponentKind.Input "" 0 1 0, 0, 0, Rotation.Deg0, false⟩

/-- The second component: an `Input` at (1,-1), whose single anchor sits
exactly at the probe point (1,0). -/
def c1_comp1 : Component :=
  ⟨ComponentKind.Input "" 0 1 1, 1, -1, Rotation.Deg0, false⟩

/-- Circuit with the two components above and no wires. -/
noncomputable def c1_cex_circuit : Circuit where
  name := ""
  offset := ⟨0, 0⟩
  linear_zoom := 0
  zoom := 1
  components := [c1_comp0, c1_comp1]
  wire_segments := []
  selection := Selection.None
  drag_state := DragState.None
  primary_button_down := false
  secondary_button_down := false
  file_name := none
  sim_state := SimState.None


/-! ### Wire geometry (C7): vocabulary -/

/-- Cast a grid point into the real plane. -/
def p2r (v : Vec2i) : ℝ × ℝ := ((v.x : ℝ), (v.y : ℝ))

/-- The closed line segment drawn between two grid points. -/
def seg2 (a b : Vec2i) : Set (ℝ × ℝ) := segment ℝ (p2r a) (p2r b)

/-- The curve traced by a point sequence: the union of the segments
between consecutive points. -/
def polyline : List Vec2i → Set (ℝ × ℝ)
  | [] => ∅
  | [_] => ∅
  | a :: b :: rest => seg2 a b ∪ polyline (b :: rest)

/-- The point sequence of a wire segment: endpoint A, the midpoints, and
endpoint B. -/
def points (s : WireSegment) : List Vec2i :=
  s.endpoint_a :: (s.midpoints ++ [s.endpoint_b])

/-- The drawn shape of a wire segment. -/
def geometry (s : WireSegment) : Set (ℝ × ℝ) := polyline (points s)

/-- The concrete wire of the C7 witness: (0,0) to (4,2) through the
midpoint (2,2), with one simulation-wire handle. -/
def c7_wire : WireSegment := ⟨⟨0, 0⟩, [⟨2, 2⟩], ⟨4, 2⟩, [5]⟩


/-! ### Wire grouping (C3): vocabulary -/

/-- Adjacency of wire-segment indices: both in range and the segments
share an endpoint (`segments_connect`). -/
def seg_adj (segs : List WireSegment) (i j : ℕ) : Prop :=
  ∃ hi : i < segs.length, ∃ hj : j < segs.length,
    segments_connect (segs.get ⟨i, hi⟩) (segs.get ⟨j, hj⟩)

/-- Number of unassigned slots of a group map, the flood fill's
termination measure. -/
def countNone (n : ℕ) (gm : ℕ → Option ℕ) : ℕ :=
  (List.range n).countP fun k => (gm k).isNone

/-- `b` extends `a` by assigning (only) fresh in-range slots to `gIdx`. -/
def Ext (gIdx n : ℕ) (a b : ℕ → Option ℕ) : Prop :=
  ∀ k, b k = a k ∨ (a k = none ∧ b k = some gIdx ∧ k < n)

/-- Concrete wires for the C3 witness: segments 0 and 1 share the endpoint
(1,0); segment 2 is isolated. -/
def c3_segs : List WireSegment :=
  [⟨⟨0, 0⟩, [], ⟨1, 0⟩, []⟩, ⟨⟨1, 0⟩, [], ⟨2, 0⟩, []⟩, ⟨⟨5, 5⟩, [], ⟨6, 5⟩, []⟩]

/-! ## Theorems -/

/-! Unfolding lemmas for the vector arithmetic instances. -/

@[simp] theorem Vec2i.add_def_i (a b : Vec2i) : a + b = ⟨a.x + b.x, a.y + b.y⟩ := rfl

@[simp] theorem Vec2i.sub_def_i (a b : Vec2i) : a - b = ⟨a.x - b.x, a.y - b.y⟩ := rfl

@[simp] theorem Vec2i.neg_def_i (a : Vec2i) : -a = ⟨-a.x, -a.y⟩ := rfl

@[simp] theorem Vec2i.x_mk_i (x y : ℤ) : Vec2i.x ⟨x, y⟩ = x := rfl

@[simp] theorem Vec2i.y_mk_i (x y : ℤ) : Vec2i.y ⟨x, y⟩ = y := rfl

@[simp] theorem Vec2f.x_mk (x y : ℝ) : Vec2f.x ⟨x, y⟩ = x := rfl

@[simp] theorem Vec2f.y_mk (x y : ℝ) : Vec2f.y ⟨x, y⟩ = y := rfl

@[simp] theorem Vec2f.add_def (a b : Vec2f) : a + b = ⟨a.x + b.x, a.y + b.y⟩ := rfl

@[simp] theorem Vec2f.sub_def (a b : Vec2f) : a - b = ⟨a.x - b.x, a.y - b.y⟩ := rfl

@[simp] theorem Vec2f.neg_def (a : Vec2f) : -a = ⟨-a.x, -a.y⟩ := rfl

@[simp] theorem Vec2f.smul_def (a : Vec2f) (s : ℝ) :
    a * s = ⟨a.x * s, a.y * s⟩ := rfl

@[simp] theorem Vec2f.sdiv_def (a : Vec2f) (s : ℝ) :
    a / s = ⟨a.x / s, a.y / s⟩ := rfl

/-! ### Helper lemmas for the selection transforms (C2) -/

theorem floor_to_vec2i (v : Vec2f) : v.floor.to_vec2i = ⟨⌊v.x⌋, ⌊v.y⌋⟩ := by
  unfold Vec2f.floor Vec2f.to_vec2i
  refine congrArg₂ Vec2i.mk ?_ ?_ <;> dsimp only <;> split_ifs <;> simp

theorem transform_point_ccw (center : Vec2f) (p : Vec2i) :
    transform_point (fun v => Vec2f.new (-v.y) v.x) center p =
      ⟨⌊center.x + center.y⌋ - p.y, ⌊center.y - center.x⌋ + p.x⟩ := by
  unfold transform_point
  rw [floor_to_vec2i]
  unfold Vec2i.to_vec2f Vec2f.new
  refine congrArg₂ Vec2i.mk ?_ ?_ <;>
    simp only [Vec2f.sub_def, Vec2f.add_def, Vec2f.x_mk, Vec2f.y_mk]
  · rw [show -((p.y : ℝ) - center.y) + center.x
        = (center.x + center.y) - (p.y : ℝ) by ring, Int.floor_sub_int]
  · rw [show ((p.x : ℝ) - center.x) + center.y
        = (center.y - center.x) + (p.x : ℝ) by ring, Int.floor_add_int]

theorem transform_point_cw (center : Vec2f) (p : Vec2i) :
    transform_point (fun v => Vec2f.new v.y (-v.x)) center p =
      ⟨⌊center.x - center.y⌋ + p.y, ⌊center.y + center.x⌋ - p.x⟩ := by
  unfold transform_point
  rw [floor_to_vec2i]
  unfold Vec2i.to_vec2f Vec2f.new
  refine congrArg₂ Vec2i.mk ?_ ?_ <;>
    simp only [Vec2f.sub_def, Vec2f.add_def, Vec2f.x_mk, Vec2f.y_mk]
  · rw [show ((p.y : ℝ) - center.y) + center.x
        = (center.x - center.y) + (p.y : ℝ) by ring, Int.floor_add_int]
  · rw [show -((p.x : ℝ) - center.x) + center.y
        = (center.y + center.x) - (p.x : ℝ) by ring, Int.floor_sub_int]

theorem transform_point_mirror (center : Vec2f) (p : Vec2i) :
    transform_point (fun v => Vec2f.new (-v.x) v.y) center p =
      ⟨⌊center.x + center.x⌋ - p.x, p.y⟩ := by
  unfold transform_point
  rw [floor_to_vec2i]
  unfold Vec2i.to_vec2f Vec2f.new
  refine congrArg₂ Vec2i.mk ?_ ?_ <;>
    simp only [Vec2f.sub_def, Vec2f.add_def, Vec2f.x_mk, Vec2f.y_mk]
  · rw [show -((p.x : ℝ) - center.x) + center.x
        = (center.x + center.x) - (p.x : ℝ) by ring, Int.floor_sub_int]
  · rw [show ((p.y : ℝ) - center.y) + center.y = ((p.y : ℤ) : ℝ) by ring,
      Int.floor_intCast]

theorem rotation_next_four (r : Rotation) : r.next.next.next.next = r := by
  cases r <;> rfl

theorem rotation_mirror_mirror (r : Rotation) : r.mirror.mirror = r := by
  cases r <;> rfl

theorem vec2i_mk_eq {x y u v : ℤ} (hx : x = u) (hy : y = v) :
    Vec2i.mk x y = Vec2i.mk u v := by rw [hx, hy]

theorem wire_mk_eq {a a' b b' : Vec2i} {m m' : List Vec2i} {s s' : List ℕ}
    (ha : a = a') (hm : m = m') (hb : b = b') (hs : s = s') :
    WireSegment.mk a m b s = WireSegment.mk a' m' b' s' := by
  rw [ha, hm, hb, hs]

theorem mirror_wire_step (a b : Vec2i) (mids : List Vec2i) (sw : List ℕ) :
    transform_wire_own_center (fun v => Vec2f.new (-v.x) v.y) ⟨a, mids, b, sw⟩ =
      ⟨⟨a.x + b.x - a.x, a.y⟩, mids.map (fun m => ⟨a.x + b.x - m.x, m.y⟩),
       ⟨a.x + b.x - b.x, b.y⟩, sw⟩ := by
  unfold transform_wire_own_center
  simp only [transform_point_mirror, Vec2i.add_def_i, Vec2i.to_vec2f,
    Vec2f.smul_def, Vec2f.x_mk, Vec2f.y_mk, Vec2i.x_mk_i, Vec2i.y_mk_i]
  rw [show ((a.x + b.x : ℤ) : ℝ) * 0.5 + ((a.x + b.x : ℤ) : ℝ) * 0.5
      = ((a.x + b.x : ℤ) : ℝ) by ring, Int.floor_intCast]
  refine wire_mk_eq rfl ?_ rfl rfl
  refine List.map_congr_left fun m _ => ?_
  rw [transform_point_mirror]
  simp only [Vec2f.x_mk, Vec2f.y_mk]
  rw [show ((a.x + b.x : ℤ) : ℝ) * 0.5 + ((a.x + b.x : ℤ) : ℝ) * 0.5
      = ((a.x + b.x : ℤ) : ℝ) by ring, Int.floor_intCast]

theorem mirror_wire_involutive (w : WireSegment) :
    transform_wire_own_center (fun v => Vec2f.new (-v.x) v.y)
      (transform_wire_own_center (fun v => Vec2f.new (-v.x) v.y) w) = w := by
  obtain ⟨⟨ax, ay⟩, mids, ⟨bx, by'⟩, sw⟩ := w
  rw [mirror_wire_step ⟨ax, ay⟩ ⟨bx, by'⟩ mids sw]
  simp only [Vec2i.x_mk_i, Vec2i.y_mk_i]
  rw [mirror_wire_step ⟨ax + bx - ax, ay⟩ ⟨ax + bx - bx, by'⟩ _ sw]
  simp only [Vec2i.x_mk_i, Vec2i.y_mk_i, List.map_map]
  refine wire_mk_eq (vec2i_mk_eq (by omega) rfl) ?_
    (vec2i_mk_eq (by omega) rfl) rfl
  refine (List.map_congr_left fun m _ => ?_).trans (List.map_id mids)
  simp only [Function.comp_apply, Vec2i.x_mk_i, Vec2i.y_mk_i, id_eq]
  exact vec2i_mk_eq (by omega) rfl

theorem ccw_wire_step (a b : Vec2i) (mids : List Vec2i) (sw : List ℕ)
    (cx0 cy0 : ℤ) (hx : a.x + b.x = cx0 + cx0) (hy : a.y + b.y = cy0 + cy0) :
    transform_wire_own_center (fun v => Vec2f.new (-v.y) v.x) ⟨a, mids, b, sw⟩ =
      ⟨⟨cx0 + cy0 - a.y, cy0 - cx0 + a.x⟩,
       mids.map (fun m => ⟨cx0 + cy0 - m.y, cy0 - cx0 + m.x⟩),
       ⟨cx0 + cy0 - b.y, cy0 - cx0 + b.x⟩, sw⟩ := by
  unfold transform_wire_own_center
  simp only [transform_point_ccw, Vec2i.add_def_i, Vec2i.to_vec2f,
    Vec2f.smul_def, Vec2f.x_mk, Vec2f.y_mk, Vec2i.x_mk_i, Vec2i.y_mk_i]
  rw [show ((a.x + b.x : ℤ) : ℝ) * 0.5 + ((a.y + b.y : ℤ) : ℝ) * 0.5
      = ((cx0 + cy0 : ℤ) : ℝ) by rw [hx, hy]; push_cast; ring]
  rw [show ((a.y + b.y : ℤ) : ℝ) * 0.5 - ((a.x + b.x : ℤ) : ℝ) * 0.5
      = ((cy0 - cx0 : ℤ) : ℝ) by rw [hx, hy]; push_cast; ring]
  rw [Int.floor_intCast, Int.floor_intCast]
  refine wire_mk_eq rfl ?_ rfl rfl
  refine List.map_congr_left fun m _ => ?_
  rw [transform_point_ccw]
  simp only [Vec2f.x_mk, Vec2f.y_mk]
  rw [show ((a.x + b.x : ℤ) : ℝ) * 0.5 + ((a.y + b.y : ℤ) : ℝ) * 0.5
      = ((cx0 + cy0 : ℤ) : ℝ) by rw [hx, hy]; push_cast; ring]
  rw [show ((a.y + b.y : ℤ) : ℝ) * 0.5 - ((a.x + b.x : ℤ) : ℝ) * 0.5
      = ((cy0 - cx0 : ℤ) : ℝ) by rw [hx, hy]; push_cast; ring]
  rw [Int.floor_intCast, Int.floor_intCast]

theorem ccw_wire_four (w : WireSegment)
    (hx : Even (w.endpoint_a.x + w.endpoint_b.x))
    (hy : Even (w.endpoint_a.y + w.endpoint_b.y)) :
    transform_wire_own_center (fun v => Vec2f.new (-v.y) v.x)
      (transform_wire_own_center (fun v => Vec2f.new (-v.y) v.x)
        (transform_wire_own_center (fun v => Vec2f.new (-v.y) v.x)
          (transform_wire_own_center (fun v => Vec2f.new (-v.y) v.x) w))) = w := by
  obtain ⟨⟨ax, ay⟩, mids, ⟨bx, by'⟩, sw⟩ := w
  obtain ⟨cx0, hcx⟩ := hx
  obtain ⟨cy0, hcy⟩ := hy
  simp only [Vec2i.x_mk_i, Vec2i.y_mk_i] at hcx hcy
  rw [ccw_wire_step ⟨ax, ay⟩ ⟨bx, by'⟩ mids sw cx0 cy0
    (by simpa using hcx) (by simpa using hcy)]
  simp only [Vec2i.x_mk_i, Vec2i.y_mk_i]
  rw [ccw_wire_step ⟨cx0 + cy0 - ay, cy0 - cx0 + ax⟩
    ⟨cx0 + cy0 - by', cy0 - cx0 + bx⟩ _ sw cx0 cy0
    (by simp only [Vec2i.x_mk_i, Vec2i.y_mk_i]; omega)
    (by simp only [Vec2i.x_mk_i, Vec2i.y_mk_i]; omega)]
  simp only [Vec2i.x_mk_i, Vec2i.y_mk_i]
  rw [ccw_wire_step ⟨cx0 + cy0 - (cy0 - cx0 + ax), cy0 - cx0 + (cx0 + cy0 - ay)⟩
    ⟨cx0 + cy0 - (cy0 - cx0 + bx), cy0 - cx0 + (cx0 + cy0 - by')⟩ _ sw cx0 cy0
    (by simp only [Vec2i.x_mk_i, Vec2i.y_mk_i]; omega)
    (by simp only [Vec2i.x_mk_i, Vec2i.y_mk_i]; omega)]
  simp only [Vec2i.x_mk_i, Vec2i.y_mk_i]
  rw [ccw_wire_step _ _ _ sw cx0 cy0
    (by simp only [Vec2i.x_mk_i, Vec2i.y_mk_i]; omega)
    (by simp only [Vec2i.x_mk_i, Vec2i.y_mk_i]; omega)]
  simp only [Vec2i.x_mk_i, Vec2i.y_mk_i, List.map_map]
  refine wire_mk_eq (vec2i_mk_eq (by omega) (by omega)) ?_
    (vec2i_mk_eq (by omega) (by omega)) rfl
  refine (List.map_congr_left fun m _ => ?_).trans (List.map_id mids)
  simp only [Function.comp_apply, Vec2i.x_mk_i, Vec2i.y_mk_i, id_eq]
  exact vec2i_mk_eq (by omega) (by omega)

theorem list_set_get_self {α : Type _} (l : List α) (i : ℕ) (h : i < l.length) :
    l.set i l[i] = l := by
  apply List.ext_getElem?
  intro n
  by_cases hin : i = n
  · subst hin; rw [List.getElem?_set_self h, List.getElem?_eq_getElem h]
  · rw [List.getElem?_set_ne hin]

theorem update_at_pos {α : Type _} (l : List α) (i : ℕ) (f : α → α)
    (h : i < l.length) : update_at l i f = some (l.set i (f l[i])) := by
  unfold update_at
  rw [dif_pos h, List.get_eq_getElem]

theorem transform_multi_loop_spec {α : Type _} (f : α → α) :
    ∀ (idxs : List ℕ) (l : List α), (∀ i ∈ idxs, i < l.length) → idxs.Nodup →
    ∃ l', transform_multi_loop f idxs l = some l' ∧ l'.length = l.length ∧
      ∀ j : ℕ, l'[j]? = if j ∈ idxs then l[j]?.map f else l[j]?
  | [], l, _, _ => ⟨l, rfl, rfl, fun j => by simp⟩
  | i :: rest, l, hvalid, hnodup => by
    have hi : i < l.length := hvalid i (List.mem_cons_self i rest)
    have hupd := update_at_pos l i f hi
    obtain ⟨hnd1, hnd2⟩ := List.nodup_cons.mp hnodup
    have hvalid' : ∀ j ∈ rest, j < (l.set i (f l[i])).length := by
      intro j hj
      rw [List.length_set]
      exact hvalid j (List.mem_cons_of_mem _ hj)
    obtain ⟨l', h1, h2, h3⟩ :=
      transform_multi_loop_spec f rest (l.set i (f l[i])) hvalid' hnd2
    refine ⟨l', ?_, by rw [h2, List.length_set], ?_⟩
    · show transform_multi_loop f (i :: rest) l = some l'
      unfold transform_multi_loop
      rw [hupd]
      exact h1
    · intro j
      rw [h3 j]
      by_cases hji : j = i
      · subst hji
        rw [if_neg (fun hc => hnd1 hc), if_pos (List.mem_cons_self j rest),
          List.getElem?_set_self hi, List.getElem?_eq_getElem hi]
        rfl
      · rw [List.getElem?_set_ne (fun hc => hji hc.symm)]
        by_cases hjr : j ∈ rest
        · rw [if_pos hjr, if_pos (List.mem_cons_of_mem _ hjr)]
        · rw [if_neg hjr, if_neg (fun hc => ?_)]
          rcases List.mem_cons.mp hc with h' | h'
          · exact hji h'
          · exact hjr h'

theorem mirror_point_fixed_involutive (center : Vec2f) (p : Vec2i) :
    transform_point (fun v => Vec2f.new (-v.x) v.y) center
      (transform_point (fun v => Vec2f.new (-v.x) v.y) center p) = p := by
  obtain ⟨px, py⟩ := p
  rw [transform_point_mirror, transform_point_mirror]
  simp only [Vec2i.x_mk_i, Vec2i.y_mk_i]
  exact vec2i_mk_eq (by omega) rfl

theorem ccw_point_fixed_four (center : Vec2f) (p : Vec2i) :
    transform_point (fun v => Vec2f.new (-v.y) v.x) center
      (transform_point (fun v => Vec2f.new (-v.y) v.x) center
        (transform_point (fun v => Vec2f.new (-v.y) v.x) center
          (transform_point (fun v => Vec2f.new (-v.y) v.x) center p))) = p := by
  obtain ⟨px, py⟩ := p
  rw [transform_point_ccw, transform_point_ccw, transform_point_ccw,
    transform_point_ccw]
  simp only [Vec2i.x_mk_i, Vec2i.y_mk_i]
  exact vec2i_mk_eq (by omega) (by omega)

theorem component_mk_eq {k k' : ComponentKind} {px px' py py' : ℤ}
    {r r' : Rotation} {m m' : Bool} (hk : k = k') (hpx : px = px')
    (hpy : py = py') (hr : r = r') (hm : m = m') :
    Component.mk k px py r m = Component.mk k' px' py' r' m' := by
  rw [hk, hpx, hpy, hr, hm]

theorem mirror_component_multi_involutive (center : Vec2f) (comp : Component) :
    transform_component_multi not Rotation.mirror
      (fun v => Vec2f.new (-v.x) v.y) center
      (transform_component_multi not Rotation.mirror
        (fun v => Vec2f.new (-v.x) v.y) center comp) = comp := by
  obtain ⟨k, px, py, r, m⟩ := comp
  unfold transform_component_multi Component.set_position Component.position
  simp only [Vec2i.new, transform_point_mirror, Vec2i.x_mk_i, Vec2i.y_mk_i]
  exact component_mk_eq rfl (by omega) rfl (rotation_mirror_mirror r)
    (Bool.not_not m)

theorem ccw_component_multi_four (center : Vec2f) (comp : Component) :
    transform_component_multi id Rotation.next
      (fun v => Vec2f.new (-v.y) v.x) center
      (transform_component_multi id Rotation.next
        (fun v => Vec2f.new (-v.y) v.x) center
        (transform_component_multi id Rotation.next
          (fun v => Vec2f.new (-v.y) v.x) center
          (transform_component_multi id Rotation.next
            (fun v => Vec2f.new (-v.y) v.x) center comp))) = comp := by
  obtain ⟨k, px, py, r, m⟩ := comp
  unfold transform_component_multi Component.set_position Component.position
  simp only [Vec2i.new, transform_point_ccw, Vec2i.x_mk_i, Vec2i.y_mk_i, id_eq]
  exact component_mk_eq rfl (by omega) (by omega) (rotation_next_four r) rfl

theorem mirror_wire_fixed_involutive (center : Vec2f) (w : WireSegment) :
    transform_wire_fixed_center (fun v => Vec2f.new (-v.x) v.y) center
      (transform_wire_fixed_center (fun v => Vec2f.new (-v.x) v.y) center w)
      = w := by
  obtain ⟨a, mids, b, sw⟩ := w
  unfold transform_wire_fixed_center
  simp only [List.map_map]
  refine wire_mk_eq (mirror_point_fixed_involutive center a) ?_
    (mirror_point_fixed_involutive center b) rfl
  refine (List.map_congr_left fun m _ => ?_).trans (List.map_id mids)
  exact mirror_point_fixed_involutive center m

theorem ccw_wire_fixed_four (center : Vec2f) (w : WireSegment) :
    transform_wire_fixed_center (fun v => Vec2f.new (-v.y) v.x) center
      (transform_wire_fixed_center (fun v => Vec2f.new (-v.y) v.x) center
        (transform_wire_fixed_center (fun v => Vec2f.new (-v.y) v.x) center
          (transform_wire_fixed_center (fun v => Vec2f.new (-v.y) v.x) center
            w))) = w := by
  obtain ⟨a, mids, b, sw⟩ := w
  unfold transform_wire_fixed_center
  simp only [List.map_map]
  refine wire_mk_eq (ccw_point_fixed_four center a) ?_
    (ccw_point_fixed_four center b) rfl
  refine (List.map_congr_left fun m _ => ?_).trans (List.map_id mids)
  exact ccw_point_fixed_four center m

theorem tcf_mirror_involutive (comp : Component) :
    transform_component_flags not Rotation.mirror
      (transform_component_flags not Rotation.mirror comp) = comp := by
  obtain ⟨k, px, py, r, m⟩ := comp
  unfold transform_component_flags
  exact component_mk_eq rfl rfl rfl (rotation_mirror_mirror r) (Bool.not_not m)

theorem tcf_next_four (comp : Component) :
    transform_component_flags id Rotation.next
      (transform_component_flags id Rotation.next
        (transform_component_flags id Rotation.next
          (transform_component_flags id Rotation.next comp))) = comp := by
  obtain ⟨k, px, py, r, m⟩ := comp
  unfold transform_component_flags
  exact component_mk_eq rfl rfl rfl (rotation_next_four r) rfl

theorem option_map_invol {α : Type _} {f : α → α} (hf : ∀ x, f (f x) = x)
    (o : Option α) : (o.map f).map f = o := by
  cases o <;> simp [hf]

theorem option_map_four {α : Type _} {f : α → α}
    (hf : ∀ x, f (f (f (f x))) = x) (o : Option α) :
    ((((o.map f).map f).map f).map f) = o := by
  cases o <;> simp [hf]

/-- Validity of the current selection's indices (with the `HashSet`
members of `Multi` duplicate-free, as hash sets are). -/
def selection_valid (c : Circuit) : Prop :=
  match c.selection with
  | Selection.None => True
  | Selection.Component i => i < c.components.length
  | Selection.WireSegment i => i < c.wire_segments.length
  | Selection.Multi comps wires _ =>
      (∀ i ∈ comps, i < c.components.length) ∧ comps.Nodup ∧
      (∀ i ∈ wires, i < c.wire_segments.length) ∧ wires.Nodup

/-- Parity condition on a single selected wire segment: both coordinate
sums of its endpoints are even (equivalently, the segment's pivot is a
lattice point). -/
def rotation_parity_ok (c : Circuit) : Prop :=
  ∀ i w, c.selection = Selection.WireSegment i → c.wire_segments[i]? = some w →
    Even (w.endpoint_a.x + w.endpoint_b.x) ∧
    Even (w.endpoint_a.y + w.endpoint_b.y)

theorem transform_selection_of_none (c : Circuit) (fm : Bool → Bool)
    (fr : Rotation → Rotation) (fp : Vec2f → Vec2f)
    (h : c.selection = Selection.None) :
    c.transform_selection fm fr fp = some c := by
  unfold Circuit.transform_selection
  rw [h]

theorem transform_selection_of_component (c : Circuit) (fm : Bool → Bool)
    (fr : Rotation → Rotation) (fp : Vec2f → Vec2f) (i : ℕ)
    (h : c.selection = Selection.Component i) (hi : i < c.components.length) :
    c.transform_selection fm fr fp = some { c with
      components := c.components.set i
        (transform_component_flags fm fr c.components[i]) } := by
  unfold Circuit.transform_selection
  rw [h]
  show (update_at c.components i _).map _ = _
  rw [update_at_pos _ _ _ hi]
  rfl

theorem transform_selection_of_wire (c : Circuit) (fm : Bool → Bool)
    (fr : Rotation → Rotation) (fp : Vec2f → Vec2f) (i : ℕ)
    (h : c.selection = Selection.WireSegment i)
    (hi : i < c.wire_segments.length) :
    c.transform_selection fm fr fp = some { c with
      wire_segments := c.wire_segments.set i
        (transform_wire_own_center fp c.wire_segments[i]) } := by
  unfold Circuit.transform_selection
  rw [h]
  show (update_at c.wire_segments i _).map _ = _
  rw [update_at_pos _ _ _ hi]
  rfl

theorem transform_selection_of_multi (c : Circuit) (fm : Bool → Bool)
    (fr : Rotation → Rotation) (fp : Vec2f → Vec2f)
    (comps wires : List ℕ) (center : Vec2f)
    (h : c.selection = Selection.Multi comps wires center)
    (hcv : ∀ i ∈ comps, i < c.components.length) (hcn : comps.Nodup)
    (hwv : ∀ i ∈ wires, i < c.wire_segments.length) (hwn : wires.Nodup) :
    ∃ comps' wires',
      c.transform_selection fm fr fp =
        some { c with components := comps', wire_segments := wires' } ∧
      comps'.length = c.components.length ∧
      wires'.length = c.wire_segments.length ∧
      (∀ j : ℕ, comps'[j]? = if j ∈ comps then
        c.components[j]?.map (transform_component_multi fm fr fp center)
        else c.components[j]?) ∧
      (∀ j : ℕ, wires'[j]? = if j ∈ wires then
        c.wire_segments[j]?.map (transform_wire_fixed_center fp center)
        else c.wire_segments[j]?) := by
  obtain ⟨comps', hc1, hc2, hc3⟩ :=
    transform_multi_loop_spec _ comps c.components hcv hcn
  obtain ⟨wires', hw1, hw2, hw3⟩ :=
    transform_multi_loop_spec _ wires c.wire_segments hwv hwn
  refine ⟨comps', wires', ?_, hc2, hw2, hc3, hw3⟩
  unfold Circuit.transform_selection
  rw [h]
  show (match transform_multi_loop _ comps c.components with
    | none => none
    | some comps' => _) = _
  rw [hc1, hw1]


/-! ### C2: rotate/mirror round trips -/

theorem ts_twice_component (c : Circuit) (fm : Bool → Bool)
    (fr : Rotation → Rotation) (fp : Vec2f → Vec2f) (i : ℕ)
    (hsel : c.selection = Selection.Component i)
    (hi : i < c.components.length)
    (hinv : ∀ comp, transform_component_flags fm fr
      (transform_component_flags fm fr comp) = comp) :
    (c.transform_selection fm fr fp >>=
      fun c' => c'.transform_selection fm fr fp) = some c := by
  set c1 : Circuit := { c with components := (c.components.set i
    (transform_component_flags fm fr c.components[i])) } with hc1
  rw [transform_selection_of_component c fm fr fp i hsel hi]
  show Circuit.transform_selection c1 fm fr fp = some c
  have hsel1 : c1.selection = Selection.Component i := hsel
  have hi1 : i < c1.components.length := by
    rw [hc1]
    show i < (List.set _ _ _).length
    rw [List.length_set]
    exact hi
  rw [transform_selection_of_component c1 fm fr fp i hsel1 hi1]
  congr 1
  have hget : c1.components[i] = transform_component_flags fm fr
      c.components[i] := by
    show (List.set _ _ _)[i] = _
    rw [List.getElem_set, if_pos rfl]
  have hcomps : c1.components.set i
      (transform_component_flags fm fr c1.components[i]) = c.components := by
    rw [hget, hinv]
    show (List.set _ _ _).set i _ = _
    rw [List.set_set]
    exact list_set_get_self _ _ hi
  rw [hcomps, hc1]

theorem ts_twice_wire (c : Circuit) (fm : Bool → Bool)
    (fr : Rotation → Rotation) (fp : Vec2f → Vec2f) (i : ℕ)
    (hsel : c.selection = Selection.WireSegment i)
    (hi : i < c.wire_segments.length)
    (hinv : transform_wire_own_center fp
      (transform_wire_own_center fp c.wire_segments[i]) = c.wire_segments[i]) :
    (c.transform_selection fm fr fp >>=
      fun c' => c'.transform_selection fm fr fp) = some c := by
  set c1 : Circuit := { c with wire_segments := (c.wire_segments.set i
    (transform_wire_own_center fp c.wire_segments[i])) } with hc1
  rw [transform_selection_of_wire c fm fr fp i hsel hi]
  show Circuit.transform_selection c1 fm fr fp = some c
  have hsel1 : c1.selection = Selection.WireSegment i := hsel
  have hi1 : i < c1.wire_segments.length := by
    rw [hc1]
    show i < (List.set _ _ _).length
    rw [List.length_set]
    exact hi
  rw [transform_selection_of_wire c1 fm fr fp i hsel1 hi1]
  congr 1
  have hget : c1.wire_segments[i] = transform_wire_own_center fp
      c.wire_segments[i] := by
    show (List.set _ _ _)[i] = _
    rw [List.getElem_set, if_pos rfl]
  have hws : c1.wire_segments.set i
      (transform_wire_own_center fp c1.wire_segments[i]) = c.wire_segments := by
    rw [hget, hinv]
    show (List.set _ _ _).set i _ = _
    rw [List.set_set]
    exact list_set_get_self _ _ hi
  rw [hws, hc1]

theorem ts_twice_multi (c : Circuit) (fm : Bool → Bool)
    (fr : Rotation → Rotation) (fp : Vec2f → Vec2f)
    (comps wires : List ℕ) (center : Vec2f)
    (hsel : c.selection = Selection.Multi comps wires center)
    (hcv : ∀ i ∈ comps, i < c.components.length) (hcn : comps.Nodup)
    (hwv : ∀ i ∈ wires, i < c.wire_segments.length) (hwn : wires.Nodup)
    (hcinv : ∀ comp, transform_component_multi fm fr fp center
      (transform_component_multi fm fr fp center comp) = comp)
    (hwinv : ∀ w, transform_wire_fixed_center fp center
      (transform_wire_fixed_center fp center w) = w) :
    (c.transform_selection fm fr fp >>=
      fun c' => c'.transform_selection fm fr fp) = some c := by
  obtain ⟨comps1, wires1, e1, hlc1, hlw1, hpc1, hpw1⟩ :=
    transform_selection_of_multi c fm fr fp comps wires center hsel
      hcv hcn hwv hwn
  rw [e1]
  set c1 : Circuit :=
    { c with components := comps1, wire_segments := wires1 } with hc1
  show Circuit.transform_selection c1 fm fr fp = some c
  have hsel1 : c1.selection = Selection.Multi comps wires center := hsel
  have hcv1 : ∀ i ∈ comps, i < c1.components.length := fun j hj => by
    show j < comps1.length
    rw [hlc1]
    exact hcv j hj
  have hwv1 : ∀ i ∈ wires, i < c1.wire_segments.length := fun j hj => by
    show j < wires1.length
    rw [hlw1]
    exact hwv j hj
  obtain ⟨comps2, wires2, e2, hlc2, hlw2, hpc2, hpw2⟩ :=
    transform_selection_of_multi c1 fm fr fp comps wires center hsel1
      hcv1 hcn hwv1 hwn
  rw [e2]
  congr 1
  have hcomp : comps2 = c.components := by
    apply List.ext_getElem?
    intro j
    rw [hpc2 j, show c1.components = comps1 from rfl]
    by_cases hj : j ∈ comps
    · rw [if_pos hj, hpc1 j, if_pos hj]
      exact option_map_invol hcinv _
    · rw [if_neg hj, hpc1 j, if_neg hj]
  have hwire : wires2 = c.wire_segments := by
    apply List.ext_getElem?
    intro j
    rw [hpw2 j, show c1.wire_segments = wires1 from rfl]
    by_cases hj : j ∈ wires
    · rw [if_pos hj, hpw1 j, if_pos hj]
      exact option_map_invol hwinv _
    · rw [if_neg hj, hpw1 j, if_neg hj]
  rw [hcomp, hwire, hc1]

theorem option_some_bind {α β : Type _} (a : α) (f : α → Option β) :
    (some a >>= f) = f a := rfl

theorem ts_four_component (c : Circuit) (fm : Bool → Bool)
    (fr : Rotation → Rotation) (fp : Vec2f → Vec2f) (i : ℕ)
    (hsel : c.selection = Selection.Component i)
    (hi : i < c.components.length)
    (hinv : ∀ comp, transform_component_flags fm fr
      (transform_component_flags fm fr (transform_component_flags fm fr
        (transform_component_flags fm fr comp))) = comp) :
    (((c.transform_selection fm fr fp >>=
      fun c' => c'.transform_selection fm fr fp) >>=
      fun c' => c'.transform_selection fm fr fp) >>=
      fun c' => c'.transform_selection fm fr fp) = some c := by
  have step : ∀ A : Component,
      Circuit.transform_selection
        { c with components := (c.components.set i A) } fm fr fp
      = some { c with components := (c.components.set i
          (transform_component_flags fm fr A)) } := by
    intro A
    have hselA : ({ c with components := (c.components.set i A) } :
        Circuit).selection = Selection.Component i := hsel
    have hiA : i < ({ c with components := (c.components.set i A) } :
        Circuit).components.length := by
      show i < (List.set _ _ _).length
      rw [List.length_set]
      exact hi
    rw [transform_selection_of_component _ fm fr fp i hselA hiA]
    congr 2
    show (c.components.set i A).set i (transform_component_flags fm fr
      ((c.components.set i A)[i])) = _
    rw [List.getElem_set, if_pos rfl, List.set_set]
  rw [transform_selection_of_component c fm fr fp i hsel hi,
    option_some_bind, step _, option_some_bind, step _, option_some_bind,
    step _]
  congr 1
  have : (transform_component_flags fm fr (transform_component_flags fm fr
      (transform_component_flags fm fr (transform_component_flags fm fr
        c.components[i])))) = c.components[i] := hinv _
  rw [this, list_set_get_self c.components i hi]

theorem ts_four_wire (c : Circuit) (fm : Bool → Bool)
    (fr : Rotation → Rotation) (fp : Vec2f → Vec2f) (i : ℕ)
    (hsel : c.selection = Selection.WireSegment i)
    (hi : i < c.wire_segments.length)
    (hinv : transform_wire_own_center fp (transform_wire_own_center fp
      (transform_wire_own_center fp (transform_wire_own_center fp
        c.wire_segments[i]))) = c.wire_segments[i]) :
    (((c.transform_selection fm fr fp >>=
      fun c' => c'.transform_selection fm fr fp) >>=
      fun c' => c'.transform_selection fm fr fp) >>=
      fun c' => c'.transform_selection fm fr fp) = some c := by
  have step : ∀ w : WireSegment,
      Circuit.transform_selection
        { c with wire_segments := (c.wire_segments.set i w) } fm fr fp
      = some { c with wire_segments := (c.wire_segments.set i
          (transform_wire_own_center fp w)) } := by
    intro w
    have hselW : ({ c with wire_segments := (c.wire_segments.set i w) } :
        Circuit).selection = Selection.WireSegment i := hsel
    have hiW : i < ({ c with wire_segments := (c.wire_segments.set i w) } :
        Circuit).wire_segments.length := by
      show i < (List.set _ _ _).length
      rw [List.length_set]
      exact hi
    rw [transform_selection_of_wire _ fm fr fp i hselW hiW]
    congr 2
    show (c.wire_segments.set i w).set i (transform_wire_own_center fp
      ((c.wire_segments.set i w)[i])) = _
    rw [List.getElem_set, if_pos rfl, List.set_set]
  rw [transform_selection_of_wire c fm fr fp i hsel hi,
    option_some_bind, step _, option_some_bind, step _, option_some_bind,
    step _]
  congr 1
  rw [hinv, list_set_get_self c.wire_segments i hi]

theorem ts_four_multi (c : Circuit) (fm : Bool → Bool)
    (fr : Rotation → Rotation) (fp : Vec2f → Vec2f)
    (comps wires : List ℕ) (center : Vec2f)
    (hsel : c.selection = Selection.Multi comps wires center)
    (hcv : ∀ i ∈ comps, i < c.components.length) (hcn : comps.Nodup)
    (hwv : ∀ i ∈ wires, i < c.wire_segments.length) (hwn : wires.Nodup)
    (hcinv : ∀ comp, transform_component_multi fm fr fp center
      (transform_component_multi fm fr fp center
        (transform_component_multi fm fr fp center
          (transform_component_multi fm fr fp center comp))) = comp)
    (hwinv : ∀ w, transform_wire_fixed_center fp center
      (transform_wire_fixed_center fp center
        (transform_wire_fixed_center fp center
          (transform_wire_fixed_center fp center w))) = w) :
    (((c.transform_selection fm fr fp >>=
      fun c' => c'.transform_selection fm fr fp) >>=
      fun c' => c'.transform_selection fm fr fp) >>=
      fun c' => c'.transform_selection fm fr fp) = some c := by
  obtain ⟨comps1, wires1, e1, hlc1, hlw1, hpc1, hpw1⟩ :=
    transform_selection_of_multi c fm fr fp comps wires center hsel
      hcv hcn hwv hwn
  set c1 : Circuit :=
    { c with components := comps1, wire_segments := wires1 } with hc1
  have hsel1 : c1.selection = Selection.Multi comps wires center := hsel
  have hcv1 : ∀ i ∈ comps, i < c1.components.length := fun j hj => by
    show j < comps1.length
    rw [hlc1]
    exact hcv j hj
  have hwv1 : ∀ i ∈ wires, i < c1.wire_segments.length := fun j hj => by
    show j < wires1.length
    rw [hlw1]
    exact hwv j hj
  obtain ⟨comps2, wires2, e2, hlc2, hlw2, hpc2, hpw2⟩ :=
    transform_selection_of_multi c1 fm fr fp comps wires center hsel1
      hcv1 hcn hwv1 hwn
  set c2 : Circuit :=
    { c1 with components := comps2, wire_segments := wires2 } with hc2
  have hsel2 : c2.selection = Selection.Multi comps wires center := hsel
  have hcv2 : ∀ i ∈ comps, i < c2.components.length := fun j hj => by
    show j < comps2.length
    rw [hlc2]
    exact hcv1 j hj
  have hwv2 : ∀ i ∈ wires, i < c2.wire_segments.length := fun j hj => by
    show j < wires2.length
    rw [hlw2]
    exact hwv1 j hj
  obtain ⟨comps3, wires3, e3, hlc3, hlw3, hpc3, hpw3⟩ :=
    transform_selection_of_multi c2 fm fr fp comps wires center hsel2
      hcv2 hcn hwv2 hwn
  set c3 : Circuit :=
    { c2 with components := comps3, wire_segments := wires3 } with hc3
  have hsel3 : c3.selection = Selection.Multi comps wires center := hsel
  have hcv3 : ∀ i ∈ comps, i < c3.components.length := fun j hj => by
    show j < comps3.length
    rw [hlc3]
    exact hcv2 j hj
  have hwv3 : ∀ i ∈ wires, i < c3.wire_segments.length := fun j hj => by
    show j < wires3.length
    rw [hlw3]
    exact hwv2 j hj
  obtain ⟨comps4, wires4, e4, hlc4, hlw4, hpc4, hpw4⟩ :=
    transform_selection_of_multi c3 fm fr fp comps wires center hsel3
      hcv3 hcn hwv3 hwn
  rw [e1, option_some_bind]
  show ((Circuit.transform_selection c1 fm fr fp >>= _) >>= _) = some c
  rw [e2, option_some_bind]
  show (Circuit.transform_selection c2 fm fr fp >>= _) = some c
  rw [e3, option_some_bind]
  show Circuit.transform_selection c3 fm fr fp = some c
  rw [e4]
  congr 1
  have hcomp : comps4 = c.components := by
    apply List.ext_getElem?
    intro j
    rw [hpc4 j, show c3.components = comps3 from rfl]
    by_cases hj : j ∈ comps
    · rw [if_pos hj, hpc3 j, show c2.components = comps2 from rfl, if_pos hj,
        hpc2 j, show c1.components = comps1 from rfl, if_pos hj, hpc1 j,
        if_pos hj]
      exact option_map_four hcinv _
    · rw [if_neg hj, hpc3 j, show c2.components = comps2 from rfl, if_neg hj,
        hpc2 j, show c1.components = comps1 from rfl, if_neg hj, hpc1 j,
        if_neg hj]
  have hwire : wires4 = c.wire_segments := by
    apply List.ext_getElem?
    intro j
    rw [hpw4 j, show c3.wire_segments = wires3 from rfl]
    by_cases hj : j ∈ wires
    · rw [if_pos hj, hpw3 j, show c2.wire_segments = wires2 from rfl,
        if_pos hj, hpw2 j, show c1.wire_segments = wires1 from rfl,
        if_pos hj, hpw1 j, if_pos hj]
      exact option_map_four hwinv _
    · rw [if_neg hj, hpw3 j, show c2.wire_segments = wires2 from rfl,
        if_neg hj, hpw2 j, show c1.wire_segments = wires1 from rfl,
        if_neg hj, hpw1 j, if_neg hj]
  rw [hcomp, hwire, hc3, hc2, hc1]

/-- C2 (amended): for every valid selection (indices in range, `Multi`
sets duplicate-free as `HashSet`s are), applying the mirror operation
twice returns the circuit — components, positions, anchors, bounding
boxes, wire endpoints and midpoints — exactly to its original state; and
applying the 90° rotation four times does the same, provided that a
single selected wire segment has even endpoint-coordinate sums (the
counterexample below shows the original claim fails without that parity
condition).  `none` would mark an out-of-range selection panic. -/
theorem rotate_mirror_round_trip (c : Circuit) (hv : selection_valid c) :
    (c.mirror_selection >>= Circuit.mirror_selection) = some c ∧
    (rotation_parity_ok c →
      (((c.counterclockwise_rotate_selection >>=
        Circuit.counterclockwise_rotate_selection) >>=
        Circuit.counterclockwise_rotate_selection) >>=
        Circuit.counterclockwise_rotate_selection) = some c) := by
  unfold Circuit.mirror_selection Circuit.counterclockwise_rotate_selection
  cases hsel : c.selection with
  | None =>
      constructor
      · rw [transform_selection_of_none c _ _ _ hsel, option_some_bind,
          transform_selection_of_none c _ _ _ hsel]
      · intro _
        rw [transform_selection_of_none c _ _ _ hsel, option_some_bind,
          transform_selection_of_none c _ _ _ hsel, option_some_bind,
          transform_selection_of_none c _ _ _ hsel, option_some_bind,
          transform_selection_of_none c _ _ _ hsel]
  | Component i =>
      have hi : i < c.components.length := by
        unfold selection_valid at hv
        rw [hsel] at hv
        exact hv
      constructor
      · exact ts_twice_component c _ _ _ i hsel hi tcf_mirror_involutive
      · intro _
        exact ts_four_component c _ _ _ i hsel hi tcf_next_four
  | WireSegment i =>
      have hi : i < c.wire_segments.length := by
        unfold selection_valid at hv
        rw [hsel] at hv
        exact hv
      constructor
      · exact ts_twice_wire c _ _ _ i hsel hi (mirror_wire_involutive _)
      · intro hp
        obtain ⟨hx, hy⟩ := hp i c.wire_segments[i] hsel
          (List.getElem?_eq_getElem hi)
        exact ts_four_wire c _ _ _ i hsel hi (ccw_wire_four _ hx hy)
  | Multi comps wires center =>
      have hv' : (∀ j ∈ comps, j < c.components.length) ∧ comps.Nodup ∧
          (∀ j ∈ wires, j < c.wire_segments.length) ∧ wires.Nodup := by
        unfold selection_valid at hv
        rw [hsel] at hv
        exact hv
      obtain ⟨hcv, hcn, hwv, hwn⟩ := hv'
      constructor
      · exact ts_twice_multi c _ _ _ comps wires center hsel hcv hcn hwv hwn
          (mirror_component_multi_involutive center)
          (mirror_wire_fixed_involutive center)
      · intro _
        exact ts_four_multi c _ _ _ comps wires center hsel hcv hcn hwv hwn
          (ccw_component_multi_four center) (ccw_wire_fixed_four center)

/-- A one-component circuit with that component selected, exercising the
round-trip theorem. -/
noncomputable def round_trip_example_circuit : Circuit where
  name := ""
  offset := ⟨0, 0⟩
  linear_zoom := 0
  zoom := 1
  components := [Component.new (ComponentKind.AndGate 1 0)]
  wire_segments := []
  selection := Selection.Component 0
  drag_state := DragState.None
  primary_button_down := false
  secondary_button_down := false
  file_name := none
  sim_state := SimState.None

/-- Witness for C2 at a concrete one-component circuit with the
component selected: mirror twice and rotate four times both return it. -/
theorem rotate_mirror_round_trip_witness :
    (round_trip_example_circuit.mirror_selection >>=
      Circuit.mirror_selection) = some round_trip_example_circuit ∧
    (((round_trip_example_circuit.counterclockwise_rotate_selection >>=
      Circuit.counterclockwise_rotate_selection) >>=
      Circuit.counterclockwise_rotate_selection) >>=
      Circuit.counterclockwise_rotate_selection)
      = some round_trip_example_circuit := by
  have h := rotate_mirror_round_trip round_trip_example_circuit
    (show (0 : ℕ) < 1 by norm_num)
  exact ⟨h.1, h.2 (fun i w hsel _ => nomatch hsel)⟩


/-- A circuit holding one wire segment from `(0,0)` to `(1,0)` (odd
coordinate sum), with that segment selected. -/
noncomputable def drift_example_circuit : Circuit where
  name := ""
  offset := ⟨0, 0⟩
  linear_zoom := 0
  zoom := 1
  components := []
  wire_segments := [⟨⟨0, 0⟩, [], ⟨1, 0⟩, []⟩]
  selection := Selection.WireSegment 0
  drag_state := DragState.None
  primary_button_down := false
  secondary_button_down := false
  file_name := none
  sim_state := SimState.None

theorem drift_step1 : transform_wire_own_center (fun v => Vec2f.new (-v.y) v.x)
    ⟨⟨0, 0⟩, [], ⟨1, 0⟩, []⟩ = ⟨⟨0, -1⟩, [], ⟨0, 0⟩, []⟩ := by
  unfold transform_wire_own_center
  simp only [transform_point_ccw, Vec2i.add_def_i, Vec2i.to_vec2f,
    Vec2f.smul_def, Vec2f.x_mk, Vec2f.y_mk, Vec2i.x_mk_i, Vec2i.y_mk_i,
    List.map_nil]
  norm_num [WireSegment.mk.injEq, Vec2i.mk.injEq]

theorem drift_step2 : transform_wire_own_center (fun v => Vec2f.new (-v.y) v.x)
    ⟨⟨0, -1⟩, [], ⟨0, 0⟩, []⟩ = ⟨⟨0, -1⟩, [], ⟨-1, -1⟩, []⟩ := by
  unfold transform_wire_own_center
  simp only [transform_point_ccw, Vec2i.add_def_i, Vec2i.to_vec2f,
    Vec2f.smul_def, Vec2f.x_mk, Vec2f.y_mk, Vec2i.x_mk_i, Vec2i.y_mk_i,
    List.map_nil]
  norm_num [WireSegment.mk.injEq, Vec2i.mk.injEq]

theorem drift_step3 : transform_wire_own_center (fun v => Vec2f.new (-v.y) v.x)
    ⟨⟨0, -1⟩, [], ⟨-1, -1⟩, []⟩ = ⟨⟨-1, -1⟩, [], ⟨-1, -2⟩, []⟩ := by
  unfold transform_wire_own_center
  simp only [transform_point_ccw, Vec2i.add_def_i, Vec2i.to_vec2f,
    Vec2f.smul_def, Vec2f.x_mk, Vec2f.y_mk, Vec2i.x_mk_i, Vec2i.y_mk_i,
    List.map_nil]
  norm_num [WireSegment.mk.injEq, Vec2i.mk.injEq]

theorem drift_step4 : transform_wire_own_center (fun v => Vec2f.new (-v.y) v.x)
    ⟨⟨-1, -1⟩, [], ⟨-1, -2⟩, []⟩ = ⟨⟨-2, -2⟩, [], ⟨-1, -2⟩, []⟩ := by
  unfold transform_wire_own_center
  simp only [transform_point_ccw, Vec2i.add_def_i, Vec2i.to_vec2f,
    Vec2f.smul_def, Vec2f.x_mk, Vec2f.y_mk, Vec2i.x_mk_i, Vec2i.y_mk_i,
    List.map_nil]
  norm_num [WireSegment.mk.injEq, Vec2i.mk.injEq]

/-- C2 counterexample: rotating the single selected wire segment
`(0,0) → (1,0)` by 90° four times does *not* restore its endpoints — the
floor after each float transform, about a pivot recomputed from the
already-floored endpoints, makes the segment drift to
`(-2,-2) → (-1,-2)`. -/
theorem rotate_four_drifts :
    ∃ c' : Circuit,
      (((drift_example_circuit.counterclockwise_rotate_selection >>=
        Circuit.counterclockwise_rotate_selection) >>=
        Circuit.counterclockwise_rotate_selection) >>=
        Circuit.counterclockwise_rotate_selection) = some c' ∧
      drift_example_circuit.wire_segments = [⟨⟨0, 0⟩, [], ⟨1, 0⟩, []⟩] ∧
      c'.wire_segments = [⟨⟨-2, -2⟩, [], ⟨-1, -2⟩, []⟩] ∧
      c'.wire_segments ≠ drift_example_circuit.wire_segments := by
  have e1 : drift_example_circuit.counterclockwise_rotate_selection =
      some { drift_example_circuit with
        wire_segments := [(⟨⟨0, -1⟩, [], ⟨0, 0⟩, []⟩ : WireSegment)] } := by
    unfold Circuit.counterclockwise_rotate_selection
    rw [transform_selection_of_wire _ id Rotation.next _ 0 rfl (by exact Nat.one_pos)]
    congr 2
    show List.set [(⟨⟨0, 0⟩, [], ⟨1, 0⟩, []⟩ : WireSegment)] 0
      (transform_wire_own_center _ (⟨⟨0, 0⟩, [], ⟨1, 0⟩, []⟩ : WireSegment))
      = _
    rw [List.set_cons_zero, drift_step1]
  have e2 : Circuit.counterclockwise_rotate_selection
      { drift_example_circuit with
        wire_segments := [(⟨⟨0, -1⟩, [], ⟨0, 0⟩, []⟩ : WireSegment)] } =
      some { drift_example_circuit with
        wire_segments := [(⟨⟨0, -1⟩, [], ⟨-1, -1⟩, []⟩ : WireSegment)] } := by
    unfold Circuit.counterclockwise_rotate_selection
    rw [transform_selection_of_wire _ id Rotation.next _ 0 rfl (by exact Nat.one_pos)]
    congr 2
    show List.set [(⟨⟨0, -1⟩, [], ⟨0, 0⟩, []⟩ : WireSegment)] 0
      (transform_wire_own_center _ (⟨⟨0, -1⟩, [], ⟨0, 0⟩, []⟩ : WireSegment))
      = _
    rw [List.set_cons_zero, drift_step2]
  have e3 : Circuit.counterclockwise_rotate_selection
      { drift_example_circuit with
        wire_segments := [(⟨⟨0, -1⟩, [], ⟨-1, -1⟩, []⟩ : WireSegment)] } =
      some { drift_example_circuit with
        wire_segments := [(⟨⟨-1, -1⟩, [], ⟨-1, -2⟩, []⟩ : WireSegment)] } := by
    unfold Circuit.counterclockwise_rotate_selection
    rw [transform_selection_of_wire _ id Rotation.next _ 0 rfl (by exact Nat.one_pos)]
    congr 2
    show List.set [(⟨⟨0, -1⟩, [], ⟨-1, -1⟩, []⟩ : WireSegment)] 0
      (transform_wire_own_center _ (⟨⟨0, -1⟩, [], ⟨-1, -1⟩, []⟩ : WireSegment))
      = _
    rw [List.set_cons_zero, drift_step3]
  have e4 : Circuit.counterclockwise_rotate_selection
      { drift_example_circuit with
        wire_segments := [(⟨⟨-1, -1⟩, [], ⟨-1, -2⟩, []⟩ : WireSegment)] } =
      some { drift_example_circuit with
        wire_segments := [(⟨⟨-2, -2⟩, [], ⟨-1, -2⟩, []⟩ : WireSegment)] } := by
    unfold Circuit.counterclockwise_rotate_selection
    rw [transform_selection_of_wire _ id Rotation.next _ 0 rfl (by exact Nat.one_pos)]
    congr 2
    show List.set [(⟨⟨-1, -1⟩, [], ⟨-1, -2⟩, []⟩ : WireSegment)] 0
      (transform_wire_own_center _ (⟨⟨-1, -1⟩, [], ⟨-1, -2⟩, []⟩ : WireSegment))
      = _
    rw [List.set_cons_zero, drift_step4]
  refine ⟨{ drift_example_circuit with
    wire_segments := [(⟨⟨-2, -2⟩, [], ⟨-1, -2⟩, []⟩ : WireSegment)] },
    ?_, rfl, rfl, by decide⟩
  rw [e1, option_some_bind, e2, option_some_bind, e3, option_some_bind, e4]


/-! ### C4: wire-group width inference -/

/-- All anchors of all components, in iteration order (the
`components.iter().flat_map(Component::anchors)` sequence). -/
def all_anchors (components : List Component) : List Anchor :=
  (components.map Component.anchors).flatten

/-- The anchor coincides with one of the segment's endpoints. -/
def anchor_touches (segment : WireSegment) (a : Anchor) : Prop :=
  a.position = segment.endpoint_a ∨ a.position = segment.endpoint_b

/-- The anchor coincides with an endpoint of one of the group's segments. -/
def anchor_touches_group (ws : List WireSegment) (group : List ℕ)
    (a : Anchor) : Prop :=
  ∃ i ∈ group, anchor_touches (ws.getD i default) a

instance (segment : WireSegment) (a : Anchor) :
    Decidable (anchor_touches segment a) := by
  unfold anchor_touches
  infer_instance

instance (ws : List WireSegment) (group : List ℕ) (a : Anchor) :
    Decidable (anchor_touches_group ws group a) := by
  unfold anchor_touches_group
  infer_instance

/-- Two anchors of different declared widths both touch the group. -/
def group_width_conflict (ws : List WireSegment) (components : List Component)
    (group : List ℕ) : Prop :=
  ∃ a1 ∈ all_anchors components, ∃ a2 ∈ all_anchors components,
    anchor_touches_group ws group a1 ∧ anchor_touches_group ws group a2 ∧
    a1.width ≠ a2.width

theorem fsw_ok_acc (segment : WireSegment) :
    ∀ (anchors : List Anchor) (w : ℕ) (r : Option ℕ),
    fsw_loop segment anchors (some w) = Except.ok r → r = some w
  | [], w, r, h => by
      cases h
      rfl
  | a :: rest, w, r, h => by
      unfold fsw_loop at h
      by_cases ht : a.position = segment.endpoint_a ∨
          a.position = segment.endpoint_b
      · rw [if_pos ht] at h
        dsimp only at h
        by_cases hw : a.width = w
        · rw [if_neg (show ¬(a.width ≠ w) from fun hc => hc hw)] at h
          exact fsw_ok_acc segment rest w r h
        · rw [if_pos hw] at h
          cases h
      · rw [if_neg ht] at h
        exact fsw_ok_acc segment rest w r h

theorem fsw_ok_mem (segment : WireSegment) :
    ∀ (anchors : List Anchor) (acc : Option ℕ) (r : Option ℕ),
    fsw_loop segment anchors acc = Except.ok r →
    ∀ a ∈ anchors, anchor_touches segment a → r = some a.width
  | [], _, _, _, a, ha, _ => absurd ha (List.not_mem_nil a)
  | b :: rest, acc, r, h, a, ha, htouch => by
      unfold fsw_loop at h
      rcases List.mem_cons.mp ha with rfl | ha'
      · rw [if_pos (show a.position = segment.endpoint_a ∨
          a.position = segment.endpoint_b from htouch)] at h
        match acc, h with
        | some w, h =>
            dsimp only at h
            by_cases hw : a.width = w
            · rw [if_neg (show ¬(a.width ≠ w) from fun hc => hc hw)] at h
              rw [fsw_ok_acc segment rest w r h, hw]
            · rw [if_pos hw] at h
              cases h
        | none, h =>
            dsimp only at h
            exact fsw_ok_acc segment rest a.width r h
      · by_cases htb : b.position = segment.endpoint_a ∨
            b.position = segment.endpoint_b
        · rw [if_pos htb] at h
          match acc, h with
          | some w, h =>
              dsimp only at h
              by_cases hw : b.width = w
              · rw [if_neg (show ¬(b.width ≠ w) from fun hc => hc hw)] at h
                exact fsw_ok_mem segment rest (some w) r h a ha' htouch
              · rw [if_pos hw] at h
                cases h
          | none, h =>
              dsimp only at h
              exact fsw_ok_mem segment rest (some b.width) r h a ha' htouch
        · rw [if_neg htb] at h
          exact fsw_ok_mem segment rest acc r h a ha' htouch

theorem fsw_no_touch (segment : WireSegment) :
    ∀ (anchors : List Anchor) (acc : Option ℕ),
    (∀ a ∈ anchors, ¬ anchor_touches segment a) →
    fsw_loop segment anchors acc = Except.ok acc
  | [], _, _ => rfl
  | b :: rest, acc, h => by
      unfold fsw_loop
      rw [if_neg (show ¬(b.position = segment.endpoint_a ∨
        b.position = segment.endpoint_b) from h b (List.mem_cons_self b rest))]
      exact fsw_no_touch segment rest acc
        (fun a ha => h a (List.mem_cons_of_mem _ ha))

theorem fsw_ok_of_uniform (segment : WireSegment) (w0 : ℕ) :
    ∀ (anchors : List Anchor) (acc : Option ℕ),
    (∀ a ∈ anchors, anchor_touches segment a → a.width = w0) →
    (acc = none ∨ acc = some w0) →
    ∃ r, fsw_loop segment anchors acc = Except.ok r ∧
      (r = none ∨ r = some w0)
  | [], acc, _, hacc => ⟨acc, rfl, hacc⟩
  | b :: rest, acc, h, hacc => by
      unfold fsw_loop
      by_cases htb : b.position = segment.endpoint_a ∨
          b.position = segment.endpoint_b
      · rw [if_pos htb]
        have hbw : b.width = w0 := h b (List.mem_cons_self b rest) htb
        rcases hacc with rfl | rfl
        · dsimp only
        

          exact fsw_ok_of_uniform segment w0 rest (some b.width)
            (fun a ha => h a (List.mem_cons_of_mem _ ha))
            (Or.inr (by rw [hbw]))
        · dsimp only
          rw [if_neg (show ¬(b.width ≠ w0) from fun hc => hc hbw)]
          exact fsw_ok_of_uniform segment w0 rest (some w0)
            (fun a ha => h a (List.mem_cons_of_mem _ ha)) (Or.inr rfl)
      · rw [if_neg htb]
        exact fsw_ok_of_uniform segment w0 rest acc
          (fun a ha => h a (List.mem_cons_of_mem _ ha)) hacc

theorem find_segment_width_eq (segment : WireSegment)
    (components : List Component) :
    find_segment_width segment components =
      fsw_loop segment (all_anchors components) none := rfl

theorem gwl_ok_acc (ws : List WireSegment) (comps : List Component) :
    ∀ (group : List ℕ) (w : ℕ) (r : Option ℕ),
    group_width_loop ws comps group (some w) = Except.ok r → r = some w
  | [], w, r, h => by
      cases h
      rfl
  | i :: rest, w, r, h => by
      unfold group_width_loop at h
      cases hfs : find_segment_width (ws.getD i default) comps with
      | error e =>
          rw [hfs] at h
          cases h
      | ok sw =>
          rw [hfs] at h
          cases sw with
          | none =>
              dsimp only at h
              exact gwl_ok_acc ws comps rest w r h
          | some v =>
              dsimp only at h
              by_cases hv : v = w
              · rw [if_neg (show ¬(v ≠ w) from fun hc => hc hv)] at h
                exact gwl_ok_acc ws comps rest w r h
              · rw [if_pos hv] at h
                cases h

theorem gwl_ok_mem (ws : List WireSegment) (comps : List Component) :
    ∀ (group : List ℕ) (acc : Option ℕ) (r : Option ℕ),
    group_width_loop ws comps group acc = Except.ok r →
    ∀ i ∈ group, ∀ a ∈ all_anchors comps,
      anchor_touches (ws.getD i default) a → r = some a.width
  | [], _, _, _, i, hi, _, _, _ => absurd hi (List.not_mem_nil i)
  | j :: rest, acc, r, h, i, hi, a, ha, htouch => by
      unfold group_width_loop at h
      cases hfs : find_segment_width (ws.getD j default) comps with
      | error e =>
          rw [hfs] at h
          cases h
      | ok sw =>
          rw [hfs] at h
          rcases List.mem_cons.mp hi with rfl | hi'
          · have hsw : sw = some a.width := by
              rw [find_segment_width_eq] at hfs
              exact fsw_ok_mem _ _ _ _ hfs a ha htouch
            subst hsw
            cases acc with
            | none =>
                dsimp only at h
                exact gwl_ok_acc ws comps rest a.width r h
            | some w =>
                dsimp only at h
                by_cases hw : a.width = w
                · rw [if_neg (show ¬(a.width ≠ w) from fun hc => hc hw)] at h
                  rw [gwl_ok_acc ws comps rest w r h, hw]
                · rw [if_pos hw] at h
                  cases h
          · cases sw with
            | none =>
                cases acc with
                | none =>
                    dsimp only at h
                    exact gwl_ok_mem ws comps rest none r h i hi' a ha htouch
                | some w =>
                    dsimp only at h
                    exact gwl_ok_mem ws comps rest (some w) r h i hi' a ha
                      htouch
            | some v =>
                cases acc with
                | none =>
                    dsimp only at h
                    exact gwl_ok_mem ws comps rest (some v) r h i hi' a ha
                      htouch
                | some w =>
                    dsimp only at h
                    by_cases hw : v = w
                    · rw [if_neg (show ¬(v ≠ w) from fun hc => hc hw)] at h
                      exact gwl_ok_mem ws comps rest (some w) r h i hi' a ha
                        htouch
                    · rw [if_pos hw] at h
                      cases h

theorem gwl_no_touch (ws : List WireSegment) (comps : List Component) :
    ∀ (group : List ℕ) (acc : Option ℕ),
    (∀ i ∈ group, ∀ a ∈ all_anchors comps,
      ¬ anchor_touches (ws.getD i default) a) →
    group_width_loop ws comps group acc = Except.ok acc
  | [], _, _ => rfl
  | j :: rest, acc, h => by
      unfold group_width_loop
      rw [find_segment_width_eq,
        fsw_no_touch _ _ _ (h j (List.mem_cons_self j rest))]
      cases acc with
      | none =>
          dsimp only
          exact gwl_no_touch ws comps rest none
            (fun i hi => h i (List.mem_cons_of_mem _ hi))
      | some w =>
          dsimp only
          exact gwl_no_touch ws comps rest (some w)
            (fun i hi => h i (List.mem_cons_of_mem _ hi))

theorem gwl_ok_of_uniform (ws : List WireSegment) (comps : List Component)
    (w0 : ℕ) :
    ∀ (group : List ℕ) (acc : Option ℕ),
    (∀ i ∈ group, ∀ a ∈ all_anchors comps,
      anchor_touches (ws.getD i default) a → a.width = w0) →
    (acc = none ∨ acc = some w0) →
    ∃ r, group_width_loop ws comps group acc = Except.ok r ∧
      (r = none ∨ r = some w0)
  | [], acc, _, hacc => ⟨acc, rfl, hacc⟩
  | j :: rest, acc, h, hacc => by
      unfold group_width_loop
      obtain ⟨sj, hsj, hsj0⟩ := fsw_ok_of_uniform (ws.getD j default) w0
        (all_anchors comps) none (h j (List.mem_cons_self j rest))
        (Or.inl rfl)
      rw [find_segment_width_eq, hsj]
      rcases hsj0 with rfl | rfl
      · rcases hacc with rfl | rfl
        · dsimp only
          exact gwl_ok_of_uniform ws comps w0 rest none
            (fun i hi => h i (List.mem_cons_of_mem _ hi)) (Or.inl rfl)
        · dsimp only
          exact gwl_ok_of_uniform ws comps w0 rest (some w0)
            (fun i hi => h i (List.mem_cons_of_mem _ hi)) (Or.inr rfl)
      · rcases hacc with rfl | rfl
        · dsimp only
          exact gwl_ok_of_uniform ws comps w0 rest (some w0)
            (fun i hi => h i (List.mem_cons_of_mem _ hi)) (Or.inr rfl)
        · dsimp only
          rw [if_neg (show ¬(w0 ≠ w0) from fun hc => hc rfl)]
          exact gwl_ok_of_uniform ws comps w0 rest (some w0)
            (fun i hi => h i (List.mem_cons_of_mem _ hi)) (Or.inr rfl)

theorem group_width_spec (ws : List WireSegment) (comps : List Component)
    (group : List ℕ) :
    (group_width_loop ws comps group none = Except.error () ↔
      group_width_conflict ws comps group) ∧
    (∀ r, group_width_loop ws comps group none = Except.ok r →
      ((¬ ∃ a ∈ all_anchors comps, anchor_touches_group ws group a) →
        r = none) ∧
      (∀ a ∈ all_anchors comps, anchor_touches_group ws group a →
        r = some a.width)) := by
  constructor
  · constructor
    · intro herr
      by_contra hnc
      by_cases hex : ∃ a ∈ all_anchors comps, anchor_touches_group ws group a
      · obtain ⟨a0, ha0, hta0⟩ := hex
        have huni : ∀ i ∈ group, ∀ a ∈ all_anchors comps,
            anchor_touches (ws.getD i default) a → a.width = a0.width := by
          intro i hi a ha hta
          by_contra hne
          exact hnc ⟨a, ha, a0, ha0, ⟨i, hi, hta⟩, hta0, hne⟩
        obtain ⟨r, hr, -⟩ :=
          gwl_ok_of_uniform ws comps a0.width group none huni (Or.inl rfl)
        rw [herr] at hr
        cases hr
      · push_neg at hex
        have := gwl_no_touch ws comps group none (by
          intro i hi a ha hta
          exact hex a ha ⟨i, hi, hta⟩)
        rw [herr] at this
        cases this
    · intro hconf
      obtain ⟨a1, ha1, a2, ha2, ht1, ht2, hne⟩ := hconf
      cases hres : group_width_loop ws comps group none with
      | error e =>
          cases e
          rfl
      | ok r =>
          obtain ⟨i1, hi1, hti1⟩ := ht1
          obtain ⟨i2, hi2, hti2⟩ := ht2
          have e1 := gwl_ok_mem ws comps group none r hres i1 hi1 a1 ha1 hti1
          have e2 := gwl_ok_mem ws comps group none r hres i2 hi2 a2 ha2 hti2
          rw [e1] at e2
          exact absurd (Option.some.injEq _ _ ▸ e2) hne
  · intro r hr
    constructor
    · intro hno
      push_neg at hno
      have := gwl_no_touch ws comps group none (by
        intro i hi a ha hta
        exact hno a ha ⟨i, hi, hta⟩)
      rw [hr] at this
      cases this
      rfl
    · intro a ha hta
      obtain ⟨i, hi, hti⟩ := hta
      exact gwl_ok_mem ws comps group none r hr i hi a ha hti

theorem fwgw_nil (ws : List WireSegment) (comps : List Component) :
    find_wire_group_widths ws comps [] = Except.ok [] := rfl

theorem fwgw_cons (ws : List WireSegment) (comps : List Component)
    (g : List ℕ) (gs : List (List ℕ)) :
    find_wire_group_widths ws comps (g :: gs) =
      ((group_width_loop ws comps g none).map (fun gw => gw.getD 1) >>=
        fun w => (find_wire_group_widths ws comps gs).map
          fun rest => w :: rest) := by
  unfold find_wire_group_widths
  rw [List.mapM_cons]
  cases hg : group_width_loop ws comps g none with
  | error e => rfl
  | ok r =>
      cases hrest : gs.mapM fun group =>
          (group_width_loop ws comps group none).map fun gw => gw.getD 1 with
      | error e => rfl
      | ok res => rfl

/-- C4: for every wire group, width inference fails with a conflict iff
two component anchors of different declared widths coincide with the
group's segment endpoints; on success the group's width is the common
width of its coinciding anchors, and 1 when no anchor coincides. -/
theorem find_wire_group_widths_spec (ws : List WireSegment)
    (components : List Component) :
    ∀ groups : List (List ℕ),
    (find_wire_group_widths ws components groups = Except.error () ↔
      ∃ group ∈ groups, group_width_conflict ws components group) ∧
    (∀ res, find_wire_group_widths ws components groups = Except.ok res →
      List.Forall₂ (fun (group : List ℕ) (w : ℕ) =>
        ((¬ ∃ a ∈ all_anchors components,
          anchor_touches_group ws group a) → w = 1) ∧
        (∀ a ∈ all_anchors components, anchor_touches_group ws group a →
          w = a.width)) groups res)
  | [] => by
      constructor
      · rw [fwgw_nil]
        constructor
        · intro h
          exact Except.noConfusion h
        · rintro ⟨g, hg, -⟩
          exact absurd hg (List.not_mem_nil g)
      · intro res hres
        rw [fwgw_nil] at hres
        cases hres
        exact List.Forall₂.nil
  | g :: gs => by
      obtain ⟨ih1, ih2⟩ := find_wire_group_widths_spec ws components gs
      rw [fwgw_cons]
      cases hg : group_width_loop ws components g none with
      | error e =>
          cases e
          constructor
          · constructor
            · intro _
              exact ⟨g, List.mem_cons_self g gs,
                (group_width_spec ws components g).1.mp hg⟩
            · intro _
              rfl
          · intro res hres
            exact Except.noConfusion hres
      | ok r =>
          cases hrest : find_wire_group_widths ws components gs with
          | error e =>
              cases e
              constructor
              · constructor
                · intro _
                  obtain ⟨g', hg', hc⟩ := ih1.mp hrest
                  exact ⟨g', List.mem_cons_of_mem _ hg', hc⟩
                · intro _
                  rfl
              · intro res hres
                exact Except.noConfusion hres
          | ok res' =>
              constructor
              · constructor
                · intro h
                  exact Except.noConfusion h
                · rintro ⟨g', hmem, hc⟩
                  rcases List.mem_cons.mp hmem with rfl | hgs
                  · have hcontra :=
                      (group_width_spec ws components g').1.mpr hc
                    rw [hg] at hcontra
                    exact Except.noConfusion hcontra
                  · have hcontra : find_wire_group_widths ws components gs =
                        Except.error () := ih1.mpr ⟨g', hgs, hc⟩
                    rw [hrest] at hcontra
                    exact Except.noConfusion hcontra
              · intro res hres
                cases hres
                refine List.Forall₂.cons ?_ (ih2 res' hrest)
                obtain ⟨hno, hall⟩ := (group_width_spec ws components g).2 r hg
                constructor
                · intro hnone
                  rw [hno hnone]
                  rfl
                · intro a ha hta
                  rw [hall a ha hta]
                  rfl

/-- Witness for C4: a 1-bit input and a 2-bit input joined by one wire
segment produce a width conflict; inference fails. -/
theorem find_wire_group_widths_spec_witness :
    find_wire_group_widths [⟨⟨0, 1⟩, [], ⟨10, 1⟩, []⟩]
      [Component.mk (ComponentKind.Input "" 0 1 0) 0 0 Rotation.Deg0 false,
       Component.mk (ComponentKind.Input "" 0 2 0) 10 0 Rotation.Deg0 false]
      [[0]] = Except.error () :=
  (find_wire_group_widths_spec
    [⟨⟨0, 1⟩, [], ⟨10, 1⟩, []⟩]
    [Component.mk (ComponentKind.Input "" 0 1 0) 0 0 Rotation.Deg0 false,
     Component.mk (ComponentKind.Input "" 0 2 0) 10 0 Rotation.Deg0 false]
    [[0]]).1.mpr
    ⟨[0], by decide,
     ⟨⟨0, 1⟩, AnchorKind.Output, 1⟩, by decide,
     ⟨⟨10, 1⟩, AnchorKind.Output, 2⟩, by decide,
     by decide, by decide, by decide⟩


/-! ### C9: `add_component` -/

/-- C9: `add_component(kind)` appends exactly one new component (built by
`Component::new`) at the end of the component vector, sets the selection
to the new component's index (the previous vector length), resets the
drag state to `None`, and leaves the pre-existing components and all wire
segments unchanged. -/
theorem add_component_spec (c : Circuit) (kind : ComponentKind) :
    (c.add_component kind).components = c.components ++ [Component.new kind] ∧
    (c.add_component kind).selection = Selection.Component c.components.length ∧
    (c.add_component kind).drag_state = DragState.None ∧
    (c.add_component kind).wire_segments = c.wire_segments :=
  ⟨rfl, rfl, rfl, rfl⟩

/-! ### C10: `set_linear_zoom` -/

/-- C10: `set_linear_zoom(v)` clamps `v` into `[0, 1]` before storing it,
so the stored linear zoom always lies in `[0, 1]`; it returns `true` iff
the clamped value differs from the current linear zoom, and when it
returns `false` the circuit (in particular both the linear zoom and the
derived exponential zoom) is unchanged. -/
theorem set_linear_zoom_spec (c : Circuit) (z : ℝ) :
    (0 ≤ (c.set_linear_zoom z).1.linear_zoom ∧
      (c.set_linear_zoom z).1.linear_zoom ≤ 1) ∧
    ((c.set_linear_zoom z).2 = true ↔
      clamp z MIN_LINEAR_ZOOM MAX_LINEAR_ZOOM ≠ c.linear_zoom) ∧
    ((c.set_linear_zoom z).2 = false → (c.set_linear_zoom z).1 = c) := by
  have hclamp : 0 ≤ clamp z MIN_LINEAR_ZOOM MAX_LINEAR_ZOOM ∧
      clamp z MIN_LINEAR_ZOOM MAX_LINEAR_ZOOM ≤ 1 := by
    unfold clamp MIN_LINEAR_ZOOM MAX_LINEAR_ZOOM
    split_ifs with h1 h2
    · norm_num
    · norm_num
    · constructor <;> linarith
  unfold Circuit.set_linear_zoom
  by_cases h : clamp z MIN_LINEAR_ZOOM MAX_LINEAR_ZOOM ≠ c.linear_zoom
  · rw [if_pos h]
    refine ⟨hclamp, ?_, ?_⟩
    · constructor
      · exact fun _ => h
      · exact fun _ => rfl
    · exact fun hf => nomatch hf
  · rw [if_neg h]
    push_neg at h
    refine ⟨⟨h ▸ hclamp.1, h ▸ hclamp.2⟩, ?_, fun _ => rfl⟩
    constructor
    · exact fun hb => nomatch hb
    · exact fun hne => absurd h hne

/-- An empty circuit with linear zoom 0, exercising `set_linear_zoom`. -/
noncomputable def zoom_example_circuit : Circuit where
  name := ""
  offset := ⟨0, 0⟩
  linear_zoom := 0
  zoom := 1
  components := []
  wire_segments := []
  selection := Selection.None
  drag_state := DragState.None
  primary_button_down := false
  secondary_button_down := false
  file_name := none
  sim_state := SimState.None

/-- Witness for C10 at linear zoom 0 and input 2: the stored zoom stays
in `[0, 1]` and the call reports a change (2 clamps to 1 ≠ 0). -/
theorem set_linear_zoom_spec_witness :
    (0 ≤ (zoom_example_circuit.set_linear_zoom 2).1.linear_zoom ∧
      (zoom_example_circuit.set_linear_zoom 2).1.linear_zoom ≤ 1) ∧
    (zoom_example_circuit.set_linear_zoom 2).2 = true := by
  have h := set_linear_zoom_spec zoom_example_circuit 2
  refine ⟨h.1, h.2.1.mpr ?_⟩
  unfold clamp MIN_LINEAR_ZOOM MAX_LINEAR_ZOOM
  rw [if_neg (by norm_num), if_pos (by norm_num)]
  show (1 : ℝ) ≠ zoom_example_circuit.linear_zoom
  norm_num [zoom_example_circuit]

/-! ### C5: step-budget exhaustion -/

/-- C5 (code bug): when the simulator reports `MaxStepsReached`,
`advance_simulation` hits `todo!()` and panics (modelled as `none`) for
every circuit, simulator and clock state — the outcome is *not* surfaced
as a distinct non-panicking state, contradicting the claim.  The `Ok` and
`Err` outcomes, by contrast, produce states. -/
theorem advance_simulation_max_steps_panics (c : Circuit) (sim : Simulator)
    (clock_state : Bool) :
    c.advance_simulation sim clock_state SimulationRunResult.MaxStepsReached
      = none ∧
    (∃ c', c.advance_simulation sim clock_state SimulationRunResult.Ok
      = some c') ∧
    (∀ conflicts, ∃ c',
      c.advance_simulation sim clock_state (SimulationRunResult.Err conflicts)
        = some c') :=
  ⟨rfl, ⟨_, rfl⟩, fun _ => ⟨_, rfl⟩⟩

/-! ### C6: `update_midpoints` -/

/-- C6: with `diff = |endpoint_b - endpoint_a|`, `update_midpoints`
produces no midpoint iff `diff.x = 0 ∨ diff.y = 0 ∨ diff.x = diff.y`;
otherwise exactly one midpoint `m`, placed adjacent to `endpoint_b` on
the axis with the larger absolute delta (it differs from `endpoint_b`
only on that axis, by `diff.x - diff.y` respectively `diff.y - diff.x`),
so that the remaining leg from `endpoint_a` to `m` is a 45° diagonal.
Endpoints are untouched. -/
theorem update_midpoints_spec (s : WireSegment) :
    (s.update_midpoints).endpoint_a = s.endpoint_a ∧
    (s.update_midpoints).endpoint_b = s.endpoint_b ∧
    (((s.endpoint_b - s.endpoint_a).abs.x = 0 ∨
      (s.endpoint_b - s.endpoint_a).abs.y = 0 ∨
      (s.endpoint_b - s.endpoint_a).abs.x = (s.endpoint_b - s.endpoint_a).abs.y)
      → (s.update_midpoints).midpoints = []) ∧
    (¬((s.endpoint_b - s.endpoint_a).abs.x = 0 ∨
      (s.endpoint_b - s.endpoint_a).abs.y = 0 ∨
      (s.endpoint_b - s.endpoint_a).abs.x = (s.endpoint_b - s.endpoint_a).abs.y)
      → ∃ m, (s.update_midpoints).midpoints = [m] ∧
        ((s.endpoint_b - s.endpoint_a).abs.x > (s.endpoint_b - s.endpoint_a).abs.y →
          m.y = s.endpoint_b.y ∧
          (m.x - s.endpoint_a.x).natAbs = (s.endpoint_b.y - s.endpoint_a.y).natAbs ∧
          (s.endpoint_b.x - m.x).natAbs =
            ((s.endpoint_b - s.endpoint_a).abs.x -
             (s.endpoint_b - s.endpoint_a).abs.y).natAbs) ∧
        ((s.endpoint_b - s.endpoint_a).abs.y > (s.endpoint_b - s.endpoint_a).abs.x →
          m.x = s.endpoint_b.x ∧
          (m.y - s.endpoint_a.y).natAbs = (s.endpoint_b.x - s.endpoint_a.x).natAbs ∧
          (s.endpoint_b.y - m.y).natAbs =
            ((s.endpoint_b - s.endpoint_a).abs.y -
             (s.endpoint_b - s.endpoint_a).abs.x).natAbs)) := by
  obtain ⟨⟨ax, ay⟩, mids, ⟨bx, by'⟩, sw⟩ := s
  refine ⟨rfl, rfl, fun h => ?_, fun h => ?_⟩
  · simp only [WireSegment.update_midpoints, Vec2i.sub_def_i, Vec2i.abs,
      Vec2i.x_mk_i, Vec2i.y_mk_i, Int.abs_eq_natAbs] at h ⊢
    rw [if_pos h]
  · simp only [WireSegment.update_midpoints, Vec2i.sub_def_i, Vec2i.abs,
      Vec2i.x_mk_i, Vec2i.y_mk_i, Int.abs_eq_natAbs] at h ⊢
    rw [if_neg h]
    push_neg at h
    obtain ⟨h1, h2, h3⟩ := h
    by_cases hxy : ((bx - ax).natAbs : ℤ) > ((by' - ay).natAbs : ℤ)
    · rw [if_pos hxy]
      refine ⟨_, rfl, fun _ => ⟨rfl, ?_, ?_⟩, fun hlt => absurd hxy (by omega)⟩ <;>
        simp only [Vec2i.new, Vec2i.x_mk_i, Vec2i.y_mk_i] <;>
        split_ifs with hdir <;> omega
    · rw [if_neg hxy]
      refine ⟨_, rfl, fun hgt => absurd hgt hxy, fun _ => ⟨rfl, ?_, ?_⟩⟩ <;>
        simp only [Vec2i.new, Vec2i.x_mk_i, Vec2i.y_mk_i] <;>
        split_ifs with hdir <;> omega

/-- Witness for C6 at the segment `(0,0) → (5,2)`: not a straight run,
and the computed midpoint is `(2,2)` — on `endpoint_b`'s row, a 45°
diagonal away from `endpoint_a`. -/
theorem update_midpoints_spec_witness :
    ∃ m : Vec2i,
      (WireSegment.update_midpoints ⟨⟨0, 0⟩, [], ⟨5, 2⟩, []⟩).midpoints = [m] ∧
      m.y = 2 ∧ (m.x - 0).natAbs = (2 - 0 : ℤ).natAbs := by
  obtain ⟨-, -, -, h⟩ :=
    update_midpoints_spec ⟨⟨0, 0⟩, [], ⟨5, 2⟩, []⟩
  obtain ⟨m, hm, hbig, -⟩ := h (by decide)
  obtain ⟨hy, hx, -⟩ := hbig (by decide)
  exact ⟨m, hm, hy, hx⟩

/-! ### Fold lemmas for the bounding box -/

theorem foldl_min_le_init : ∀ (l : List ℤ) (a : ℤ), l.foldl Min.min a ≤ a
  | [], a => le_refl a
  | x :: l, a => le_trans (foldl_min_le_init l (Min.min a x)) (min_le_left a x)

theorem foldl_min_le_mem : ∀ (l : List ℤ) (a x : ℤ), x ∈ l →
    l.foldl Min.min a ≤ x
  | y :: l, a, x, hx => by
      rcases List.mem_cons.mp hx with h | h
      · subst h
        exact le_trans (foldl_min_le_init l (Min.min a x)) (min_le_right a x)
      · exact foldl_min_le_mem l (Min.min a y) x h

theorem foldl_min_attained : ∀ (l : List ℤ) (a : ℤ),
    l.foldl Min.min a = a ∨ l.foldl Min.min a ∈ l
  | [], _ => Or.inl rfl
  | x :: l, a => by
      rcases foldl_min_attained l (Min.min a x) with h | h
      · rcases min_choice a x with hm | hm
        · exact Or.inl (by rw [List.foldl_cons, h, hm])
        · exact Or.inr (by rw [List.foldl_cons, h, hm]; exact List.mem_cons_self x l)
      · exact Or.inr (List.mem_cons_of_mem x h)

theorem foldl_max_init_le : ∀ (l : List ℤ) (a : ℤ), a ≤ l.foldl Max.max a
  | [], a => le_refl a
  | x :: l, a => le_trans (le_max_left a x) (foldl_max_init_le l (Max.max a x))

theorem foldl_max_mem_le : ∀ (l : List ℤ) (a x : ℤ), x ∈ l →
    x ≤ l.foldl Max.max a
  | y :: l, a, x, hx => by
      rcases List.mem_cons.mp hx with h | h
      · subst h
        exact le_trans (le_max_right a x) (foldl_max_init_le l (Max.max a x))
      · exact foldl_max_mem_le l (Max.max a y) x h

theorem foldl_max_attained : ∀ (l : List ℤ) (a : ℤ),
    l.foldl Max.max a = a ∨ l.foldl Max.max a ∈ l
  | [], _ => Or.inl rfl
  | x :: l, a => by
      rcases foldl_max_attained l (Max.max a x) with h | h
      · rcases max_choice a x with hm | hm
        · exact Or.inl (by rw [List.foldl_cons, h, hm])
        · exact Or.inr (by rw [List.foldl_cons, h, hm]; exact List.mem_cons_self x l)
      · exact Or.inr (List.mem_cons_of_mem x h)

theorem foldl_mm_fst_x : ∀ (pts : List Vec2i) (mm : Vec2i × Vec2i),
    (pts.foldl mm_step mm).1.x = (pts.map Vec2i.x).foldl Min.min mm.1.x
  | [], _ => rfl
  | p :: pts, mm => foldl_mm_fst_x pts (mm_step mm p)

theorem foldl_mm_fst_y : ∀ (pts : List Vec2i) (mm : Vec2i × Vec2i),
    (pts.foldl mm_step mm).1.y = (pts.map Vec2i.y).foldl Min.min mm.1.y
  | [], _ => rfl
  | p :: pts, mm => foldl_mm_fst_y pts (mm_step mm p)

theorem foldl_mm_snd_x : ∀ (pts : List Vec2i) (mm : Vec2i × Vec2i),
    (pts.foldl mm_step mm).2.x = (pts.map Vec2i.x).foldl Max.max mm.2.x
  | [], _ => rfl
  | p :: pts, mm => foldl_mm_snd_x pts (mm_step mm p)

theorem foldl_mm_snd_y : ∀ (pts : List Vec2i) (mm : Vec2i × Vec2i),
    (pts.foldl mm_step mm).2.y = (pts.map Vec2i.y).foldl Max.max mm.2.y
  | [], _ => rfl
  | p :: pts, mm => foldl_mm_snd_y pts (mm_step mm p)

/-! ### Reducing `find_selection_bounding_box` to a single fold -/

theorem fsbb_components_eq (comps : List Component) :
    ∀ (idxs : List ℕ) (mm : Vec2i × Vec2i),
      (∀ i ∈ idxs, i < comps.length) →
      Circuit.fsbb_components comps idxs mm =
        some ((comp_points comps idxs).foldl mm_step mm)
  | [], mm, _ => rfl
  | i :: rest, mm, h => by
      have hi : i < comps.length := h i (List.mem_cons_self i rest)
      have hget : comps.get? i = some (comps.get ⟨i, hi⟩) := List.get?_eq_get hi
      have hpts : comp_points comps (i :: rest) =
          (comps.get ⟨i, hi⟩).position :: comp_points comps rest := by
        unfold comp_points
        exact List.filterMap_cons_some
          (by show (comps.get? i).map Component.position = _; rw [hget]; rfl)
      have hstep : Circuit.fsbb_components comps (i :: rest) mm =
          Circuit.fsbb_components comps rest
            (mm_step mm (comps.get ⟨i, hi⟩).position) := by
        conv_lhs => rw [Circuit.fsbb_components]
        rw [hget]
        rfl
      rw [hstep, hpts, List.foldl_cons]
      exact fsbb_components_eq comps rest _
        (fun j hj => h j (List.mem_cons_of_mem i hj))

theorem fsbb_wires_eq (ws : List WireSegment) :
    ∀ (idxs : List ℕ) (mm : Vec2i × Vec2i),
      (∀ i ∈ idxs, i < ws.length) →
      Circuit.fsbb_wires ws idxs mm =
        some ((wire_points ws idxs).foldl mm_step mm)
  | [], mm, _ => rfl
  | i :: rest, mm, h => by
      have hi : i < ws.length := h i (List.mem_cons_self i rest)
      have hget : ws.get? i = some (ws.get ⟨i, hi⟩) := List.get?_eq_get hi
      have hpts : wire_points ws (i :: rest) =
          ((ws.get ⟨i, hi⟩).endpoint_a :: (ws.get ⟨i, hi⟩).endpoint_b ::
            (ws.get ⟨i, hi⟩).midpoints) ++ wire_points ws rest := by
        unfold wire_points
        rw [List.flatMap_cons, hget]
      have hstep : Circuit.fsbb_wires ws (i :: rest) mm =
          Circuit.fsbb_wires ws rest
            ((ws.get ⟨i, hi⟩).midpoints.foldl mm_step
              (mm_step (mm_step mm (ws.get ⟨i, hi⟩).endpoint_a)
                (ws.get ⟨i, hi⟩).endpoint_b)) := by
        conv_lhs => rw [Circuit.fsbb_wires]
        rw [hget]
        rfl
      rw [hstep, hpts, List.foldl_append]
      exact fsbb_wires_eq ws rest _
        (fun j hj => h j (List.mem_cons_of_mem i hj))

/-- `find_selection_bounding_box` succeeds on valid indices and returns the
exact bounding box of the selected elements' points, provided the
coordinates fit in `i32` and at least one point is selected. -/
theorem find_selection_bounding_box_is_bb (c : Circuit) (compsI wiresI : List ℕ)
    (hc : ∀ i ∈ compsI, i < c.components.length)
    (hw : ∀ i ∈ wiresI, i < c.wire_segments.length)
    (hne : comp_points c.components compsI ++ wire_points c.wire_segments wiresI ≠ [])
    (hrange : ∀ p ∈ comp_points c.components compsI ++
      wire_points c.wire_segments wiresI, in_i32_range p) :
    ∃ bb, c.find_selection_bounding_box compsI wiresI = some bb ∧
      is_bounding_box bb
        (comp_points c.components compsI ++ wire_points c.wire_segments wiresI) := by
  set pts := comp_points c.components compsI ++ wire_points c.wire_segments wiresI
    with hpts
  set mm₀ : Vec2i × Vec2i :=
    (Vec2i.new (2 ^ 31 - 1) (2 ^ 31 - 1), Vec2i.new (-(2 ^ 31)) (-(2 ^ 31)))
    with hmm₀
  have hcomp := fsbb_components_eq c.components compsI mm₀ hc
  have hwire := fsbb_wires_eq c.wire_segments wiresI
    ((comp_points c.components compsI).foldl mm_step mm₀) hw
  set mmF := pts.foldl mm_step mm₀ with hmmF
  have hfold : (wire_points c.wire_segments wiresI).foldl mm_step
      ((comp_points c.components compsI).foldl mm_step mm₀) = mmF := by
    rw [hmmF, hpts, List.foldl_append]
  have hval : c.find_selection_bounding_box compsI wiresI =
      some ⟨(mmF.2.y : ℝ), (mmF.1.y : ℝ), (mmF.1.x : ℝ), (mmF.2.x : ℝ)⟩ := by
    show (Circuit.fsbb_components c.components compsI mm₀).bind _ = _
    rw [hcomp, Option.some_bind]
    show (Circuit.fsbb_wires c.wire_segments wiresI _).bind _ = _
    rw [hwire, hfold, Option.some_bind]
    rfl
  refine ⟨_, hval, ?_, ?_, ?_, ?_, ?_⟩
  · intro p hp
    refine ⟨?_, ?_, ?_, ?_⟩
    · show (mmF.1.x : ℝ) ≤ (p.x : ℝ)
      exact_mod_cast by
        rw [hmmF, foldl_mm_fst_x]
        exact foldl_min_le_mem _ _ _ (List.mem_map_of_mem Vec2i.x hp)
    · show (p.x : ℝ) ≤ (mmF.2.x : ℝ)
      exact_mod_cast by
        rw [hmmF, foldl_mm_snd_x]
        exact foldl_max_mem_le _ _ _ (List.mem_map_of_mem Vec2i.x hp)
    · show (mmF.1.y : ℝ) ≤ (p.y : ℝ)
      exact_mod_cast by
        rw [hmmF, foldl_mm_fst_y]
        exact foldl_min_le_mem _ _ _ (List.mem_map_of_mem Vec2i.y hp)
    · show (p.y : ℝ) ≤ (mmF.2.y : ℝ)
      exact_mod_cast by
        rw [hmmF, foldl_mm_snd_y]
        exact foldl_max_mem_le _ _ _ (List.mem_map_of_mem Vec2i.y hp)
  · -- left attained
    obtain ⟨p₀, hp₀⟩ := List.exists_mem_of_ne_nil pts hne
    have hx : mmF.1.x = (2 ^ 31 - 1 : ℤ) ∨ mmF.1.x ∈ pts.map Vec2i.x := by
      rw [hmmF, foldl_mm_fst_x]; exact foldl_min_attained _ _
    rcases hx with hx | hx
    · refine ⟨p₀, hp₀, ?_⟩
      have h1 : mmF.1.x ≤ p₀.x := by
        rw [hmmF, foldl_mm_fst_x]
        exact foldl_min_le_mem _ _ _ (List.mem_map_of_mem Vec2i.x hp₀)
      have h2 : p₀.x ≤ 2 ^ 31 - 1 := (hrange p₀ hp₀).2.1
      show ((mmF.1.x : ℤ) : ℝ) = (p₀.x : ℝ)
      exact_mod_cast (by omega : mmF.1.x = p₀.x)
    · obtain ⟨p, hp, hpx⟩ := List.mem_map.mp hx
      refine ⟨p, hp, ?_⟩
      show ((mmF.1.x : ℤ) : ℝ) = (p.x : ℝ)
      exact_mod_cast hpx.symm
  · -- right attained
    obtain ⟨p₀, hp₀⟩ := List.exists_mem_of_ne_nil pts hne
    have hx : mmF.2.x = (-(2 ^ 31) : ℤ) ∨ mmF.2.x ∈ pts.map Vec2i.x := by
      rw [hmmF, foldl_mm_snd_x]; exact foldl_max_attained _ _
    rcases hx with hx | hx
    · refine ⟨p₀, hp₀, ?_⟩
      have h1 : p₀.x ≤ mmF.2.x := by
        rw [hmmF, foldl_mm_snd_x]
        exact foldl_max_mem_le _ _ _ (List.mem_map_of_mem Vec2i.x hp₀)
      have h2 : -(2 ^ 31) ≤ p₀.x := (hrange p₀ hp₀).1
      show ((mmF.2.x : ℤ) : ℝ) = (p₀.x : ℝ)
      exact_mod_cast (by omega : mmF.2.x = p₀.x)
    · obtain ⟨p, hp, hpx⟩ := List.mem_map.mp hx
      refine ⟨p, hp, ?_⟩
      show ((mmF.2.x : ℤ) : ℝ) = (p.x : ℝ)
      exact_mod_cast hpx.symm
  · -- bottom attained
    obtain ⟨p₀, hp₀⟩ := List.exists_mem_of_ne_nil pts hne
    have hx : mmF.1.y = (2 ^ 31 - 1 : ℤ) ∨ mmF.1.y ∈ pts.map Vec2i.y := by
      rw [hmmF, foldl_mm_fst_y]; exact foldl_min_attained _ _
    rcases hx with hx | hx
    · refine ⟨p₀, hp₀, ?_⟩
      have h1 : mmF.1.y ≤ p₀.y := by
        rw [hmmF, foldl_mm_fst_y]
        exact foldl_min_le_mem _ _ _ (List.mem_map_of_mem Vec2i.y hp₀)
      have h2 : p₀.y ≤ 2 ^ 31 - 1 := (hrange p₀ hp₀).2.2.2
      show ((mmF.1.y : ℤ) : ℝ) = (p₀.y : ℝ)
      exact_mod_cast (by omega : mmF.1.y = p₀.y)
    · obtain ⟨p, hp, hpy⟩ := List.mem_map.mp hx
      refine ⟨p, hp, ?_⟩
      show ((mmF.1.y : ℤ) : ℝ) = (p.y : ℝ)
      exact_mod_cast hpy.symm
  · -- top attained
    obtain ⟨p₀, hp₀⟩ := List.exists_mem_of_ne_nil pts hne
    have hx : mmF.2.y = (-(2 ^ 31) : ℤ) ∨ mmF.2.y ∈ pts.map Vec2i.y := by
      rw [hmmF, foldl_mm_snd_y]; exact foldl_max_attained _ _
    rcases hx with hx | hx
    · refine ⟨p₀, hp₀, ?_⟩
      have h1 : p₀.y ≤ mmF.2.y := by
        rw [hmmF, foldl_mm_snd_y]
        exact foldl_max_mem_le _ _ _ (List.mem_map_of_mem Vec2i.y hp₀)
      have h2 : -(2 ^ 31) ≤ p₀.y := (hrange p₀ hp₀).2.2.1
      show ((mmF.2.y : ℤ) : ℝ) = (p₀.y : ℝ)
      exact_mod_cast (by omega : mmF.2.y = p₀.y)
    · obtain ⟨p, hp, hpy⟩ := List.mem_map.mp hx
      refine ⟨p, hp, ?_⟩
      show ((mmF.2.y : ℤ) : ℝ) = (p.y : ℝ)
      exact_mod_cast hpy.symm

/-! ### Enumerate-filter-map lemmas -/

theorem snd_mem_of_mem_enumFrom {α : Type _} :
    ∀ (l : List α) (n : ℕ) (pr : ℕ × α), pr ∈ List.enumFrom n l → pr.2 ∈ l
  | a :: l, n, pr, h => by
      rcases List.mem_cons.mp h with h | h
      · subst h; exact List.mem_cons_self a l
      · exact List.mem_cons_of_mem a (snd_mem_of_mem_enumFrom l (n + 1) pr h)

theorem mem_map_fst_filter_enumFrom {α : Type _} (f : α → Bool) :
    ∀ (l : List α) (n i : ℕ),
      (i ∈ ((List.enumFrom n l).filter fun pr => f pr.2).map Prod.fst ↔
        ∃ j, ∃ hj : j < l.length, i = n + j ∧ f (l.get ⟨j, hj⟩) = true)
  | [], n, i => by
      constructor
      · intro h; simp at h
      · rintro ⟨j, hj, -⟩; exact absurd hj (Nat.not_lt_zero j)
  | a :: l, n, i => by
      have hrec := mem_map_fst_filter_enumFrom f l (n + 1) i
      rw [show List.enumFrom n (a :: l) = (n, a) :: List.enumFrom (n + 1) l from rfl,
        List.filter_cons]
      by_cases hfa : f a = true
      · rw [if_pos (show (fun pr : ℕ × α => f pr.2) (n, a) = true from hfa),
          List.map_cons]
        constructor
        · intro h
          rcases List.mem_cons.mp h with h | h
          · exact ⟨0, Nat.succ_pos l.length, by simpa using h, hfa⟩
          · obtain ⟨j, hj, hij, hf⟩ := hrec.mp h
            exact ⟨j + 1, Nat.succ_lt_succ hj, by omega, hf⟩
        · rintro ⟨j, hj, hij, hf⟩
          cases j with
          | zero => exact List.mem_cons.mpr (Or.inl (show i = n by omega))
          | succ j =>
              exact List.mem_cons.mpr (Or.inr
                (hrec.mpr ⟨j, Nat.lt_of_succ_lt_succ hj, by omega, hf⟩))
      · rw [if_neg (show ¬ ((fun pr : ℕ × α => f pr.2) (n, a) = true) from hfa)]
        constructor
        · intro h
          obtain ⟨j, hj, hij, hf⟩ := hrec.mp h
          exact ⟨j + 1, Nat.succ_lt_succ hj, by omega, hf⟩
        · rintro ⟨j, hj, hij, hf⟩
          cases j with
          | zero => exact absurd hf hfa
          | succ j =>
              exact hrec.mpr ⟨j, Nat.lt_of_succ_lt_succ hj, by omega, hf⟩

theorem length_map_fst_filter_enumFrom {α : Type _} (f : α → Bool) :
    ∀ (l : List α) (n : ℕ),
      (((List.enumFrom n l).filter fun pr => f pr.2).map Prod.fst).length =
        l.countP f
  | [], _ => rfl
  | a :: l, n => by
      rw [show List.enumFrom n (a :: l) = (n, a) :: List.enumFrom (n + 1) l from rfl,
        List.filter_cons, List.countP_cons]
      by_cases hfa : f a = true
      · rw [if_pos (show (fun pr : ℕ × α => f pr.2) (n, a) = true from hfa),
          if_pos hfa, List.map_cons, List.length_cons,
          length_map_fst_filter_enumFrom f l (n + 1)]
      · rw [if_neg (show ¬ ((fun pr : ℕ × α => f pr.2) (n, a) = true) from hfa),
          if_neg hfa, length_map_fst_filter_enumFrom f l (n + 1)]
        omega

theorem comp_points_cons (comps : List Component) (i : ℕ) (rest : List ℕ)
    (hi : i < comps.length) :
    comp_points comps (i :: rest) =
      (comps.get ⟨i, hi⟩).position :: comp_points comps rest := by
  unfold comp_points
  exact List.filterMap_cons_some
    (by show (comps.get? i).map Component.position = _
        rw [List.get?_eq_get hi]; rfl)

theorem wire_points_cons (ws : List WireSegment) (i : ℕ) (rest : List ℕ)
    (hi : i < ws.length) :
    wire_points ws (i :: rest) =
      ((ws.get ⟨i, hi⟩).endpoint_a :: (ws.get ⟨i, hi⟩).endpoint_b ::
        (ws.get ⟨i, hi⟩).midpoints) ++ wire_points ws rest := by
  unfold wire_points
  rw [List.flatMap_cons, List.get?_eq_get hi]

/-! ### Selected points sit inside the circuit's point set -/

theorem mem_comp_points_sub (comps : List Component) (idxs : List ℕ) :
    ∀ p ∈ comp_points comps idxs, p ∈ comps.map Component.position := by
  intro p hp
  unfold comp_points at hp
  obtain ⟨i, _hi, hp⟩ := List.mem_filterMap.mp hp
  cases hg : comps.get? i with
  | none => rw [hg] at hp; exact absurd hp (by simp)
  | some comp =>
      rw [hg] at hp
      have : comp.position = p := by simpa using hp
      exact this ▸ List.mem_map_of_mem Component.position (List.get?_mem hg)

theorem mem_wire_points_sub (ws : List WireSegment) (idxs : List ℕ) :
    ∀ p ∈ wire_points ws idxs,
      p ∈ ws.flatMap fun w => w.endpoint_a :: w.endpoint_b :: w.midpoints := by
  intro p hp
  unfold wire_points at hp
  obtain ⟨i, _hi, hp⟩ := List.mem_flatMap.mp hp
  cases hg : ws.get? i with
  | none =>
      rw [hg] at hp
      exact absurd hp (List.not_mem_nil p)
  | some w =>
      rw [hg] at hp
      exact List.mem_flatMap.mpr ⟨w, List.get?_mem hg, hp⟩

theorem selected_points_sub (c : Circuit) (SCl SWl : List ℕ) :
    ∀ p ∈ comp_points c.components SCl ++ wire_points c.wire_segments SWl,
      p ∈ circuit_points c := by
  intro p hp
  unfold circuit_points
  rcases List.mem_append.mp hp with h | h
  · exact List.mem_append.mpr (Or.inl (mem_comp_points_sub _ _ p h))
  · exact List.mem_append.mpr (Or.inr (mem_wire_points_sub _ _ p h))

/-! ### C8: the box-selection release -/

/-- **C8** (corrected): on releasing a box selection the enclosing
rectangle of the drag is computed; the released selection then contains
exactly the components whose position lies inside the rectangle and
exactly the wire segments with an ENDPOINT inside it (midpoints are not
examined); one caught element yields the corresponding single-element
selection, two or more yield a `Multi` selection whose center is the
center of the caught elements\' exact bounding box, and no caught element
leaves the selection unchanged. -/
theorem box_selection_release_spec (c : Circuit) (drag_start drag_delta : Vec2f)
    (hrange : ∀ p ∈ circuit_points c, in_i32_range p) :
    ∃ sel, c.box_selection_release drag_start drag_delta = some sel ∧
      (0 < box_count_c c (drag_box drag_start drag_delta) +
          box_count_w c (drag_box drag_start drag_delta) →
        (∀ i, ∀ hi : i < c.components.length,
          (sel.contains_component i ↔
            comp_in_box (drag_box drag_start drag_delta)
              (c.components.get ⟨i, hi⟩))) ∧
        (∀ i, ∀ hi : i < c.wire_segments.length,
          (sel.contains_wire_segment i ↔
            wire_in_box (drag_box drag_start drag_delta)
              (c.wire_segments.get ⟨i, hi⟩))) ∧
        (∀ i, sel.contains_component i → i < c.components.length) ∧
        (∀ i, sel.contains_wire_segment i → i < c.wire_segments.length)) ∧
      (box_count_c c (drag_box drag_start drag_delta) +
          box_count_w c (drag_box drag_start drag_delta) = 0 →
        sel = c.selection) ∧
      (box_count_c c (drag_box drag_start drag_delta) = 1 ∧
          box_count_w c (drag_box drag_start drag_delta) = 0 →
        ∃ i, sel = Selection.Component i) ∧
      (box_count_c c (drag_box drag_start drag_delta) = 0 ∧
          box_count_w c (drag_box drag_start drag_delta) = 1 →
        ∃ i, sel = Selection.WireSegment i) ∧
      (2 ≤ box_count_c c (drag_box drag_start drag_delta) +
          box_count_w c (drag_box drag_start drag_delta) →
        ∃ selC selW bb, sel = Selection.Multi selC selW bb.center ∧
          is_bounding_box bb
            (comp_points c.components selC ++ wire_points c.wire_segments selW)) := by
  obtain ⟨SC, hSCdef⟩ : ∃ SC, (c.components.enum.filter fun pr =>
      decide ((drag_box drag_start drag_delta).contains
        pr.2.position.to_vec2f)).map Prod.fst = SC := ⟨_, rfl⟩
  obtain ⟨SW, hSWdef⟩ : ∃ SW, (c.wire_segments.enum.filter fun pr =>
      decide ((drag_box drag_start drag_delta).contains pr.2.endpoint_a.to_vec2f) ||
      decide ((drag_box drag_start drag_delta).contains
        pr.2.endpoint_b.to_vec2f)).map Prod.fst = SW := ⟨_, rfl⟩
  have hkey : c.box_selection_release drag_start drag_delta =
      (if SC.length = 1 ∧ SW.isEmpty then
        some (Selection.Component (SC.headD 0))
      else if SC.isEmpty ∧ SW.length = 1 then
        some (Selection.WireSegment (SW.headD 0))
      else if ¬ SC.isEmpty ∨ ¬ SW.isEmpty then
        (c.find_selection_bounding_box SC SW).map
          fun bb => Selection.Multi SC SW bb.center
      else some c.selection) := by
    rw [← hSCdef, ← hSWdef]
    rfl
  have hSCmem : ∀ i, i ∈ SC ↔ ∃ hi : i < c.components.length,
      comp_in_box (drag_box drag_start drag_delta)
        (c.components.get ⟨i, hi⟩) := by
    intro i
    rw [← hSCdef]
    have hmem := mem_map_fst_filter_enumFrom
      (fun comp => decide
        ((drag_box drag_start drag_delta).contains comp.position.to_vec2f))
      c.components 0 i
    constructor
    · intro h
      obtain ⟨j, hj, hij, hf⟩ := hmem.mp h
      have hij2 : i = j := by omega
      subst hij2
      exact ⟨hj, of_decide_eq_true hf⟩
    · rintro ⟨hi, hbox⟩
      exact hmem.mpr ⟨i, hi, (Nat.zero_add i).symm, decide_eq_true hbox⟩
  have hSWmem : ∀ i, i ∈ SW ↔ ∃ hi : i < c.wire_segments.length,
      wire_in_box (drag_box drag_start drag_delta)
        (c.wire_segments.get ⟨i, hi⟩) := by
    intro i
    rw [← hSWdef]
    have hmem := mem_map_fst_filter_enumFrom
      (fun w =>
        decide ((drag_box drag_start drag_delta).contains w.endpoint_a.to_vec2f) ||
        decide ((drag_box drag_start drag_delta).contains w.endpoint_b.to_vec2f))
      c.wire_segments 0 i
    constructor
    · intro h
      obtain ⟨j, hj, hij, hf⟩ := hmem.mp h
      have hij2 : i = j := by omega
      subst hij2
      have hf2 : (drag_box drag_start drag_delta).contains
          (c.wire_segments.get ⟨i, hj⟩).endpoint_a.to_vec2f ∨
          (drag_box drag_start drag_delta).contains
            (c.wire_segments.get ⟨i, hj⟩).endpoint_b.to_vec2f := by
        simpa using hf
      exact ⟨hj, hf2⟩
    · rintro ⟨hi, hbox⟩
      refine hmem.mpr ⟨i, hi, (Nat.zero_add i).symm, ?_⟩
      rcases hbox with h2 | h2
      · rw [decide_eq_true h2, Bool.true_or]
      · rw [decide_eq_true h2, Bool.or_true]
  have hSClen : SC.length =
      box_count_c c (drag_box drag_start drag_delta) := by
    rw [← hSCdef]
    exact length_map_fst_filter_enumFrom
      (fun comp => decide
        ((drag_box drag_start drag_delta).contains comp.position.to_vec2f))
      c.components 0
  have hSWlen : SW.length =
      box_count_w c (drag_box drag_start drag_delta) := by
    rw [← hSWdef]
    refine Eq.trans (length_map_fst_filter_enumFrom
      (fun w =>
        decide ((drag_box drag_start drag_delta).contains w.endpoint_a.to_vec2f) ||
        decide ((drag_box drag_start drag_delta).contains w.endpoint_b.to_vec2f))
      c.wire_segments 0) ?_
    have hfn : (fun w : WireSegment =>
        decide ((drag_box drag_start drag_delta).contains w.endpoint_a.to_vec2f) ||
        decide ((drag_box drag_start drag_delta).contains w.endpoint_b.to_vec2f)) =
        fun w => decide
          (wire_in_box (drag_box drag_start drag_delta) w) := by
      funext w
      by_cases h1 : (drag_box drag_start drag_delta).contains w.endpoint_a.to_vec2f <;>
        by_cases h2 : (drag_box drag_start drag_delta).contains w.endpoint_b.to_vec2f <;>
        simp [h1, h2, wire_in_box]
    rw [hfn]
    rfl
  by_cases hA : SC.length = 1 ∧ SW.isEmpty
  · obtain ⟨hlen1, hempty⟩ := hA
    obtain ⟨i₀, hSCeq⟩ := List.length_eq_one.mp hlen1
    have hSWnil : SW = [] := List.isEmpty_iff.mp hempty
    have hSW0 : SW.length = 0 := by rw [hSWnil]; rfl
    have hi₀mem : i₀ ∈ SC := by rw [hSCeq]; exact List.mem_cons_self i₀ []
    obtain ⟨hi₀, hi₀box⟩ := (hSCmem i₀).mp hi₀mem
    refine ⟨Selection.Component i₀, ?_, ?_, ?_, ?_, ?_, ?_⟩
    · rw [hkey, if_pos ⟨hlen1, hempty⟩, hSCeq]
      rfl
    · intro _hpos
      refine ⟨?_, ?_, ?_, ?_⟩
      · intro j hj
        constructor
        · intro hcc
          have hji : i₀ = j := hcc
          subst hji
          exact hi₀box
        · intro hbox
          have hjmem : j ∈ SC := (hSCmem j).mpr ⟨hj, hbox⟩
          rw [hSCeq] at hjmem
          have : j = i₀ := by simpa using hjmem
          exact this.symm
      · intro j hj
        constructor
        · intro hcw
          exact hcw.elim
        · intro hbox
          have hjmem : j ∈ SW := (hSWmem j).mpr ⟨hj, hbox⟩
          rw [hSWnil] at hjmem
          exact absurd hjmem (List.not_mem_nil j)
      · intro j hcc
        have hji : i₀ = j := hcc
        subst hji
        exact hi₀
      · intro j hcw
        exact hcw.elim
    · intro h0
      rw [← hSClen, ← hSWlen] at h0
      omega
    · intro _h
      exact ⟨i₀, rfl⟩
    · intro h
      rw [← hSClen] at h
      exact absurd h.1 (by omega)
    · intro h
      rw [← hSClen, ← hSWlen] at h
      omega
  · by_cases hB : SC.isEmpty ∧ SW.length = 1
    · obtain ⟨hempty, hlen1⟩ := hB
      obtain ⟨j₀, hSWeq⟩ := List.length_eq_one.mp hlen1
      have hSCnil : SC = [] := List.isEmpty_iff.mp hempty
      have hSC0 : SC.length = 0 := by rw [hSCnil]; rfl
      have hj₀mem : j₀ ∈ SW := by rw [hSWeq]; exact List.mem_cons_self j₀ []
      obtain ⟨hj₀, hj₀box⟩ := (hSWmem j₀).mp hj₀mem
      refine ⟨Selection.WireSegment j₀, ?_, ?_, ?_, ?_, ?_, ?_⟩
      · rw [hkey, if_neg hA, if_pos ⟨hempty, hlen1⟩, hSWeq]
        rfl
      · intro _hpos
        refine ⟨?_, ?_, ?_, ?_⟩
        · intro j hj
          constructor
          · intro hcc
            exact hcc.elim
          · intro hbox
            have hjmem : j ∈ SC := (hSCmem j).mpr ⟨hj, hbox⟩
            rw [hSCnil] at hjmem
            exact absurd hjmem (List.not_mem_nil j)
        · intro j hj
          constructor
          · intro hcw
            have hji : j₀ = j := hcw
            subst hji
            exact hj₀box
          · intro hbox
            have hjmem : j ∈ SW := (hSWmem j).mpr ⟨hj, hbox⟩
            rw [hSWeq] at hjmem
            have : j = j₀ := by simpa using hjmem
            exact this.symm
        · intro j hcc
          exact hcc.elim
        · intro j hcw
          have hji : j₀ = j := hcw
          subst hji
          exact hj₀
      · intro h0
        rw [← hSClen, ← hSWlen] at h0
        omega
      · intro h
        rw [← hSClen, ← hSWlen] at h
        omega
      · intro _h
        exact ⟨j₀, rfl⟩
      · intro h
        rw [← hSClen, ← hSWlen] at h
        omega
    · by_cases hC : ¬ SC.isEmpty ∨ ¬ SW.isEmpty
      · have hvc : ∀ i ∈ SC, i < c.components.length := by
          intro i hi
          obtain ⟨h1, -⟩ := (hSCmem i).mp hi
          exact h1
        have hvw : ∀ i ∈ SW, i < c.wire_segments.length := by
          intro i hi
          obtain ⟨h1, -⟩ := (hSWmem i).mp hi
          exact h1
        have hne : comp_points c.components SC ++
            wire_points c.wire_segments SW ≠ [] := by
          intro hnil
          rw [List.append_eq_nil] at hnil
          obtain ⟨hnil1, hnil2⟩ := hnil
          rcases hC with h | h
          · have hSCne : SC ≠ [] := by
              intro hc
              exact h (by rw [hc]; rfl)
            obtain ⟨i, rest, hSCc⟩ := List.exists_cons_of_ne_nil hSCne
            have hi : i < c.components.length :=
              hvc i (by rw [hSCc]; exact List.mem_cons_self i rest)
            rw [hSCc, comp_points_cons c.components i rest hi] at hnil1
            exact List.cons_ne_nil _ _ hnil1
          · have hSWne : SW ≠ [] := by
              intro hc
              exact h (by rw [hc]; rfl)
            obtain ⟨i, rest, hSWc⟩ := List.exists_cons_of_ne_nil hSWne
            have hi : i < c.wire_segments.length :=
              hvw i (by rw [hSWc]; exact List.mem_cons_self i rest)
            rw [hSWc, wire_points_cons c.wire_segments i rest hi] at hnil2
            exact List.cons_ne_nil _ _ hnil2
        have hrange2 : ∀ p ∈ comp_points c.components SC ++
            wire_points c.wire_segments SW, in_i32_range p :=
          fun p hp => hrange p (selected_points_sub c SC SW p hp)
        obtain ⟨bb, hfsbb, hbb⟩ :=
          find_selection_bounding_box_is_bb c SC SW hvc hvw hne hrange2
        refine ⟨Selection.Multi SC SW bb.center, ?_, ?_, ?_, ?_, ?_, ?_⟩
        · rw [hkey, if_neg hA, if_neg hB, if_pos hC, hfsbb]
          rfl
        · intro _hpos
          refine ⟨?_, ?_, ?_, ?_⟩
          · intro j hj
            constructor
            · intro hcc
              obtain ⟨h1, h2⟩ := (hSCmem j).mp hcc
              exact h2
            · intro hbox
              exact (hSCmem j).mpr ⟨hj, hbox⟩
          · intro j hj
            constructor
            · intro hcw
              obtain ⟨h1, h2⟩ := (hSWmem j).mp hcw
              exact h2
            · intro hbox
              exact (hSWmem j).mpr ⟨hj, hbox⟩
          · intro j hcc
            exact ((hSCmem j).mp hcc).1
          · intro j hcw
            exact ((hSWmem j).mp hcw).1
        · intro h0
          rw [← hSClen, ← hSWlen] at h0
          rcases hC with h | h
          · have : SC = [] := List.length_eq_zero.mp (by omega)
            exact absurd (by rw [this]; rfl) h
          · have : SW = [] := List.length_eq_zero.mp (by omega)
            exact absurd (by rw [this]; rfl) h
        · intro h
          rw [← hSClen, ← hSWlen] at h
          have hSWnil : SW = [] := List.length_eq_zero.mp h.2
          exact absurd ⟨h.1, by rw [hSWnil]; rfl⟩ hA
        · intro h
          rw [← hSClen, ← hSWlen] at h
          have hSCnil : SC = [] := List.length_eq_zero.mp h.1
          exact absurd ⟨by rw [hSCnil]; rfl, h.2⟩ hB
        · intro _h
          exact ⟨SC, SW, bb, rfl, hbb⟩
      · have hSCnil : SC = [] := by
          obtain ⟨h1, -⟩ := not_or.mp hC
          exact List.isEmpty_iff.mp (not_not.mp h1)
        have hSWnil : SW = [] := by
          obtain ⟨-, h2⟩ := not_or.mp hC
          exact List.isEmpty_iff.mp (not_not.mp h2)
        have hSC0 : SC.length = 0 := by rw [hSCnil]; rfl
        have hSW0 : SW.length = 0 := by rw [hSWnil]; rfl
        refine ⟨c.selection, ?_, ?_, ?_, ?_, ?_, ?_⟩
        · rw [hkey, if_neg hA, if_neg hB, if_neg hC]
        · intro hpos
          rw [← hSClen, ← hSWlen] at hpos
          omega
        · intro _h0
          rfl
        · intro h
          rw [← hSClen] at h
          exact absurd h.1 (by omega)
        · intro h
          rw [← hSWlen] at h
          exact absurd h.2 (by omega)
        · intro h
          rw [← hSClen, ← hSWlen] at h
          omega

/-! ### C8 counterexample: midpoints are not examined -/

/-- If the box catches no component position and no wire endpoint, the
selection is left unchanged — regardless of midpoints. -/
theorem box_selection_release_of_empty (c : Circuit) (ds dd : Vec2f)
    (hC : ∀ comp ∈ c.components, ¬ comp_in_box (drag_box ds dd) comp)
    (hW : ∀ w ∈ c.wire_segments, ¬ wire_in_box (drag_box ds dd) w) :
    c.box_selection_release ds dd = some c.selection := by
  have hSC : (c.components.enum.filter fun pr =>
      decide ((drag_box ds dd).contains pr.2.position.to_vec2f)).map
        Prod.fst = [] := by
    rw [List.map_eq_nil_iff, List.filter_eq_nil_iff]
    intro pr hpr
    have hmem : pr.2 ∈ c.components :=
      snd_mem_of_mem_enumFrom c.components 0 pr hpr
    exact fun hdec => hC pr.2 hmem (of_decide_eq_true hdec)
  have hSW : (c.wire_segments.enum.filter fun pr =>
      decide ((drag_box ds dd).contains pr.2.endpoint_a.to_vec2f) ||
      decide ((drag_box ds dd).contains pr.2.endpoint_b.to_vec2f)).map
        Prod.fst = [] := by
    rw [List.map_eq_nil_iff, List.filter_eq_nil_iff]
    intro pr hpr
    have hmem : pr.2 ∈ c.wire_segments :=
      snd_mem_of_mem_enumFrom c.wire_segments 0 pr hpr
    intro hdec
    have hdec2 : (drag_box ds dd).contains pr.2.endpoint_a.to_vec2f ∨
        (drag_box ds dd).contains pr.2.endpoint_b.to_vec2f := by
      simpa using hdec
    exact hW pr.2 hmem hdec2
  have hkey : c.box_selection_release ds dd =
      (if ((c.components.enum.filter fun pr =>
          decide ((drag_box ds dd).contains pr.2.position.to_vec2f)).map
            Prod.fst).length = 1 ∧
        ((c.wire_segments.enum.filter fun pr =>
          decide ((drag_box ds dd).contains pr.2.endpoint_a.to_vec2f) ||
          decide ((drag_box ds dd).contains pr.2.endpoint_b.to_vec2f)).map
            Prod.fst).isEmpty then
        some (Selection.Component (((c.components.enum.filter fun pr =>
          decide ((drag_box ds dd).contains pr.2.position.to_vec2f)).map
            Prod.fst).headD 0))
      else if ((c.components.enum.filter fun pr =>
          decide ((drag_box ds dd).contains pr.2.position.to_vec2f)).map
            Prod.fst).isEmpty ∧
        ((c.wire_segments.enum.filter fun pr =>
          decide ((drag_box ds dd).contains pr.2.endpoint_a.to_vec2f) ||
          decide ((drag_box ds dd).contains pr.2.endpoint_b.to_vec2f)).map
            Prod.fst).length = 1 then
        some (Selection.WireSegment (((c.wire_segments.enum.filter fun pr =>
          decide ((drag_box ds dd).contains pr.2.endpoint_a.to_vec2f) ||
          decide ((drag_box ds dd).contains pr.2.endpoint_b.to_vec2f)).map
            Prod.fst).headD 0))
      else if ¬ ((c.components.enum.filter fun pr =>
          decide ((drag_box ds dd).contains pr.2.position.to_vec2f)).map
            Prod.fst).isEmpty ∨
        ¬ ((c.wire_segments.enum.filter fun pr =>
          decide ((drag_box ds dd).contains pr.2.endpoint_a.to_vec2f) ||
          decide ((drag_box ds dd).contains pr.2.endpoint_b.to_vec2f)).map
            Prod.fst).isEmpty then
        (c.find_selection_bounding_box
          ((c.components.enum.filter fun pr =>
            decide ((drag_box ds dd).contains pr.2.position.to_vec2f)).map
              Prod.fst)
          ((c.wire_segments.enum.filter fun pr =>
            decide ((drag_box ds dd).contains pr.2.endpoint_a.to_vec2f) ||
            decide ((drag_box ds dd).contains pr.2.endpoint_b.to_vec2f)).map
              Prod.fst)).map
          fun bb => Selection.Multi
            ((c.components.enum.filter fun pr =>
              decide ((drag_box ds dd).contains pr.2.position.to_vec2f)).map
                Prod.fst)
            ((c.wire_segments.enum.filter fun pr =>
              decide ((drag_box ds dd).contains pr.2.endpoint_a.to_vec2f) ||
              decide ((drag_box ds dd).contains pr.2.endpoint_b.to_vec2f)).map
                Prod.fst)
            bb.center
      else some c.selection) := rfl
  rw [hkey, hSC, hSW, if_neg (by simp), if_neg (by simp), if_neg (by simp)]

/-- A circuit holding one wire from (10,0) to (0,3) through the (source-
computed) midpoint (7,3), with nothing selected. -/
noncomputable def c8_cex_circuit : Circuit where
  name := ""
  offset := ⟨0, 0⟩
  linear_zoom := 0
  zoom := 1
  components := []
  wire_segments := [⟨⟨10, 0⟩, [⟨7, 3⟩], ⟨0, 3⟩, []⟩]
  selection := Selection.None
  drag_state := DragState.DrawingBoxSelection (Vec2f.new 6 (5 / 2)) (Vec2f.new 2 1)
  primary_button_down := true
  secondary_button_down := false
  file_name := none
  sim_state := SimState.None

/-- **C8 counterexample**: the drag box `[6,8] × [5/2,7/2]` contains the
wire's midpoint `(7,3)` but neither endpoint, yet the release leaves the
selection empty: `primary_button_released` only tests wire ENDPOINTS
against the box, contradicting the claim's "endpoint or midpoint". -/
theorem box_selection_release_misses_midpoint :
    c8_cex_circuit.box_selection_release (Vec2f.new 6 (5 / 2)) (Vec2f.new 2 1) =
      some Selection.None ∧
    (c8_cex_circuit.wire_segments.getD 0 default).midpoints = [Vec2i.new 7 3] ∧
    (drag_box (Vec2f.new 6 (5 / 2)) (Vec2f.new 2 1)).contains
      ((Vec2i.new 7 3).to_vec2f) ∧
    ¬ Selection.None.contains_wire_segment 0 := by
  refine ⟨?_, rfl, ?_, fun h => h⟩
  · refine box_selection_release_of_empty c8_cex_circuit
      (Vec2f.new 6 (5 / 2)) (Vec2f.new 2 1) ?_ ?_
    · intro comp hcomp
      exact absurd hcomp (List.not_mem_nil comp)
    · intro w hw
      have hw1 : w = ⟨⟨10, 0⟩, [⟨7, 3⟩], ⟨0, 3⟩, []⟩ := by simpa [c8_cex_circuit] using hw
      subst hw1
      intro hbox
      rcases hbox with h | h <;>
        norm_num [drag_box, Rectangle.contains, Vec2i.to_vec2f, Vec2f.new,
          max_def, min_def] at h
  · norm_num [drag_box, Rectangle.contains, Vec2i.to_vec2f, Vec2i.new,
      Vec2f.new, max_def, min_def]

/-- Witness for the corrected C8 theorem: the counterexample circuit's
points all fit in `i32`, and the theorem applies to it at the concrete
drag from (6, 5/2) by (2, 1). -/
theorem box_selection_release_spec_witness :
    (∀ p ∈ circuit_points c8_cex_circuit, in_i32_range p) ∧
    (∃ sel, c8_cex_circuit.box_selection_release (Vec2f.new 6 (5 / 2))
        (Vec2f.new 2 1) = some sel ∧
      (0 < box_count_c c8_cex_circuit (drag_box (Vec2f.new 6 (5 / 2)) (Vec2f.new 2 1)) +
          box_count_w c8_cex_circuit (drag_box (Vec2f.new 6 (5 / 2)) (Vec2f.new 2 1)) →
        (∀ i, ∀ hi : i < c8_cex_circuit.components.length,
          (sel.contains_component i ↔
            comp_in_box (drag_box (Vec2f.new 6 (5 / 2)) (Vec2f.new 2 1))
              (c8_cex_circuit.components.get ⟨i, hi⟩))) ∧
        (∀ i, ∀ hi : i < c8_cex_circuit.wire_segments.length,
          (sel.contains_wire_segment i ↔
            wire_in_box (drag_box (Vec2f.new 6 (5 / 2)) (Vec2f.new 2 1))
              (c8_cex_circuit.wire_segments.get ⟨i, hi⟩))) ∧
        (∀ i, sel.contains_component i → i < c8_cex_circuit.components.length) ∧
        (∀ i, sel.contains_wire_segment i → i < c8_cex_circuit.wire_segments.length)) ∧
      (box_count_c c8_cex_circuit (drag_box (Vec2f.new 6 (5 / 2)) (Vec2f.new 2 1)) +
          box_count_w c8_cex_circuit (drag_box (Vec2f.new 6 (5 / 2)) (Vec2f.new 2 1)) = 0 →
        sel = c8_cex_circuit.selection) ∧
      (box_count_c c8_cex_circuit (drag_box (Vec2f.new 6 (5 / 2)) (Vec2f.new 2 1)) = 1 ∧
          box_count_w c8_cex_circuit (drag_box (Vec2f.new 6 (5 / 2)) (Vec2f.new 2 1)) = 0 →
        ∃ i, sel = Selection.Component i) ∧
      (box_count_c c8_cex_circuit (drag_box (Vec2f.new 6 (5 / 2)) (Vec2f.new 2 1)) = 0 ∧
          box_count_w c8_cex_circuit (drag_box (Vec2f.new 6 (5 / 2)) (Vec2f.new 2 1)) = 1 →
        ∃ i, sel = Selection.WireSegment i) ∧
      (2 ≤ box_count_c c8_cex_circuit (drag_box (Vec2f.new 6 (5 / 2)) (Vec2f.new 2 1)) +
          box_count_w c8_cex_circuit (drag_box (Vec2f.new 6 (5 / 2)) (Vec2f.new 2 1)) →
        ∃ selC selW bb, sel = Selection.Multi selC selW bb.center ∧
          is_bounding_box bb
            (comp_points c8_cex_circuit.components selC ++
              wire_points c8_cex_circuit.wire_segments selW))) :=
  ⟨by decide, box_selection_release_spec c8_cex_circuit
    (Vec2f.new 6 (5 / 2)) (Vec2f.new 2 1) (by decide)⟩

/-! ### First-match characterization of the component half -/

theorem hit_test_components_spec (p : Vec2f) :
    ∀ (comps : List Component) (k : ℕ),
      (∀ comp ∈ comps, comp.bounding_box ≠ none) →
      ((∀ comp ∈ comps, ¬ anchor_hit p comp ∧ ¬ comp_hit p comp) →
        Circuit.hit_test_components p comps k = some none) ∧
      ((∃ comp ∈ comps, anchor_hit p comp ∨ comp_hit p comp) →
        ∃ i, ∃ hi : i < comps.length,
          (∀ j, ∀ hj : j < comps.length, j < i →
            ¬ anchor_hit p (comps.get ⟨j, hj⟩) ∧
            ¬ comp_hit p (comps.get ⟨j, hj⟩)) ∧
          ((anchor_hit p (comps.get ⟨i, hi⟩) ∧
              Circuit.hit_test_components p comps k =
                some (some (HitTestResult.ComponentAnchor (k + i)))) ∨
           (¬ anchor_hit p (comps.get ⟨i, hi⟩) ∧
              comp_hit p (comps.get ⟨i, hi⟩) ∧
              Circuit.hit_test_components p comps k =
                some (some (HitTestResult.Component (k + i))))))
  | [], k => fun _ =>
      ⟨fun _ => rfl,
       fun ⟨comp, h, _⟩ => absurd h (List.not_mem_nil comp)⟩
  | comp :: rest, k => by
      intro hbb
      have hbbh : comp.bounding_box ≠ none :=
        hbb comp (List.mem_cons_self comp rest)
      have hbbr : ∀ c ∈ rest, c.bounding_box ≠ none :=
        fun c hc => hbb c (List.mem_cons_of_mem comp hc)
      obtain ⟨bbh, hbbh_eq⟩ : ∃ bb, comp.bounding_box = some bb := by
        cases hcb : comp.bounding_box with
        | none => exact absurd hcb hbbh
        | some bb => exact ⟨bb, rfl⟩
      have IH := hit_test_components_spec p rest (k + 1) hbbr
      by_cases hA : anchor_hit p comp
      · have hres : Circuit.hit_test_components p (comp :: rest) k =
            some (some (HitTestResult.ComponentAnchor k)) := by
          conv_lhs => rw [Circuit.hit_test_components]
          rw [if_pos (show ∃ anchor ∈ comp.anchors,
            (p - anchor.position.to_vec2f).len ≤ LOGICAL_PIXEL_SIZE * 2 from hA)]
        constructor
        · intro hnone
          exact absurd hA (hnone comp (List.mem_cons_self comp rest)).1
        · intro _
          refine ⟨0, Nat.succ_pos rest.length,
            fun j hj hji => absurd hji (Nat.not_lt_zero j), Or.inl ⟨hA, ?_⟩⟩
          rw [Nat.add_zero]
          exact hres
      · by_cases hB : bbh.contains p
        · have hch : comp_hit p comp := ⟨bbh, hbbh_eq, hB⟩
          have hres : Circuit.hit_test_components p (comp :: rest) k =
              some (some (HitTestResult.Component k)) := by
            conv_lhs => rw [Circuit.hit_test_components]
            rw [if_neg (show ¬ ∃ anchor ∈ comp.anchors,
              (p - anchor.position.to_vec2f).len ≤ LOGICAL_PIXEL_SIZE * 2 from hA),
              hbbh_eq]
            show (if bbh.contains p then some (some (HitTestResult.Component k))
              else Circuit.hit_test_components p rest (k + 1)) = _
            rw [if_pos hB]
          constructor
          · intro hnone
            exact absurd hch (hnone comp (List.mem_cons_self comp rest)).2
          · intro _
            refine ⟨0, Nat.succ_pos rest.length,
              fun j hj hji => absurd hji (Nat.not_lt_zero j),
              Or.inr ⟨hA, hch, ?_⟩⟩
            rw [Nat.add_zero]
            exact hres
        · have hnc : ¬ comp_hit p comp := by
            rintro ⟨bb, hbbeq, hcont⟩
            have hbbeq2 : bbh = bb :=
              Option.some.inj (hbbh_eq.symm.trans hbbeq)
            subst hbbeq2
            exact hB hcont
          have hres : Circuit.hit_test_components p (comp :: rest) k =
              Circuit.hit_test_components p rest (k + 1) := by
            conv_lhs => rw [Circuit.hit_test_components]
            rw [if_neg (show ¬ ∃ anchor ∈ comp.anchors,
              (p - anchor.position.to_vec2f).len ≤ LOGICAL_PIXEL_SIZE * 2 from hA),
              hbbh_eq]
            show (if bbh.contains p then some (some (HitTestResult.Component k))
              else Circuit.hit_test_components p rest (k + 1)) = _
            rw [if_neg hB]
          constructor
          · intro hnone
            rw [hres]
            exact IH.1 (fun c hc => hnone c (List.mem_cons_of_mem comp hc))
          · intro hex
            have hex2 : ∃ c ∈ rest, anchor_hit p c ∨ comp_hit p c := by
              obtain ⟨c0, hc0, hhit⟩ := hex
              rcases List.mem_cons.mp hc0 with hc0h | hc0r
              · subst hc0h
                rcases hhit with h | h
                · exact absurd h hA
                · exact absurd h hnc
              · exact ⟨c0, hc0r, hhit⟩
            obtain ⟨i, hi, hearly, hcase⟩ := IH.2 hex2
            refine ⟨i + 1, Nat.succ_lt_succ hi, ?_, ?_⟩
            · intro j hj hji
              cases j with
              | zero => exact ⟨hA, hnc⟩
              | succ j =>
                  exact hearly j (Nat.lt_of_succ_lt_succ hj)
                    (Nat.lt_of_succ_lt_succ hji)
            · rcases hcase with ⟨h1, h2⟩ | ⟨h1, h2, h3⟩
              · refine Or.inl ⟨h1, ?_⟩
                rw [hres, show k + (i + 1) = k + 1 + i from by omega]
                exact h2
              · refine Or.inr ⟨h1, h2, ?_⟩
                rw [hres, show k + (i + 1) = k + 1 + i from by omega]
                exact h3

/-! ### First-match characterization of the wire half -/

theorem hit_test_wires_spec (p : Vec2f) (exclude : Option ℕ) :
    ∀ (ws : List WireSegment) (k : ℕ),
      ((∀ i, ∀ hi : i < ws.length, some (k + i) ≠ exclude →
          ¬ wpa_hit p (ws.get ⟨i, hi⟩) ∧ ¬ wpb_hit p (ws.get ⟨i, hi⟩) ∧
          (ws.get ⟨i, hi⟩).contains p = none) →
        Circuit.hit_test_wires p exclude ws k = HitTestResult.None) ∧
      ((∃ i, ∃ hi : i < ws.length, some (k + i) ≠ exclude ∧
          (wpa_hit p (ws.get ⟨i, hi⟩) ∨ wpb_hit p (ws.get ⟨i, hi⟩) ∨
            (ws.get ⟨i, hi⟩).contains p ≠ none)) →
        ∃ i, ∃ hi : i < ws.length, some (k + i) ≠ exclude ∧
          (∀ j, ∀ hj : j < ws.length, j < i → some (k + j) ≠ exclude →
            ¬ wpa_hit p (ws.get ⟨j, hj⟩) ∧ ¬ wpb_hit p (ws.get ⟨j, hj⟩) ∧
            (ws.get ⟨j, hj⟩).contains p = none) ∧
          ((wpa_hit p (ws.get ⟨i, hi⟩) ∧
              Circuit.hit_test_wires p exclude ws k =
                HitTestResult.WirePointA (k + i)) ∨
           (¬ wpa_hit p (ws.get ⟨i, hi⟩) ∧ wpb_hit p (ws.get ⟨i, hi⟩) ∧
              Circuit.hit_test_wires p exclude ws k =
                HitTestResult.WirePointB (k + i)) ∨
           (¬ wpa_hit p (ws.get ⟨i, hi⟩) ∧ ¬ wpb_hit p (ws.get ⟨i, hi⟩) ∧
              ∃ s, (ws.get ⟨i, hi⟩).contains p = some s ∧
                Circuit.hit_test_wires p exclude ws k =
                  HitTestResult.WireSegment (k + i) s)))
  | [], k =>
      ⟨fun _ => rfl,
       fun ⟨_, hi, _⟩ => absurd hi (Nat.not_lt_zero _)⟩
  | w :: rest, k => by
      have IH := hit_test_wires_spec p exclude rest (k + 1)
      have hshift : ∀ i : ℕ, k + 1 + i = k + (i + 1) := fun i => by omega
      by_cases hskip : some k = exclude
      · have hres : Circuit.hit_test_wires p exclude (w :: rest) k =
            Circuit.hit_test_wires p exclude rest (k + 1) := by
          conv_lhs => rw [Circuit.hit_test_wires]
          rw [if_pos hskip]
        constructor
        · intro hnone
          rw [hres]
          refine IH.1 ?_
          intro i hi hne
          have := hnone (i + 1) (Nat.succ_lt_succ hi)
            (by rw [← hshift i]; exact hne)
          exact this
        · intro hex
          have hex2 : ∃ i, ∃ hi : i < rest.length, some (k + 1 + i) ≠ exclude ∧
              (wpa_hit p (rest.get ⟨i, hi⟩) ∨ wpb_hit p (rest.get ⟨i, hi⟩) ∨
                (rest.get ⟨i, hi⟩).contains p ≠ none) := by
            obtain ⟨i, hi, hne, hhit⟩ := hex
            cases i with
            | zero =>
                rw [Nat.add_zero] at hne
                exact absurd hskip hne
            | succ i =>
                exact ⟨i, Nat.lt_of_succ_lt_succ hi,
                  by rw [hshift i]; exact hne, hhit⟩
          obtain ⟨i, hi, hne, hearly, hcase⟩ := IH.2 hex2
          refine ⟨i + 1, Nat.succ_lt_succ hi, by rw [← hshift i]; exact hne,
            ?_, ?_⟩
          · intro j hj hji hjne
            cases j with
            | zero =>
                rw [Nat.add_zero] at hjne
                exact absurd hskip hjne
            | succ j =>
                exact hearly j (Nat.lt_of_succ_lt_succ hj)
                  (Nat.lt_of_succ_lt_succ hji)
                  (by rw [hshift j]; exact hjne)
          · rcases hcase with ⟨h1, h2⟩ | ⟨h1, h2, h3⟩ | ⟨h1, h2, s, h3, h4⟩
            · refine Or.inl ⟨h1, ?_⟩
              rw [hres, ← hshift i]
              exact h2
            · refine Or.inr (Or.inl ⟨h1, h2, ?_⟩)
              rw [hres, ← hshift i]
              exact h3
            · refine Or.inr (Or.inr ⟨h1, h2, s, h3, ?_⟩)
              rw [hres, ← hshift i]
              exact h4
      · by_cases hwa : wpa_hit p w
        · have hres : Circuit.hit_test_wires p exclude (w :: rest) k =
              HitTestResult.WirePointA k := by
            conv_lhs => rw [Circuit.hit_test_wires]
            rw [if_neg hskip,
              if_pos (show (p - w.endpoint_a.to_vec2f).len ≤
                LOGICAL_PIXEL_SIZE * 2 from hwa)]
          constructor
          · intro hnone
            exact absurd hwa (hnone 0 (Nat.succ_pos rest.length)
              (by rw [Nat.add_zero]; exact hskip)).1
          · intro _
            refine ⟨0, Nat.succ_pos rest.length,
              (by rw [Nat.add_zero]; exact hskip),
              fun j hj hji _ => absurd hji (Nat.not_lt_zero j),
              Or.inl ⟨hwa, ?_⟩⟩
            rw [Nat.add_zero]
            exact hres
        · by_cases hwb : wpb_hit p w
          · have hres : Circuit.hit_test_wires p exclude (w :: rest) k =
                HitTestResult.WirePointB k := by
              conv_lhs => rw [Circuit.hit_test_wires]
              rw [if_neg hskip,
                if_neg (show ¬ (p - w.endpoint_a.to_vec2f).len ≤
                  LOGICAL_PIXEL_SIZE * 2 from hwa),
                if_pos (show (p - w.endpoint_b.to_vec2f).len ≤
                  LOGICAL_PIXEL_SIZE * 2 from hwb)]
            constructor
            · intro hnone
              exact absurd hwb (hnone 0 (Nat.succ_pos rest.length)
                (by rw [Nat.add_zero]; exact hskip)).2.1
            · intro _
              refine ⟨0, Nat.succ_pos rest.length,
                (by rw [Nat.add_zero]; exact hskip),
                fun j hj hji _ => absurd hji (Nat.not_lt_zero j),
                Or.inr (Or.inl ⟨hwa, hwb, ?_⟩)⟩
              rw [Nat.add_zero]
              exact hres
          · cases hcont : w.contains p with
            | some s =>
                have hres : Circuit.hit_test_wires p exclude (w :: rest) k =
                    HitTestResult.WireSegment k s := by
                  conv_lhs => rw [Circuit.hit_test_wires]
                  rw [if_neg hskip,
                    if_neg (show ¬ (p - w.endpoint_a.to_vec2f).len ≤
                      LOGICAL_PIXEL_SIZE * 2 from hwa),
                    if_neg (show ¬ (p - w.endpoint_b.to_vec2f).len ≤
                      LOGICAL_PIXEL_SIZE * 2 from hwb)]
                  simp only [hcont]
                constructor
                · intro hnone
                  have hzero := (hnone 0 (Nat.succ_pos rest.length)
                    (by rw [Nat.add_zero]; exact hskip)).2.2
                  exact Option.noConfusion (hcont.symm.trans hzero)
                · intro _
                  refine ⟨0, Nat.succ_pos rest.length,
                    (by rw [Nat.add_zero]; exact hskip),
                    fun j hj hji _ => absurd hji (Nat.not_lt_zero j),
                    Or.inr (Or.inr ⟨hwa, hwb, s, hcont, ?_⟩)⟩
                  rw [Nat.add_zero]
                  exact hres
            | none =>
                have hres : Circuit.hit_test_wires p exclude (w :: rest) k =
                    Circuit.hit_test_wires p exclude rest (k + 1) := by
                  conv_lhs => rw [Circuit.hit_test_wires]
                  rw [if_neg hskip,
                    if_neg (show ¬ (p - w.endpoint_a.to_vec2f).len ≤
                      LOGICAL_PIXEL_SIZE * 2 from hwa),
                    if_neg (show ¬ (p - w.endpoint_b.to_vec2f).len ≤
                      LOGICAL_PIXEL_SIZE * 2 from hwb)]
                  simp only [hcont]
                constructor
                · intro hnone
                  rw [hres]
                  refine IH.1 ?_
                  intro i hi hne
                  exact hnone (i + 1) (Nat.succ_lt_succ hi)
                    (by rw [← hshift i]; exact hne)
                · intro hex
                  have hex2 : ∃ i, ∃ hi : i < rest.length,
                      some (k + 1 + i) ≠ exclude ∧
                      (wpa_hit p (rest.get ⟨i, hi⟩) ∨
                        wpb_hit p (rest.get ⟨i, hi⟩) ∨
                        (rest.get ⟨i, hi⟩).contains p ≠ none) := by
                    obtain ⟨i, hi, hne, hhit⟩ := hex
                    cases i with
                    | zero =>
                        rcases hhit with h | h | h
                        · exact absurd h hwa
                        · exact absurd h hwb
                        · exact absurd hcont h
                    | succ i =>
                        exact ⟨i, Nat.lt_of_succ_lt_succ hi,
                          by rw [hshift i]; exact hne, hhit⟩
                  obtain ⟨i, hi, hne, hearly, hcase⟩ := IH.2 hex2
                  refine ⟨i + 1, Nat.succ_lt_succ hi,
                    by rw [← hshift i]; exact hne, ?_, ?_⟩
                  · intro j hj hji hjne
                    cases j with
                    | zero => exact ⟨hwa, hwb, hcont⟩
                    | succ j =>
                        exact hearly j (Nat.lt_of_succ_lt_succ hj)
                          (Nat.lt_of_succ_lt_succ hji)
                          (by rw [hshift j]; exact hjne)
                  · rcases hcase with ⟨h1, h2⟩ | ⟨h1, h2, h3⟩ | ⟨h1, h2, s, h3, h4⟩
                    · refine Or.inl ⟨h1, ?_⟩
                      rw [hres, ← hshift i]
                      exact h2
                    · refine Or.inr (Or.inl ⟨h1, h2, ?_⟩)
                      rw [hres, ← hshift i]
                      exact h3
                    · refine Or.inr (Or.inr ⟨h1, h2, s, h3, ?_⟩)
                      rw [hres, ← hshift i]
                      exact h4

/-! ### C1: the hit-test priority -/

/-- **C1** (corrected): hit-testing walks the COMPONENTS in order and, for
each one, tests its anchors against the snap radius and then its bounding
box — the per-component pair is interleaved, not globally
anchors-before-boxes.  Only when no component is hit are the wires walked
in order, each testing endpoint A, then endpoint B, then the body.  A
point inside an earlier component's bounding box and within the snap
radius of a later component's anchor resolves to `Component`, not
`ComponentAnchor` (see the counterexample). -/
theorem hit_test_spec (c : Circuit) (p : Vec2f) (exclude : Option ℕ)
    (hbb : ∀ comp ∈ c.components, comp.bounding_box ≠ none) :
    ∃ r, c.hit_test p exclude = some r ∧
      ((∃ comp ∈ c.components, anchor_hit p comp ∨ comp_hit p comp) →
        ∃ i, ∃ hi : i < c.components.length,
          (∀ j, ∀ hj : j < c.components.length, j < i →
            ¬ anchor_hit p (c.components.get ⟨j, hj⟩) ∧
            ¬ comp_hit p (c.components.get ⟨j, hj⟩)) ∧
          ((anchor_hit p (c.components.get ⟨i, hi⟩) ∧
              r = HitTestResult.ComponentAnchor i) ∨
           (¬ anchor_hit p (c.components.get ⟨i, hi⟩) ∧
              comp_hit p (c.components.get ⟨i, hi⟩) ∧
              r = HitTestResult.Component i))) ∧
      ((∀ comp ∈ c.components, ¬ anchor_hit p comp ∧ ¬ comp_hit p comp) →
        ((∀ i, ∀ hi : i < c.wire_segments.length, some i ≠ exclude →
            ¬ wpa_hit p (c.wire_segments.get ⟨i, hi⟩) ∧
            ¬ wpb_hit p (c.wire_segments.get ⟨i, hi⟩) ∧
            (c.wire_segments.get ⟨i, hi⟩).contains p = none) →
          r = HitTestResult.None) ∧
        ((∃ i, ∃ hi : i < c.wire_segments.length, some i ≠ exclude ∧
            (wpa_hit p (c.wire_segments.get ⟨i, hi⟩) ∨
             wpb_hit p (c.wire_segments.get ⟨i, hi⟩) ∨
             (c.wire_segments.get ⟨i, hi⟩).contains p ≠ none)) →
          ∃ i, ∃ hi : i < c.wire_segments.length, some i ≠ exclude ∧
            (∀ j, ∀ hj : j < c.wire_segments.length, j < i → some j ≠ exclude →
              ¬ wpa_hit p (c.wire_segments.get ⟨j, hj⟩) ∧
              ¬ wpb_hit p (c.wire_segments.get ⟨j, hj⟩) ∧
              (c.wire_segments.get ⟨j, hj⟩).contains p = none) ∧
            ((wpa_hit p (c.wire_segments.get ⟨i, hi⟩) ∧
                r = HitTestResult.WirePointA i) ∨
             (¬ wpa_hit p (c.wire_segments.get ⟨i, hi⟩) ∧
                wpb_hit p (c.wire_segments.get ⟨i, hi⟩) ∧
                r = HitTestResult.WirePointB i) ∨
             (¬ wpa_hit p (c.wire_segments.get ⟨i, hi⟩) ∧
                ¬ wpb_hit p (c.wire_segments.get ⟨i, hi⟩) ∧
                ∃ s, (c.wire_segments.get ⟨i, hi⟩).contains p = some s ∧
                  r = HitTestResult.WireSegment i s)))) := by
  by_cases hex : ∃ comp ∈ c.components, anchor_hit p comp ∨ comp_hit p comp
  · obtain ⟨i, hi, hearly, hcase⟩ :=
      (hit_test_components_spec p c.components 0 hbb).2 hex
    have habs : ∀ hnone : ∀ comp ∈ c.components,
        ¬ anchor_hit p comp ∧ ¬ comp_hit p comp, False := by
      intro hnone
      obtain ⟨c0, hc0, hh⟩ := hex
      rcases hh with h | h
      · exact absurd h (hnone c0 hc0).1
      · exact absurd h (hnone c0 hc0).2
    rcases hcase with ⟨h1, h2⟩ | ⟨h1, h2, h3⟩
    · rw [Nat.zero_add] at h2
      refine ⟨HitTestResult.ComponentAnchor i, ?_, ?_, ?_⟩
      · unfold Circuit.hit_test
        rw [h2]
      · intro _
        exact ⟨i, hi, hearly, Or.inl ⟨h1, rfl⟩⟩
      · intro hnone
        exact absurd hnone (fun h => habs h)
    · rw [Nat.zero_add] at h3
      refine ⟨HitTestResult.Component i, ?_, ?_, ?_⟩
      · unfold Circuit.hit_test
        rw [h3]
      · intro _
        exact ⟨i, hi, hearly, Or.inr ⟨h1, h2, rfl⟩⟩
      · intro hnone
        exact absurd hnone (fun h => habs h)
  · have hnone : ∀ comp ∈ c.components,
        ¬ anchor_hit p comp ∧ ¬ comp_hit p comp := by
      intro comp hc
      exact ⟨fun h => hex ⟨comp, hc, Or.inl h⟩,
             fun h => hex ⟨comp, hc, Or.inr h⟩⟩
    have h2 := (hit_test_components_spec p c.components 0 hbb).1 hnone
    have W := hit_test_wires_spec p exclude c.wire_segments 0
    refine ⟨Circuit.hit_test_wires p exclude c.wire_segments 0, ?_, ?_, ?_⟩
    · unfold Circuit.hit_test
      rw [h2]
    · intro hex2
      exact absurd hex2 hex
    · intro _
      constructor
      · intro hno
        refine W.1 ?_
        intro i hi hne
        rw [Nat.zero_add] at hne
        exact hno i hi hne
      · intro hex3
        have hex4 : ∃ i, ∃ hi : i < c.wire_segments.length,
            some (0 + i) ≠ exclude ∧
            (wpa_hit p (c.wire_segments.get ⟨i, hi⟩) ∨
             wpb_hit p (c.wire_segments.get ⟨i, hi⟩) ∨
             (c.wire_segments.get ⟨i, hi⟩).contains p ≠ none) := by
          obtain ⟨i, hi, hne, hh⟩ := hex3
          exact ⟨i, hi, by rw [Nat.zero_add]; exact hne, hh⟩
        obtain ⟨i, hi, hne, hearly, hcase⟩ := W.2 hex4
        rw [Nat.zero_add] at hne
        refine ⟨i, hi, hne, ?_, ?_⟩
        · intro j hj hji hjne
          exact hearly j hj hji (by rw [Nat.zero_add]; exact hjne)
        · rcases hcase with ⟨h1, h2'⟩ | ⟨h1, h2', h3⟩ | ⟨h1, h2', s, h3, h4⟩
          · rw [Nat.zero_add] at h2'
            exact Or.inl ⟨h1, h2'⟩
          · rw [Nat.zero_add] at h3
            exact Or.inr (Or.inl ⟨h1, h2', h3⟩)
          · rw [Nat.zero_add] at h4
            exact Or.inr (Or.inr ⟨h1, h2', s, h3, h4⟩)

/-- **C1 counterexample**: the probe point (1,0) sits exactly on component
1's anchor (distance 0, within the snap radius) and inside component 0's
bounding box; `hit_test` nevertheless returns `Component 0`, because each
component's bounding box is tested before the NEXT component's anchors —
the claim's global anchors-before-boxes priority does not hold. -/
theorem hit_test_prefers_earlier_component :
    c1_cex_circuit.hit_test (Vec2f.new 1 0) none =
      some (HitTestResult.Component 0) ∧
    (∃ anchor ∈ c1_comp1.anchors,
      (Vec2f.new 1 0 - anchor.position.to_vec2f).len ≤ LOGICAL_PIXEL_SIZE * 2) ∧
    (∃ bb, c1_comp0.bounding_box = some bb ∧ bb.contains (Vec2f.new 1 0)) ∧
    some (HitTestResult.Component 0) ≠ some (HitTestResult.ComponentAnchor 1) := by
  have hanch0 : c1_comp0.anchors = [⟨⟨0, 1⟩, AnchorKind.Output, 1⟩] := rfl
  have hanch1 : c1_comp1.anchors = [⟨⟨1, 0⟩, AnchorKind.Output, 1⟩] := rfl
  have hsnap : LOGICAL_PIXEL_SIZE * 2 = 1 / 5 := by
    norm_num [LOGICAL_PIXEL_SIZE, BASE_ZOOM]
  have hno_anchor0 : ¬ ∃ anchor ∈ c1_comp0.anchors,
      (Vec2f.new 1 0 - anchor.position.to_vec2f).len ≤ LOGICAL_PIXEL_SIZE * 2 := by
    rw [hanch0, hsnap]
    rintro ⟨anchor, hmem, hlen⟩
    have hmem2 : anchor = ⟨⟨0, 1⟩, AnchorKind.Output, 1⟩ := by
      simpa using hmem
    subst hmem2
    have hlen2 : Real.sqrt 2 ≤ 1 / 5 := by
      have hval : (Vec2f.new 1 0 - (Vec2i.new 0 1).to_vec2f).len = Real.sqrt 2 := by
        simp [Vec2f.len, Vec2f.dot, Vec2f.new, Vec2i.to_vec2f, Vec2i.new]
        norm_num
      exact hval.symm.trans_le hlen
    have : (1 / 5 : ℝ) < Real.sqrt 2 := by
      rw [show (1 / 5 : ℝ) = Real.sqrt ((1 / 5) ^ 2) from
        (Real.sqrt_sq (by norm_num)).symm]
      exact Real.sqrt_lt_sqrt (by positivity) (by norm_num)
    linarith
  have hbb0 : c1_comp0.bounding_box = some ⟨1, -1, -1, 1⟩ := by
    show some _ = some _
    norm_num [Component.bounding_box, ComponentKind.bounding_box, c1_comp0]
  have hcontains : Rectangle.contains ⟨1, -1, -1, 1⟩ (Vec2f.new 1 0) := by
    norm_num [Rectangle.contains, Vec2f.new]
  refine ⟨?_, ?_, ⟨_, hbb0, hcontains⟩, by simp⟩
  · show (match Circuit.hit_test_components (Vec2f.new 1 0)
        c1_cex_circuit.components 0 with
      | none => none
      | some (some r) => some r
      | some none => some (Circuit.hit_test_wires (Vec2f.new 1 0) none
          c1_cex_circuit.wire_segments 0)) = some (HitTestResult.Component 0)
    have hstep : Circuit.hit_test_components (Vec2f.new 1 0)
        c1_cex_circuit.components 0 =
        some (some (HitTestResult.Component 0)) := by
      show Circuit.hit_test_components (Vec2f.new 1 0) [c1_comp0, c1_comp1] 0 = _
      conv_lhs => rw [Circuit.hit_test_components]
      rw [if_neg hno_anchor0, hbb0]
      show (if Rectangle.contains ⟨1, -1, -1, 1⟩ (Vec2f.new 1 0) then
        some (some (HitTestResult.Component 0))
        else Circuit.hit_test_components (Vec2f.new 1 0) [c1_comp1] 1) = _
      rw [if_pos hcontains]
    rw [hstep]
  · refine ⟨⟨⟨1, 0⟩, AnchorKind.Output, 1⟩, by rw [hanch1]; simp, ?_⟩
    have hval : (Vec2f.new 1 0 - (Vec2i.mk 1 0).to_vec2f).len = 0 := by
      simp [Vec2f.len, Vec2f.dot, Vec2i.to_vec2f, Vec2f.new]
    rw [hval, hsnap]
    norm_num

/-- Witness for the corrected C1 theorem at the counterexample circuit:
both components have bounding boxes, so `hit_test` succeeds and obeys the
per-component first-match characterization. -/
theorem hit_test_spec_witness :
    (∀ comp ∈ c1_cex_circuit.components, comp.bounding_box ≠ none) ∧
    (∃ r, c1_cex_circuit.hit_test (Vec2f.new 1 0) none = some r ∧
      ((∃ comp ∈ c1_cex_circuit.components,
          anchor_hit (Vec2f.new 1 0) comp ∨ comp_hit (Vec2f.new 1 0) comp) →
        ∃ i, ∃ hi : i < c1_cex_circuit.components.length,
          (∀ j, ∀ hj : j < c1_cex_circuit.components.length, j < i →
            ¬ anchor_hit (Vec2f.new 1 0) (c1_cex_circuit.components.get ⟨j, hj⟩) ∧
            ¬ comp_hit (Vec2f.new 1 0) (c1_cex_circuit.components.get ⟨j, hj⟩)) ∧
          ((anchor_hit (Vec2f.new 1 0) (c1_cex_circuit.components.get ⟨i, hi⟩) ∧
              r = HitTestResult.ComponentAnchor i) ∨
           (¬ anchor_hit (Vec2f.new 1 0) (c1_cex_circuit.components.get ⟨i, hi⟩) ∧
              comp_hit (Vec2f.new 1 0) (c1_cex_circuit.components.get ⟨i, hi⟩) ∧
              r = HitTestResult.Component i))) ∧
      ((∀ comp ∈ c1_cex_circuit.components,
          ¬ anchor_hit (Vec2f.new 1 0) comp ∧ ¬ comp_hit (Vec2f.new 1 0) comp) →
        ((∀ i, ∀ hi : i < c1_cex_circuit.wire_segments.length, some i ≠ none →
            ¬ wpa_hit (Vec2f.new 1 0) (c1_cex_circuit.wire_segments.get ⟨i, hi⟩) ∧
            ¬ wpb_hit (Vec2f.new 1 0) (c1_cex_circuit.wire_segments.get ⟨i, hi⟩) ∧
            (c1_cex_circuit.wire_segments.get ⟨i, hi⟩).contains (Vec2f.new 1 0) =
              none) →
          r = HitTestResult.None) ∧
        ((∃ i, ∃ hi : i < c1_cex_circuit.wire_segments.length, some i ≠ none ∧
            (wpa_hit (Vec2f.new 1 0) (c1_cex_circuit.wire_segments.get ⟨i, hi⟩) ∨
             wpb_hit (Vec2f.new 1 0) (c1_cex_circuit.wire_segments.get ⟨i, hi⟩) ∨
             (c1_cex_circuit.wire_segments.get ⟨i, hi⟩).contains (Vec2f.new 1 0) ≠
               none)) →
          ∃ i, ∃ hi : i < c1_cex_circuit.wire_segments.length, some i ≠ none ∧
            (∀ j, ∀ hj : j < c1_cex_circuit.wire_segments.length, j < i →
              some j ≠ none →
              ¬ wpa_hit (Vec2f.new 1 0) (c1_cex_circuit.wire_segments.get ⟨j, hj⟩) ∧
              ¬ wpb_hit (Vec2f.new 1 0) (c1_cex_circuit.wire_segments.get ⟨j, hj⟩) ∧
              (c1_cex_circuit.wire_segments.get ⟨j, hj⟩).contains (Vec2f.new 1 0) =
                none) ∧
            ((wpa_hit (Vec2f.new 1 0) (c1_cex_circuit.wire_segments.get ⟨i, hi⟩) ∧
                r = HitTestResult.WirePointA i) ∨
             (¬ wpa_hit (Vec2f.new 1 0) (c1_cex_circuit.wire_segments.get ⟨i, hi⟩) ∧
                wpb_hit (Vec2f.new 1 0) (c1_cex_circuit.wire_segments.get ⟨i, hi⟩) ∧
                r = HitTestResult.WirePointB i) ∨
             (¬ wpa_hit (Vec2f.new 1 0) (c1_cex_circuit.wire_segments.get ⟨i, hi⟩) ∧
                ¬ wpb_hit (Vec2f.new 1 0)
                    (c1_cex_circuit.wire_segments.get ⟨i, hi⟩) ∧
                ∃ s, (c1_cex_circuit.wire_segments.get ⟨i, hi⟩).contains
                    (Vec2f.new 1 0) = some s ∧
                  r = HitTestResult.WireSegment i s))))) := by
  have hbb : ∀ comp ∈ c1_cex_circuit.components, comp.bounding_box ≠ none := by
    intro comp hc
    have hc2 : comp = c1_comp0 ∨ comp = c1_comp1 := by simpa [c1_cex_circuit] using hc
    rcases hc2 with h | h <;> subst h <;>
      simp [Component.bounding_box, ComponentKind.bounding_box, c1_comp0, c1_comp1]
  exact ⟨hbb, hit_test_spec c1_cex_circuit (Vec2f.new 1 0) none hbb⟩

/-! ### Segment and polyline algebra -/

theorem segment_union_of_mem {a b c : ℝ × ℝ} (hb : b ∈ segment ℝ a c) :
    segment ℝ a b ∪ segment ℝ b c = segment ℝ a c := by
  apply Set.Subset.antisymm
  · apply Set.union_subset
    · exact (convex_segment a c).segment_subset (left_mem_segment ℝ a c) hb
    · exact (convex_segment a c).segment_subset hb (right_mem_segment ℝ a c)
  · intro z hz
    obtain ⟨ta, tb, hta, htb, htab, hzeq⟩ := hz
    obtain ⟨sa, sb, hsa, hsb, hsab, hbeq⟩ := hb
    have hta' : ta = 1 - tb := by linarith
    have hsa' : sa = 1 - sb := by linarith
    subst hta' hsa'
    by_cases hts : tb ≤ sb
    · left
      by_cases hsb0 : sb = 0
      · have htb0 : tb = 0 := le_antisymm (hsb0 ▸ hts) htb
        subst htb0
        have hza : z = a := by
          rw [← hzeq]
          simp
        rw [hza]
        exact left_mem_segment ℝ a b
      · refine ⟨1 - tb / sb, tb / sb, ?_, ?_, by ring, ?_⟩
        · have h1 : tb / sb ≤ 1 := by
            rw [div_le_one (lt_of_le_of_ne hsb (Ne.symm hsb0))]
            exact hts
          linarith
        · positivity
        · rw [← hbeq, ← hzeq]
          rw [smul_add, smul_smul, smul_smul, ← add_assoc, ← add_smul]
          rw [show (1 - tb / sb) + tb / sb * (1 - sb) = 1 - tb by
            field_simp; ring]
          rw [show tb / sb * sb = tb from div_mul_cancel₀ tb hsb0]
    · right
      have hsb1 : sb < 1 := by
        have htb1 : tb ≤ 1 := by linarith
        linarith [not_le.mp hts]
      have hsbne : (1 : ℝ) - sb ≠ 0 := by linarith
      refine ⟨1 - (tb - sb) / (1 - sb), (tb - sb) / (1 - sb), ?_, ?_, by ring, ?_⟩
      · have h1 : (tb - sb) / (1 - sb) ≤ 1 := by
          rw [div_le_one (by linarith)]
          linarith
        linarith
      · have h0 : (0 : ℝ) ≤ tb - sb := by linarith [not_le.mp hts]
        positivity
      · rw [← hbeq, ← hzeq]
        rw [smul_add, smul_smul, smul_smul, add_assoc, ← add_smul]
        have e1 : (1 - (tb - sb) / (1 - sb)) * (1 - sb) = 1 - tb := by
          field_simp
        have e2 : (1 - (tb - sb) / (1 - sb)) * sb + (tb - sb) / (1 - sb) = tb := by
          field_simp
          ring
        rw [e1, e2]

theorem polyline_glue : ∀ (xs : List Vec2i) (m : Vec2i) (ys : List Vec2i),
    polyline (xs ++ [m]) ∪ polyline (m :: ys) = polyline (xs ++ m :: ys)
  | [], m, ys => by
      show polyline [m] ∪ polyline (m :: ys) = polyline (m :: ys)
      rw [show polyline [m] = ∅ from rfl, Set.empty_union]
  | [x], m, ys => by
      show polyline [x, m] ∪ polyline (m :: ys) = polyline (x :: m :: ys)
      rw [show polyline [x, m] = seg2 x m ∪ ∅ from rfl, Set.union_empty]
      rfl
  | x :: x' :: xs, m, ys => by
      show (seg2 x x' ∪ polyline ((x' :: xs) ++ [m])) ∪ polyline (m :: ys) =
        seg2 x x' ∪ polyline ((x' :: xs) ++ m :: ys)
      rw [Set.union_assoc, polyline_glue (x' :: xs) m ys]

theorem polyline_snoc2 : ∀ (xs : List Vec2i) (x m : Vec2i),
    polyline (xs ++ [x, m]) = polyline (xs ++ [x]) ∪ seg2 x m
  | [], x, m => by
      show polyline [x, m] = polyline [x] ∪ seg2 x m
      rw [show polyline [x, m] = seg2 x m ∪ ∅ from rfl,
        show polyline [x] = ∅ from rfl, Set.union_empty, Set.empty_union]
  | [z], x, m => by
      show polyline [z, x, m] = polyline [z, x] ∪ seg2 x m
      rw [show polyline [z, x, m] = seg2 z x ∪ (seg2 x m ∪ ∅) from rfl,
        show polyline [z, x] = seg2 z x ∪ ∅ from rfl, Set.union_empty,
        Set.union_empty]
  | z :: w :: xs, x, m => by
      show seg2 z w ∪ polyline ((w :: xs) ++ [x, m]) =
        (seg2 z w ∪ polyline ((w :: xs) ++ [x])) ∪ seg2 x m
      rw [polyline_snoc2 (w :: xs) x m, Set.union_assoc]

theorem polyline_insert (xs : List Vec2i) (x m y : Vec2i) (ys : List Vec2i)
    (hm : p2r m ∈ seg2 x y) :
    polyline ((xs ++ [x]) ++ m :: y :: ys) = polyline ((xs ++ [x]) ++ y :: ys) := by
  rw [← polyline_glue (xs ++ [x]) m (y :: ys),
    ← polyline_glue (xs ++ [x]) y ys,
    List.append_assoc xs [x] [m], List.append_assoc xs [x] [y]]
  rw [show [x] ++ [m] = [x, m] from rfl, show [x] ++ [y] = [x, y] from rfl]
  rw [polyline_snoc2 xs x m, polyline_snoc2 xs x y]
  rw [show polyline (m :: y :: ys) = seg2 m y ∪ polyline (y :: ys) from rfl]
  rw [Set.union_assoc, Set.union_assoc,
    ← Set.union_assoc (seg2 x m) (seg2 m y) (polyline (y :: ys))]
  rw [show seg2 x m ∪ seg2 m y = seg2 x y from segment_union_of_mem hm]

/-! ### The split point's neighbours in the original point sequence -/

theorem take_getLast_eq_getD :
    ∀ (a : Vec2i) (mids : List Vec2i) (b : Vec2i) (index : ℕ),
    index ≤ mids.length →
    (a :: mids.take index).getLast (List.cons_ne_nil a (mids.take index)) =
      (a :: (mids ++ [b])).getD index Vec2i.ZERO
  | a, mids, b, 0, _ => by
      rw [List.take_zero]
      rfl
  | a, [], b, index + 1, h => absurd h (by simp)
  | a, m :: rest, b, index + 1, h => by
      rw [List.take_succ_cons,
        List.getLast_cons (List.cons_ne_nil m (rest.take index))]
      show (m :: rest.take index).getLast _ =
        (m :: (rest ++ [b])).getD index Vec2i.ZERO
      exact take_getLast_eq_getD m rest b index (Nat.le_of_succ_le_succ h)

theorem drop_headD_eq_getD :
    ∀ (a : Vec2i) (mids : List Vec2i) (b : Vec2i) (index : ℕ),
    index ≤ mids.length →
    (mids.drop index ++ [b]).headD Vec2i.ZERO =
      (a :: (mids ++ [b])).getD (index + 1) Vec2i.ZERO
  | a, mids, b, 0, _ => by
      rw [List.drop_zero]
      show (mids ++ [b]).headD Vec2i.ZERO = (mids ++ [b]).getD 0 Vec2i.ZERO
      cases mids <;> rfl
  | a, [], b, index + 1, h => absurd h (by simp)
  | a, m :: rest, b, index + 1, h => by
      rw [List.drop_succ_cons]
      show (rest.drop index ++ [b]).headD Vec2i.ZERO =
        (m :: (rest ++ [b])).getD (index + 1) Vec2i.ZERO
      exact drop_headD_eq_getD m rest b index (Nat.le_of_succ_le_succ h)

/-! ### C7: splitting a wire segment -/

/-- **C7**: for a split point `p` on sub-segment `index` of the wire's
point sequence, `split_at index p` shrinks the original to run from
`endpoint_a` to `p`, returns a new trailing segment from `p` to the
original `endpoint_b` carrying the same simulation-wire handles, and the
two results' curves joined together are exactly the original wire's curve. -/
theorem split_at_spec (s : WireSegment) (index : ℕ) (p : Vec2i)
    (hidx : index ≤ s.midpoints.length)
    (hp : p2r p ∈ seg2 ((points s).getD index Vec2i.ZERO)
      ((points s).getD (index + 1) Vec2i.ZERO)) :
    (s.split_at index p).1.endpoint_a = s.endpoint_a ∧
    (s.split_at index p).1.endpoint_b = p ∧
    (s.split_at index p).2.endpoint_a = p ∧
    (s.split_at index p).2.endpoint_b = s.endpoint_b ∧
    (s.split_at index p).1.sim_wires = s.sim_wires ∧
    (s.split_at index p).2.sim_wires = s.sim_wires ∧
    geometry (s.split_at index p).1 ∪ geometry (s.split_at index p).2 =
      geometry s := by
  refine ⟨rfl, rfl, rfl, rfl, rfl, rfl, ?_⟩
  show polyline (s.endpoint_a ::
      ((if (s.midpoints.take index).getLast? = some p
        then (s.midpoints.take index).dropLast
        else s.midpoints.take index) ++ [p])) ∪
    polyline (p ::
      ((if (s.midpoints.drop index).head? = some p
        then (s.midpoints.drop index).tail
        else s.midpoints.drop index) ++ [s.endpoint_b])) =
    polyline (s.endpoint_a :: (s.midpoints ++ [s.endpoint_b]))
  conv_rhs => rw [← List.take_append_drop index s.midpoints]
  by_cases hL : (s.midpoints.take index).getLast? = some p
  · rw [if_pos hL]
    have hT : (s.midpoints.take index).dropLast ++ [p] = s.midpoints.take index :=
      List.dropLast_append_getLast? p hL
    by_cases hR : (s.midpoints.drop index).head? = some p
    · rw [if_pos hR]
      have hD : p :: (s.midpoints.drop index).tail = s.midpoints.drop index :=
        List.cons_head?_tail hR
      obtain ⟨y, ys, hyc⟩ := List.exists_cons_of_ne_nil
        (show (s.midpoints.drop index).tail ++ [s.endpoint_b] ≠ [] by simp)
      rw [show s.endpoint_a :: ((s.midpoints.take index).dropLast ++ [p]) =
        (s.endpoint_a :: (s.midpoints.take index).dropLast) ++ [p] from rfl]
      rw [polyline_glue (s.endpoint_a :: (s.midpoints.take index).dropLast) p
        ((s.midpoints.drop index).tail ++ [s.endpoint_b])]
      have horig : s.endpoint_a ::
          ((s.midpoints.take index ++ s.midpoints.drop index) ++ [s.endpoint_b]) =
          ((s.endpoint_a :: (s.midpoints.take index).dropLast) ++ [p]) ++
            p :: y :: ys := by
        rw [← hT, ← hD, ← hyc]
        simp [List.append_assoc]
      have hcombL : (s.endpoint_a :: (s.midpoints.take index).dropLast) ++
          p :: ((s.midpoints.drop index).tail ++ [s.endpoint_b]) =
          ((s.endpoint_a :: (s.midpoints.take index).dropLast) ++ [p]) ++
            y :: ys := by
        rw [hyc]
        simp [List.append_assoc]
      rw [hcombL, horig]
      exact (polyline_insert (s.endpoint_a :: (s.midpoints.take index).dropLast)
        p p y ys (left_mem_segment ℝ (p2r p) (p2r y))).symm
    · rw [if_neg hR]
      rw [show s.endpoint_a :: ((s.midpoints.take index).dropLast ++ [p]) =
        (s.endpoint_a :: (s.midpoints.take index).dropLast) ++ [p] from rfl]
      rw [polyline_glue (s.endpoint_a :: (s.midpoints.take index).dropLast) p
        (s.midpoints.drop index ++ [s.endpoint_b])]
      have hlist : (s.endpoint_a :: (s.midpoints.take index).dropLast) ++
          p :: (s.midpoints.drop index ++ [s.endpoint_b]) =
          s.endpoint_a :: ((s.midpoints.take index ++ s.midpoints.drop index) ++
            [s.endpoint_b]) := by
        rw [← hT]
        simp [List.append_assoc]
      rw [hlist]
  · rw [if_neg hL]
    by_cases hR : (s.midpoints.drop index).head? = some p
    · rw [if_pos hR]
      have hD : p :: (s.midpoints.drop index).tail = s.midpoints.drop index :=
        List.cons_head?_tail hR
      rw [show s.endpoint_a :: (s.midpoints.take index ++ [p]) =
        (s.endpoint_a :: s.midpoints.take index) ++ [p] from rfl]
      rw [polyline_glue (s.endpoint_a :: s.midpoints.take index) p
        ((s.midpoints.drop index).tail ++ [s.endpoint_b])]
      have hlist : (s.endpoint_a :: s.midpoints.take index) ++
          p :: ((s.midpoints.drop index).tail ++ [s.endpoint_b]) =
          s.endpoint_a :: ((s.midpoints.take index ++ s.midpoints.drop index) ++
            [s.endpoint_b]) := by
        rw [← hD]
        simp [List.append_assoc]
      rw [hlist]
    · rw [if_neg hR]
      rw [show s.endpoint_a :: (s.midpoints.take index ++ [p]) =
        (s.endpoint_a :: s.midpoints.take index) ++ [p] from rfl]
      rw [polyline_glue (s.endpoint_a :: s.midpoints.take index) p
        (s.midpoints.drop index ++ [s.endpoint_b])]
      have hXd := List.dropLast_append_getLast
        (List.cons_ne_nil s.endpoint_a (s.midpoints.take index))
      obtain ⟨y, ys, hyc⟩ := List.exists_cons_of_ne_nil
        (show s.midpoints.drop index ++ [s.endpoint_b] ≠ [] by simp)
      have hy : (s.midpoints.drop index ++ [s.endpoint_b]).headD Vec2i.ZERO =
          y := by rw [hyc]; rfl
      have hm : p2r p ∈ seg2
          ((s.endpoint_a :: s.midpoints.take index).getLast
            (List.cons_ne_nil s.endpoint_a (s.midpoints.take index))) y := by
        rw [show (s.endpoint_a :: s.midpoints.take index).getLast
            (List.cons_ne_nil s.endpoint_a (s.midpoints.take index)) =
            (points s).getD index Vec2i.ZERO from
          take_getLast_eq_getD s.endpoint_a s.midpoints s.endpoint_b index hidx]
        rw [show y = (points s).getD (index + 1) Vec2i.ZERO from by
          rw [← hy]
          exact drop_headD_eq_getD s.endpoint_a s.midpoints s.endpoint_b
            index hidx]
        exact hp
      have h1 : (s.endpoint_a :: s.midpoints.take index) ++
          p :: (s.midpoints.drop index ++ [s.endpoint_b]) =
          ((s.endpoint_a :: s.midpoints.take index).dropLast ++
            [(s.endpoint_a :: s.midpoints.take index).getLast
              (List.cons_ne_nil s.endpoint_a (s.midpoints.take index))]) ++
            p :: y :: ys := by
        rw [hXd, ← hyc]
      have h2 : s.endpoint_a ::
          ((s.midpoints.take index ++ s.midpoints.drop index) ++ [s.endpoint_b]) =
          ((s.endpoint_a :: s.midpoints.take index).dropLast ++
            [(s.endpoint_a :: s.midpoints.take index).getLast
              (List.cons_ne_nil s.endpoint_a (s.midpoints.take index))]) ++
            y :: ys := by
        rw [hXd, ← hyc]
        simp only [List.cons_append, List.append_assoc]
      rw [h1, h2]
      exact polyline_insert
        ((s.endpoint_a :: s.midpoints.take index).dropLast)
        ((s.endpoint_a :: s.midpoints.take index).getLast
          (List.cons_ne_nil s.endpoint_a (s.midpoints.take index)))
        p y ys hm

/-- Witness for the C7 theorem: splitting the wire above on its first
sub-segment at the interior point (1,1). -/
theorem split_at_spec_witness :
    ((0 : ℕ) ≤ c7_wire.midpoints.length ∧
      p2r ⟨1, 1⟩ ∈ seg2 ((points c7_wire).getD 0 Vec2i.ZERO)
        ((points c7_wire).getD (0 + 1) Vec2i.ZERO)) ∧
    ((c7_wire.split_at 0 ⟨1, 1⟩).1.endpoint_a = c7_wire.endpoint_a ∧
     (c7_wire.split_at 0 ⟨1, 1⟩).1.endpoint_b = ⟨1, 1⟩ ∧
     (c7_wire.split_at 0 ⟨1, 1⟩).2.endpoint_a = ⟨1, 1⟩ ∧
     (c7_wire.split_at 0 ⟨1, 1⟩).2.endpoint_b = c7_wire.endpoint_b ∧
     (c7_wire.split_at 0 ⟨1, 1⟩).1.sim_wires = c7_wire.sim_wires ∧
     (c7_wire.split_at 0 ⟨1, 1⟩).2.sim_wires = c7_wire.sim_wires ∧
     geometry (c7_wire.split_at 0 ⟨1, 1⟩).1 ∪
       geometry (c7_wire.split_at 0 ⟨1, 1⟩).2 = geometry c7_wire) := by
  have hmem : p2r ⟨1, 1⟩ ∈ seg2 ((points c7_wire).getD 0 Vec2i.ZERO)
      ((points c7_wire).getD (0 + 1) Vec2i.ZERO) := by
    show p2r ⟨1, 1⟩ ∈ segment ℝ (p2r ⟨0, 0⟩) (p2r ⟨2, 2⟩)
    refine ⟨1 / 2, 1 / 2, by norm_num, by norm_num, by norm_num, ?_⟩
    simp only [p2r, Prod.smul_mk, smul_eq_mul, Prod.mk_add_mk, Prod.mk.injEq]
    norm_num
  exact ⟨⟨Nat.zero_le _, hmem⟩,
    split_at_spec c7_wire 0 ⟨1, 1⟩ (Nat.zero_le _) hmem⟩

/-! ### Flood-fill and grouping lemmas (C3) -/

theorem segments_connect_symm {a b : WireSegment}
    (h : segments_connect a b) : segments_connect b a := by
  rcases h with h | h | h | h
  · exact Or.inl h.symm
  · exact Or.inr (Or.inr (Or.inl h.symm))
  · exact Or.inr (Or.inl h.symm)
  · exact Or.inr (Or.inr (Or.inr h.symm))

theorem seg_adj_symm (segs : List WireSegment) : Symmetric (seg_adj segs) := by
  rintro i j ⟨hi, hj, h⟩
  exact ⟨hj, hi, segments_connect_symm h⟩

theorem ext_refl (gIdx n : ℕ) (a : ℕ → Option ℕ) : Ext gIdx n a a :=
  fun _ => Or.inl rfl

theorem ext_trans {gIdx n : ℕ} {a b c : ℕ → Option ℕ}
    (h1 : Ext gIdx n a b) (h2 : Ext gIdx n b c) : Ext gIdx n a c := by
  intro k
  rcases h2 k with h | ⟨hbn, hcs, hk⟩
  · rcases h1 k with h' | ⟨han, hbs, hk⟩
    · exact Or.inl (h.trans h')
    · exact Or.inr ⟨han, h.trans hbs, hk⟩
  · rcases h1 k with h' | ⟨han, hbs, _⟩
    · exact Or.inr ⟨h'.symm.trans hbn, hcs, hk⟩
    · exact absurd (hbs.symm.trans hbn) (by simp)

theorem ext_update (gIdx n : ℕ) (gm : ℕ → Option ℕ) (i : ℕ) (hi : i < n)
    (hnone : gm i = none) :
    Ext gIdx n gm (Function.update gm i (some gIdx)) := by
  intro k
  by_cases hk : k = i
  · subst hk
    exact Or.inr ⟨hnone, Function.update_same k (some gIdx) gm, hi⟩
  · exact Or.inl (Function.update_noteq hk (some gIdx) gm)

theorem ext_some {gIdx n : ℕ} {a b : ℕ → Option ℕ} (h : Ext gIdx n a b)
    {k v : ℕ} (hs : a k = some v) : b k = some v := by
  rcases h k with h' | ⟨han, _, _⟩
  · exact h'.trans hs
  · exact absurd (han.symm.trans hs) (by simp)

theorem ext_isSome {gIdx n : ℕ} {a b : ℕ → Option ℕ} (h : Ext gIdx n a b)
    {k : ℕ} (hs : (a k).isSome) : (b k).isSome := by
  obtain ⟨v, hv⟩ := Option.isSome_iff_exists.mp hs
  rw [ext_some h hv]
  rfl

theorem ext_countNone_le {gIdx n : ℕ} {a b : ℕ → Option ℕ}
    (h : Ext gIdx n a b) : countNone n b ≤ countNone n a := by
  unfold countNone
  apply List.countP_mono_left
  intro k _ hk
  rcases h k with h' | ⟨han, hbs, _⟩
  · rw [← h']
    exact hk
  · rw [hbs] at hk
    exact absurd hk (by simp)

theorem countP_update_lt (gm : ℕ → Option ℕ) (i g : ℕ) (hnone : gm i = none) :
    ∀ (l : List ℕ), i ∈ l →
      l.countP (fun k => ((Function.update gm i (some g)) k).isNone) <
        l.countP (fun k => (gm k).isNone)
  | a :: l, hmem => by
      rw [List.countP_cons, List.countP_cons]
      have hle : l.countP (fun k => ((Function.update gm i (some g)) k).isNone) ≤
          l.countP (fun k => (gm k).isNone) := by
        apply List.countP_mono_left
        intro k _ hk
        by_cases hki : k = i
        · subst hki
          rw [Function.update_same] at hk
          exact absurd hk (by simp)
        · rw [Function.update_noteq hki] at hk
          exact hk
      by_cases ha : a = i
      · subst ha
        simp only [Function.update_same, hnone, Option.isNone_some,
          Option.isNone_none]
        simp only [Bool.false_eq_true, if_false, if_true]
        omega
      · rw [Function.update_noteq ha]
        have hmem2 : i ∈ l := by
          rcases List.mem_cons.mp hmem with h | h
          · exact absurd h.symm ha
          · exact h
        have := countP_update_lt gm i g hnone l hmem2
        omega

theorem countNone_update_lt (n : ℕ) (gm : ℕ → Option ℕ) (i g : ℕ)
    (hi : i < n) (hnone : gm i = none) :
    countNone n (Function.update gm i (some g)) < countNone n gm :=
  countP_update_lt gm i g hnone (List.range n) (List.mem_range.mpr hi)

theorem countNone_le (n : ℕ) (gm : ℕ → Option ℕ) : countNone n gm ≤ n := by
  unfold countNone
  calc (List.range n).countP _ ≤ (List.range n).length := List.countP_le_length _
  _ = n := List.length_range n

/-! ### Monotonicity of the flood fill -/

theorem fa_ext (segs : List WireSegment) (gIdx : ℕ) :
    ∀ (fuel : ℕ) (seg : WireSegment) (i : ℕ) (st : FloodState),
      Ext gIdx segs.length st.2 (find_adjacent segs gIdx fuel seg i st).2
  | 0, seg, i, st => by
      rw [find_adjacent]
      exact ext_refl gIdx segs.length st.2
  | fuel + 1, seg, i, st => by
      rw [find_adjacent]
      by_cases h : i < segs.length
      · rw [dif_pos h]
        by_cases hc : (st.2 i).isNone ∧
            segments_connect seg (segs.get ⟨i, h⟩)
        · rw [if_pos hc]
          have h0 : Ext gIdx segs.length st.2
              ((st.1 ++ [i], Function.update st.2 i (some gIdx)) :
                FloodState).2 :=
            ext_update gIdx segs.length st.2 i h
              (Option.isNone_iff_eq_none.mp hc.1)
          exact ext_trans h0 (ext_trans
            (fa_ext segs gIdx fuel (segs.get ⟨i, h⟩) 0
              (st.1 ++ [i], Function.update st.2 i (some gIdx)))
            (fa_ext segs gIdx (fuel + 1) seg (i + 1) _))
        · rw [if_neg hc]
          exact fa_ext segs gIdx (fuel + 1) seg (i + 1) st
      · rw [dif_neg h]
        exact ext_refl gIdx segs.length st.2
termination_by fuel _ i _ => (fuel, segs.length - i)
decreasing_by
  · exact Prod.Lex.left _ _ (Nat.lt_succ_self fuel)
  · exact Prod.Lex.right _ (by omega)
  · exact Prod.Lex.right _ (by omega)

/-! ### Soundness: new assignments are connected to the seed -/

theorem fa_sound (segs : List WireSegment) (gIdx : ℕ) :
    ∀ (fuel : ℕ) (seg : WireSegment) (i : ℕ) (st : FloodState)
      (s0 : ℕ) (hs0 : s0 < segs.length),
      segs.get ⟨s0, hs0⟩ = seg →
      ∀ k, (find_adjacent segs gIdx fuel seg i st).2 k ≠ st.2 k →
        Relation.ReflTransGen (seg_adj segs) s0 k
  | 0, seg, i, st, s0, hs0, hseg, k => by
      rw [find_adjacent]
      exact fun hne => absurd rfl hne
  | fuel + 1, seg, i, st, s0, hs0, hseg, k => by
      rw [find_adjacent]
      by_cases h : i < segs.length
      · rw [dif_pos h]
        by_cases hc : (st.2 i).isNone ∧
            segments_connect seg (segs.get ⟨i, h⟩)
        · rw [if_pos hc]
          intro hne
          have hstep : Relation.ReflTransGen (seg_adj segs) s0 i :=
            Relation.ReflTransGen.single ⟨hs0, h, hseg ▸ hc.2⟩
          by_cases e3 : (find_adjacent segs gIdx (fuel + 1) seg (i + 1)
              (find_adjacent segs gIdx fuel (segs.get ⟨i, h⟩) 0
                (st.1 ++ [i], Function.update st.2 i (some gIdx)))).2 k =
              (find_adjacent segs gIdx fuel (segs.get ⟨i, h⟩) 0
                (st.1 ++ [i], Function.update st.2 i (some gIdx))).2 k
          · by_cases e2 : (find_adjacent segs gIdx fuel (segs.get ⟨i, h⟩) 0
                (st.1 ++ [i], Function.update st.2 i (some gIdx))).2 k =
                Function.update st.2 i (some gIdx) k
            · have hki : k = i := by
                by_contra hne2
                exact hne (e3.trans (e2.trans
                  (Function.update_noteq hne2 (some gIdx) st.2)))
              subst hki
              exact hstep
            · exact hstep.trans
                (fa_sound segs gIdx fuel (segs.get ⟨i, h⟩) 0
                  (st.1 ++ [i], Function.update st.2 i (some gIdx)) i h rfl k e2)
          · exact fa_sound segs gIdx (fuel + 1) seg (i + 1) _ s0 hs0 hseg k e3
        · rw [if_neg hc]
          exact fa_sound segs gIdx (fuel + 1) seg (i + 1) st s0 hs0 hseg k
      · rw [dif_neg h]
        exact fun hne => absurd rfl hne
termination_by fuel _ i _ _ _ => (fuel, segs.length - i)
decreasing_by
  · exact Prod.Lex.left _ _ (Nat.lt_succ_self fuel)
  · exact Prod.Lex.right _ (by omega)
  · exact Prod.Lex.right _ (by omega)

/-! ### Scan closure: every connected slot at or after the scan index -/

theorem fa_scan (segs : List WireSegment) (gIdx : ℕ) :
    ∀ (fuel : ℕ) (seg : WireSegment) (i : ℕ) (st : FloodState),
      countNone segs.length st.2 < fuel →
      ∀ k (hk : k < segs.length), i ≤ k →
        segments_connect seg (segs.get ⟨k, hk⟩) →
        ((find_adjacent segs gIdx fuel seg i st).2 k).isSome
  | 0, seg, i, st => fun hfuel => absurd hfuel (Nat.not_lt_zero _)
  | fuel + 1, seg, i, st => by
      intro hfuel k hk hik hconn
      rw [find_adjacent]
      by_cases h : i < segs.length
      · rw [dif_pos h]
        by_cases hc : (st.2 i).isNone ∧
            segments_connect seg (segs.get ⟨i, h⟩)
        · rw [if_pos hc]
          have hnone : st.2 i = none := Option.isNone_iff_eq_none.mp hc.1
          have hu : countNone segs.length
              (Function.update st.2 i (some gIdx)) < countNone segs.length st.2 :=
            countNone_update_lt segs.length st.2 i gIdx h hnone
          have hf1 : countNone segs.length
              (Function.update st.2 i (some gIdx)) < fuel := by omega
          have hext2 := fa_ext segs gIdx fuel (segs.get ⟨i, h⟩) 0
            (st.1 ++ [i], Function.update st.2 i (some gIdx))
          have hf2 : countNone segs.length
              (find_adjacent segs gIdx fuel (segs.get ⟨i, h⟩) 0
                (st.1 ++ [i], Function.update st.2 i (some gIdx))).2 <
              fuel + 1 := by
            have hle := ext_countNone_le hext2
            rw [show ((st.1 ++ [i], Function.update st.2 i (some gIdx)) :
              FloodState).2 = Function.update st.2 i (some gIdx) from rfl] at hle
            omega
          by_cases hki : k = i
          · subst hki
            have h1 : (Function.update st.2 k (some gIdx)) k = some gIdx :=
              Function.update_same k (some gIdx) st.2
            have h2 := ext_some hext2 h1
            have h3 := ext_some (fa_ext segs gIdx (fuel + 1) seg (k + 1) _) h2
            rw [h3]
            rfl
          · exact fa_scan segs gIdx (fuel + 1) seg (i + 1) _ hf2 k hk
              (by omega) hconn
        · rw [if_neg hc]
          by_cases hki : k = i
          · subst hki
            have hsome : (st.2 k).isSome := by
              by_contra hns
              exact hc ⟨by
                rw [Option.not_isSome_iff_eq_none.mp hns]
                rfl, hconn⟩
            exact ext_isSome (fa_ext segs gIdx (fuel + 1) seg (k + 1) st) hsome
          · exact fa_scan segs gIdx (fuel + 1) seg (i + 1) st
              (by omega) k hk (by omega) hconn
      · exact absurd hk (by omega)
termination_by fuel _ i _ => (fuel, segs.length - i)
decreasing_by
  · exact Prod.Lex.right _ (by omega)
  · exact Prod.Lex.right _ (by omega)

/-! ### Hereditary closure: neighbours of newly assigned slots get
assigned -/

theorem fa_closed (segs : List WireSegment) (gIdx : ℕ) :
    ∀ (fuel : ℕ) (seg : WireSegment) (i : ℕ) (st : FloodState),
      countNone segs.length st.2 < fuel →
      ∀ k (hk : k < segs.length), st.2 k = none →
        ((find_adjacent segs gIdx fuel seg i st).2 k).isSome →
        ∀ l (hl : l < segs.length),
          segments_connect (segs.get ⟨k, hk⟩) (segs.get ⟨l, hl⟩) →
          ((find_adjacent segs gIdx fuel seg i st).2 l).isSome
  | 0, seg, i, st => fun hfuel => absurd hfuel (Nat.not_lt_zero _)
  | fuel + 1, seg, i, st => by
      intro hfuel k hk hknone hkres l hl hconn
      rw [find_adjacent] at hkres ⊢
      by_cases h : i < segs.length
      · rw [dif_pos h] at hkres ⊢
        by_cases hc : (st.2 i).isNone ∧
            segments_connect seg (segs.get ⟨i, h⟩)
        · rw [if_pos hc] at hkres ⊢
          have hnone : st.2 i = none := Option.isNone_iff_eq_none.mp hc.1
          have hu : countNone segs.length
              (Function.update st.2 i (some gIdx)) < countNone segs.length st.2 :=
            countNone_update_lt segs.length st.2 i gIdx h hnone
          have hf1 : countNone segs.length
              (Function.update st.2 i (some gIdx)) < fuel := by omega
          have hext2 := fa_ext segs gIdx fuel (segs.get ⟨i, h⟩) 0
            (st.1 ++ [i], Function.update st.2 i (some gIdx))
          have hf2 : countNone segs.length
              (find_adjacent segs gIdx fuel (segs.get ⟨i, h⟩) 0
                (st.1 ++ [i], Function.update st.2 i (some gIdx))).2 <
              fuel + 1 := by
            have hle := ext_countNone_le hext2
            rw [show ((st.1 ++ [i], Function.update st.2 i (some gIdx)) :
              FloodState).2 = Function.update st.2 i (some gIdx) from rfl] at hle
            omega
          by_cases hki : k = i
          · subst hki
            have hscan := fa_scan segs gIdx fuel (segs.get ⟨k, h⟩) 0
              (st.1 ++ [k], Function.update st.2 k (some gIdx)) hf1 l hl
              (Nat.zero_le l) hconn
            exact ext_isSome (fa_ext segs gIdx (fuel + 1) seg (k + 1) _) hscan
          · have hst1k : (Function.update st.2 i (some gIdx)) k = none := by
              rw [Function.update_noteq hki]
              exact hknone
            by_cases hst2k : ((find_adjacent segs gIdx fuel (segs.get ⟨i, h⟩) 0
                (st.1 ++ [i], Function.update st.2 i (some gIdx))).2 k).isSome
            · have h2 := fa_closed segs gIdx fuel (segs.get ⟨i, h⟩) 0
                (st.1 ++ [i], Function.update st.2 i (some gIdx)) hf1 k hk
                hst1k hst2k l hl hconn
              exact ext_isSome (fa_ext segs gIdx (fuel + 1) seg (i + 1) _) h2
            · have hst2k' : (find_adjacent segs gIdx fuel (segs.get ⟨i, h⟩) 0
                  (st.1 ++ [i], Function.update st.2 i (some gIdx))).2 k =
                  none := Option.not_isSome_iff_eq_none.mp hst2k
              exact fa_closed segs gIdx (fuel + 1) seg (i + 1) _ hf2 k hk
                hst2k' hkres l hl hconn
        · rw [if_neg hc] at hkres ⊢
          exact fa_closed segs gIdx (fuel + 1) seg (i + 1) st (by omega) k hk
            hknone hkres l hl hconn
      · rw [dif_neg h] at hkres
        rw [hknone] at hkres
        exact absurd hkres (by simp)
termination_by fuel _ i _ => (fuel, segs.length - i)
decreasing_by
  · exact Prod.Lex.left _ _ (Nat.lt_succ_self fuel)
  · exact Prod.Lex.right _ (by omega)
  · exact Prod.Lex.right _ (by omega)

/-! ### The outer loop invariant -/

theorem fwgl_spec (segs : List WireSegment) :
    ∀ (i : ℕ) (groups : List (List ℕ)) (gm : ℕ → Option ℕ),
      (∀ k, (gm k).isSome → k < segs.length) →
      (∀ k, k < i → k < segs.length → (gm k).isSome) →
      (∀ k g, gm k = some g → g < groups.length) →
      (∀ k l g (hk : k < segs.length) (hl : l < segs.length), gm k = some g →
        segments_connect (segs.get ⟨k, hk⟩) (segs.get ⟨l, hl⟩) →
        gm l = some g) →
      (∀ k l g, gm k = some g → gm l = some g →
        Relation.ReflTransGen (seg_adj segs) k l) →
      (∀ k, k < segs.length →
        (((find_wire_groups_loop segs i groups gm).2) k).isSome) ∧
      (∀ k l g (hk : k < segs.length) (hl : l < segs.length),
        (find_wire_groups_loop segs i groups gm).2 k = some g →
        segments_connect (segs.get ⟨k, hk⟩) (segs.get ⟨l, hl⟩) →
        (find_wire_groups_loop segs i groups gm).2 l = some g) ∧
      (∀ k l g, (find_wire_groups_loop segs i groups gm).2 k = some g →
        (find_wire_groups_loop segs i groups gm).2 l = some g →
        Relation.ReflTransGen (seg_adj segs) k l)
  | i, groups, gm => by
      intro hA hB hC hD hE
      rw [find_wire_groups_loop]
      by_cases h : i < segs.length
      · rw [dif_pos h]
        by_cases hni : (gm i).isNone = true
        · rw [if_pos hni]
          simp only []
          have hgmi : gm i = none := Option.isNone_iff_eq_none.mp hni
          obtain ⟨st, hst⟩ : ∃ st,
              find_adjacent segs groups.length (segs.length + 1)
                (segs.get ⟨i, h⟩) 0
                ([i], Function.update gm i (some groups.length)) = st :=
            ⟨_, rfl⟩
          rw [hst]
          have hExtU : Ext groups.length segs.length gm
              (Function.update gm i (some groups.length)) :=
            ext_update groups.length segs.length gm i h hgmi
          have hExtF : Ext groups.length segs.length
              (Function.update gm i (some groups.length)) st.2 := by
            have := fa_ext segs groups.length (segs.length + 1)
              (segs.get ⟨i, h⟩) 0
              ([i], Function.update gm i (some groups.length))
            rw [hst] at this
            exact this
          have hExt : Ext groups.length segs.length gm st.2 :=
            ext_trans hExtU hExtF
          have hfuel : countNone segs.length
              (([i], Function.update gm i (some groups.length)) :
                FloodState).2 < segs.length + 1 :=
            Nat.lt_succ_of_le (countNone_le segs.length _)
          have hSti : st.2 i = some groups.length :=
            ext_some hExtF (Function.update_same i (some groups.length) gm)
          have hA2 : ∀ k, (st.2 k).isSome → k < segs.length := by
            intro k hks
            rcases hExt k with hEk | ⟨_, _, hk⟩
            · exact hA k (by rw [← hEk]; exact hks)
            · exact hk
          have hB2 : ∀ k, k < i + 1 → k < segs.length → (st.2 k).isSome := by
            intro k hki hkn
            by_cases hk : k = i
            · subst hk
              rw [hSti]
              rfl
            · exact ext_isSome hExt (hB k (by omega) hkn)
          have hC2 : ∀ k g, st.2 k = some g →
              g < (groups ++ [st.1]).length := by
            intro k g hkg
            rw [List.length_append, List.length_singleton]
            rcases hExt k with hEk | ⟨_, hkg', _⟩
            · exact Nat.lt_succ_of_lt (hC k g (hEk ▸ hkg))
            · rw [hkg] at hkg'
              have hg := Option.some.inj hkg'
              omega
          have hD2 : ∀ k l g (hk : k < segs.length) (hl : l < segs.length),
              st.2 k = some g →
              segments_connect (segs.get ⟨k, hk⟩) (segs.get ⟨l, hl⟩) →
              st.2 l = some g := by
            intro k l g hk hl hkg hconn
            rcases hExt k with hEk | ⟨hknone, hkg', _⟩
            · have hgmk : gm k = some g := hEk ▸ hkg
              exact ext_some hExt (hD k l g hk hl hgmk hconn)
            · have hgn : g = groups.length := by
                rw [hkg] at hkg'
                exact Option.some.inj hkg'
              subst hgn
              have hlsome : (st.2 l).isSome := by
                by_cases hki : k = i
                · subst hki
                  have := fa_scan segs groups.length (segs.length + 1)
                    (segs.get ⟨k, h⟩) 0
                    ([k], Function.update gm k (some groups.length))
                    hfuel l hl (Nat.zero_le l) hconn
                  rw [hst] at this
                  exact this
                · have hupdk : (Function.update gm i (some groups.length)) k =
                      none := by
                    rw [Function.update_noteq hki]
                    exact hknone
                  have := fa_closed segs groups.length (segs.length + 1)
                    (segs.get ⟨i, h⟩) 0
                    ([i], Function.update gm i (some groups.length))
                    hfuel k hk hupdk (by rw [hst, hkg]; rfl) l hl hconn
                  rw [hst] at this
                  exact this
              obtain ⟨g2, hlg2⟩ := Option.isSome_iff_exists.mp hlsome
              rcases hExt l with hEl | ⟨_, hlg3, _⟩
              · have hgml : gm l = some g2 := hEl ▸ hlg2
                have := hD l k g2 hl hk hgml (segments_connect_symm hconn)
                rw [hknone] at this
                exact absurd this (by simp)
              · exact hlg3
          have hE2 : ∀ k l g, st.2 k = some g → st.2 l = some g →
              Relation.ReflTransGen (seg_adj segs) k l := by
            intro k l g hkg hlg
            rcases hExt k with hEk | ⟨hknone, hkg', _⟩
            · have hgmk : gm k = some g := hEk ▸ hkg
              rcases hExt l with hEl | ⟨_, hlg', _⟩
              · exact hE k l g hgmk (hEl ▸ hlg)
              · have hg1 : g = groups.length := by
                  rw [hlg] at hlg'
                  exact Option.some.inj hlg'
                have hg2 := hC k g hgmk
                omega
            · have hg1 : g = groups.length := by
                rw [hkg] at hkg'
                exact Option.some.inj hkg'
              rcases hExt l with hEl | ⟨hlnone, hlg', _⟩
              · have hgml : gm l = some g := hEl ▸ hlg
                have hg2 := hC l g hgml
                omega
              · have hik : Relation.ReflTransGen (seg_adj segs) i k := by
                  by_cases hki : k = i
                  · subst hki
                    exact Relation.ReflTransGen.refl
                  · refine fa_sound segs groups.length (segs.length + 1)
                      (segs.get ⟨i, h⟩) 0
                      ([i], Function.update gm i (some groups.length)) i h rfl
                      k ?_
                    rw [hst, hkg]
                    show some g ≠ Function.update gm i (some groups.length) k
                    rw [Function.update_noteq hki, hknone]
                    simp
                have hil : Relation.ReflTransGen (seg_adj segs) i l := by
                  by_cases hli : l = i
                  · subst hli
                    exact Relation.ReflTransGen.refl
                  · refine fa_sound segs groups.length (segs.length + 1)
                      (segs.get ⟨i, h⟩) 0
                      ([i], Function.update gm i (some groups.length)) i h rfl
                      l ?_
                    rw [hst, hlg']
                    show some groups.length ≠
                      Function.update gm i (some groups.length) l
                    rw [Function.update_noteq hli, hlnone]
                    simp
                exact Relation.ReflTransGen.trans
                  (Relation.ReflTransGen.symmetric (seg_adj_symm segs) hik) hil
          exact fwgl_spec segs (i + 1) (groups ++ [st.1]) st.2
            hA2 hB2 hC2 hD2 hE2
        · rw [if_neg hni]
          refine fwgl_spec segs (i + 1) groups gm hA ?_ hC hD hE
          intro k hki hkn
          by_cases hk : k = i
          · subst hk
            cases hgm : gm k with
            | none => exact absurd (by rw [hgm]; rfl) hni
            | some v => rfl
          · exact hB k (by omega) hkn
      · rw [dif_neg h]
        refine ⟨?_, hD, hE⟩
        intro k hkn
        exact hB k (by omega) hkn
termination_by i _ _ => segs.length - i
decreasing_by
  · omega
  · omega

/-! ### C3: wire grouping is connectivity -/

/-- **C3**: the returned group map of `find_wire_groups` assigns every
segment index exactly one group; two indices share a group value iff the
segments are joined by a chain of endpoint-sharing segments; and the
same-group relation is an equivalence. -/
theorem find_wire_groups_spec (segs : List WireSegment) :
    (∀ i, ∀ _ : i < segs.length,
      (((find_wire_groups segs).2) i).isSome) ∧
    (∀ i j, ∀ _ : i < segs.length, ∀ _ : j < segs.length,
      ((find_wire_groups segs).2 i = (find_wire_groups segs).2 j ↔
        Relation.ReflTransGen (seg_adj segs) i j)) ∧
    Equivalence (fun i j : ℕ =>
      (find_wire_groups segs).2 i = (find_wire_groups segs).2 j) := by
  have base := fwgl_spec segs 0 [] (fun _ => none)
    (fun k hk => absurd hk (by simp))
    (fun k hk _ => absurd hk (Nat.not_lt_zero k))
    (fun k g hg => absurd hg (by simp))
    (fun k l g _ _ hg _ => absurd hg (by simp))
    (fun k l g hg _ => absurd hg (by simp))
  obtain ⟨htot, hD, hE⟩ := base
  have hfw : find_wire_groups segs =
      find_wire_groups_loop segs 0 [] (fun _ => none) := rfl
  rw [hfw]
  refine ⟨fun i hi => htot i hi, ?_,
    ⟨fun _ => rfl, fun h => h.symm, fun h1 h2 => h1.trans h2⟩⟩
  intro i j hi hj
  constructor
  · intro heq
    obtain ⟨g, hg⟩ := Option.isSome_iff_exists.mp (htot i hi)
    exact hE i j g hg (heq ▸ hg)
  · intro hconn
    clear hi hj
    induction hconn with
    | refl => rfl
    | tail h1 h2 ih =>
        obtain ⟨hb, hc, hcon⟩ := h2
        obtain ⟨g, hg⟩ := Option.isSome_iff_exists.mp (htot _ hb)
        rw [ih, hg]
        exact (hD _ _ g hb hc hg hcon).symm

/-- Witness for the C3 theorem at the concrete segment list above. -/
theorem find_wire_groups_spec_witness :
    (((find_wire_groups c3_segs).2) 0).isSome ∧
    ((find_wire_groups c3_segs).2 0 = (find_wire_groups c3_segs).2 1 ↔
      Relation.ReflTransGen (seg_adj c3_segs) 0 1) ∧
    ((find_wire_groups c3_segs).2 0 = (find_wire_groups c3_segs).2 2 ↔
      Relation.ReflTransGen (seg_adj c3_segs) 0 2) :=
  ⟨(find_wire_groups_spec c3_segs).1 0 (by decide),
   (find_wire_groups_spec c3_segs).2.1 0 1 (by decide) (by decide),
   (find_wire_groups_spec c3_segs).2.1 0 2 (by decide) (by decide)⟩

end Gsim
